import Mathlib

/-!
# Verification of the Anki/Mochi Telegram bot core

A shallow embedding of the proposal-lifecycle and sync-reconciliation core of
`telegram_anki_mochi_bot.py`, together with theorems settling the spec claims.

All definitions are translated from the Python source; the remote card service
(an external collaborator) is modelled from its contract in spec section 6.
-/

namespace AnkiBot

/-! ## Python string primitives

Python `str.strip()` and `re.sub(r"\s+", "-", s)` restricted to the ASCII
whitespace characters Python's `\s` recognises. -/

/-- The ASCII whitespace characters recognised by Python's `str.strip` / `\s`. -/
def isPySpace (c : Char) : Bool :=
  c = ' ' || c = '\t' || c = '\n' || c = '\x0d' || c = '\x0b' || c = '\x0c'

/-- `str.strip()` on a character list. -/
def pyStripList (l : List Char) : List Char :=
  ((l.dropWhile isPySpace).reverse.dropWhile isPySpace).reverse

/-- `str.strip()`. -/
def pyStrip (s : String) : String :=
  ⟨pyStripList s.data⟩

/-- Helper for `re.sub(r"\s+", "-", s)`: `inWs` records whether the previous
character was whitespace (so a run contributes a single `'-'`). -/
def collapseWsAux : Bool → List Char → List Char
  | _, [] => []
  | inWs, c :: cs =>
    if isPySpace c then
      (if inWs then [] else ['-']) ++ collapseWsAux true cs
    else
      c :: collapseWsAux false cs

/-- `re.sub(r"\s+", "-", s)`: every maximal whitespace run becomes one `'-'`. -/
def collapseWs (s : String) : String :=
  ⟨collapseWsAux false s.data⟩

/-- The cleaning step of `normalize_tags`: `re.sub(r"\s+", "-", tag.strip())`. -/
def cleanTag (t : String) : String :=
  collapseWs (pyStrip t)

/-- Python `str.lower()` (ASCII letters). -/
def pyLower (s : String) : String :=
  ⟨s.data.map Char.toLower⟩

/-- Accumulator form of `normalize_tags`: `seen` is the set of lower-cased
dedup keys already emitted.  Mirrors the loop in the source (all inputs are
strings here, so the `isinstance` guard is vacuous). -/
def normalize_tags_aux (seen : List String) : List String → List String
  | [] => []
  | t :: ts =>
    let cleaned := cleanTag t
    if cleaned = "" then normalize_tags_aux seen ts
    else if pyLower cleaned ∈ seen then normalize_tags_aux seen ts
    else cleaned :: normalize_tags_aux (pyLower cleaned :: seen) ts

/-- `normalize_tags(tags)`: trim, collapse inner whitespace to `-`, drop empty
tags, drop case-insensitive duplicates keeping the first occurrence's casing
and position. -/
def normalize_tags (tags : List String) : List String :=
  normalize_tags_aux [] tags

/-! ## SHA-256 over byte lists

`hashlib.sha256`, embedded with `Nat` words reduced mod `2 ^ 32`. -/

/-- `2 ^ 32`. -/
def M32 : Nat := 4294967296

/-- 32-bit xor. -/
def xor32 (a b : Nat) : Nat := a ^^^ b

/-- 32-bit and. -/
def and32 (a b : Nat) : Nat := a &&& b

/-- 32-bit complement (argument assumed reduced mod `2 ^ 32`). -/
def not32 (a : Nat) : Nat := M32 - 1 - a % M32

/-- 32-bit addition. -/
def add32 (a b : Nat) : Nat := (a + b) % M32

/-- Rotate a 32-bit word right by `n`. -/
def rotr32 (n x : Nat) : Nat := (x / 2 ^ n + x % 2 ^ n * 2 ^ (32 - n)) % M32

/-- Logical shift right. -/
def shr32 (n x : Nat) : Nat := x / 2 ^ n

/-- SHA-256 `Ch`. -/
def shaCh (e f g : Nat) : Nat := xor32 (and32 e f) (and32 (not32 e) g)

/-- SHA-256 `Maj`. -/
def shaMaj (a b c : Nat) : Nat := xor32 (and32 a b) (xor32 (and32 a c) (and32 b c))

/-- SHA-256 `Σ0`. -/
def bsig0 (x : Nat) : Nat := xor32 (rotr32 2 x) (xor32 (rotr32 13 x) (rotr32 22 x))

/-- SHA-256 `Σ1`. -/
def bsig1 (x : Nat) : Nat := xor32 (rotr32 6 x) (xor32 (rotr32 11 x) (rotr32 25 x))

/-- SHA-256 `σ0`. -/
def ssig0 (x : Nat) : Nat := xor32 (rotr32 7 x) (xor32 (rotr32 18 x) (shr32 3 x))

/-- SHA-256 `σ1`. -/
def ssig1 (x : Nat) : Nat := xor32 (rotr32 17 x) (xor32 (rotr32 19 x) (shr32 10 x))

/-- SHA-256 round constants. -/
def sha256K : List Nat :=
  [1116352408, 1899447441, 3049323471, 3921009573, 961987163, 1508970993,
   2453635748, 2870763221, 3624381080, 310598401, 607225278, 1426881987,
   1925078388, 2162078206, 2614888103, 3248222580, 3835390401, 4022224774,
   264347078, 604807628, 770255983, 1249150122, 1555081692, 1996064986,
   2554220882, 2821834349, 2952996808, 3210313671, 3336571891, 3584528711,
   113926993, 338241895, 666307205, 773529912, 1294757372, 1396182291,
   1695183700, 1986661051, 2177026350, 2456956037, 2730485921, 2820302411,
   3259730800, 3345764771, 3516065817, 3600352804, 4094571909, 275423344,
   430227734, 506948616, 659060556, 883997877, 958139571, 1322822218,
   1537002063, 1747873779, 1955562222, 2024104815, 2227730452, 2361852424,
   2428436474, 2756734187, 3204031479, 3329325298]

/-- SHA-256 initial hash value. -/
def sha256H0 : List Nat :=
  [1779033703, 3144134277, 1013904242, 2773480762,
   1359893119, 2600822924, 528734635, 1541459225]

/-- Extend 16 message words into the 64-word schedule. -/
def extendW (w0 : List Nat) : List Nat :=
  (List.range 48).foldl
    (fun w _ =>
      let i := w.length
      w ++ [add32 (add32 (ssig1 (w.getD (i - 2) 0)) (w.getD (i - 7) 0))
              (add32 (ssig0 (w.getD (i - 15) 0)) (w.getD (i - 16) 0))])
    w0

/-- One SHA-256 compression step. -/
def shaStep (st : List Nat) (kw : Nat × Nat) : List Nat :=
  match st with
  | [a, b, c, d, e, f, g, h] =>
    let t1 := add32 h (add32 (bsig1 e) (add32 (shaCh e f g) (add32 kw.1 kw.2)))
    let t2 := add32 (bsig0 a) (shaMaj a b c)
    [add32 t1 t2, a, b, c, add32 d t1, e, f, g]
  | st => st

/-- Compress one 16-word block into the running hash. -/
def compressBlock (hs : List Nat) (block : List Nat) : List Nat :=
  let w := extendW block
  let fin := (sha256K.zip w).foldl shaStep hs
  (hs.zip fin).map (fun p => add32 p.1 p.2)

/-- Big-endian 8-byte encoding. -/
def be64 (n : Nat) : List Nat :=
  [n / 2 ^ 56 % 256, n / 2 ^ 48 % 256, n / 2 ^ 40 % 256, n / 2 ^ 32 % 256,
   n / 2 ^ 24 % 256, n / 2 ^ 16 % 256, n / 2 ^ 8 % 256, n % 256]

/-- SHA-256 padding: `0x80`, zeros to 56 mod 64, then the bit length. -/
def sha256Pad (msg : List Nat) : List Nat :=
  let L := msg.length
  msg ++ [128] ++ List.replicate ((119 - L % 64) % 64) 0 ++ be64 (8 * L)

/-- Group bytes into big-endian 32-bit words. -/
def bytesToWords : List Nat → List Nat
  | b0 :: b1 :: b2 :: b3 :: rest => (((b0 * 256 + b1) * 256 + b2) * 256 + b3) :: bytesToWords rest
  | _ => []

/-- Split a word list into 16-word blocks (fueled). -/
def chunk16 : Nat → List Nat → List (List Nat)
  | 0, _ => []
  | _, [] => []
  | fuel + 1, ws => ws.take 16 :: chunk16 fuel (ws.drop 16)

/-- SHA-256 digest of a byte list, as 32 bytes. -/
def sha256Bytes (msg : List Nat) : List Nat :=
  let padded := sha256Pad msg
  let blocks := chunk16 padded.length (bytesToWords padded)
  let hs := blocks.foldl compressBlock sha256H0
  hs.foldr (fun w acc => [w / 2 ^ 24 % 256, w / 2 ^ 16 % 256, w / 2 ^ 8 % 256, w % 256] ++ acc) []

/-- Lower-case hex digit. -/
def hexDigit (n : Nat) : Char := if n < 10 then Char.ofNat (48 + n) else Char.ofNat (87 + n)

/-- Two-digit hex of a byte. -/
def byteToHex (b : Nat) : List Char := [hexDigit (b / 16), hexDigit (b % 16)]

/-- Lower-case hex string of a byte list (`hexdigest`). -/
def bytesToHex (bs : List Nat) : String := ⟨bs.foldr (fun b acc => byteToHex b ++ acc) []⟩

/-- UTF-8 encoding of one character. -/
def utf8Char (c : Char) : List Nat :=
  let n := c.toNat
  if n < 128 then [n]
  else if n < 2048 then [192 + n / 64, 128 + n % 64]
  else if n < 65536 then [224 + n / 4096, 128 + n / 64 % 64, 128 + n % 64]
  else [240 + n / 262144, 128 + n / 4096 % 64, 128 + n / 64 % 64, 128 + n % 64]

/-- UTF-8 encoding of a string. -/
def utf8 (s : String) : List Nat := s.data.foldr (fun c acc => utf8Char c ++ acc) []

/-! ## Canonical JSON serialization and content hashes

`json.dumps(payload, ensure_ascii=False, sort_keys=True, separators=(",", ":"))`
for the two fixed payload shapes used by `note_hash` / `mochi_card_hash`,
followed by `hashlib.sha256(...).hexdigest()` (`stable_json_hash`). -/

/-- JSON escaping of one character (`ensure_ascii=False`). -/
def jsonEscapeChar (c : Char) : List Char :=
  if c = '"' then ['\\', '"']
  else if c = '\\' then ['\\', '\\']
  else if c.toNat = 8 then ['\\', 'b']
  else if c.toNat = 9 then ['\\', 't']
  else if c.toNat = 10 then ['\\', 'n']
  else if c.toNat = 12 then ['\\', 'f']
  else if c.toNat = 13 then ['\\', 'r']
  else if c.toNat < 32 then ['\\', 'u', '0', '0', hexDigit (c.toNat / 16), hexDigit (c.toNat % 16)]
  else [c]

/-- JSON string literal. -/
def jsonStr (s : String) : String :=
  "\"" ++ ⟨s.data.foldr (fun c acc => jsonEscapeChar c ++ acc) []⟩ ++ "\""

/-- JSON array of string literals. -/
def jsonStrList (ts : List String) : String :=
  "[" ++ String.intercalate "," (ts.map jsonStr) ++ "]"

/-- `stable_json_hash` applied to an already-serialized payload string. -/
def stable_json_hash (raw : String) : String := bytesToHex (sha256Bytes (utf8 raw))

/-- The semantic fields of a card (shared by Notes and Proposals). -/
structure Card where
  type : String
  front : String
  back : String
  cloze : String
  extra : String
  tags : List String
deriving DecidableEq, Repr

/-- The canonical (sorted-key) serialization of the `note_hash` payload. -/
def notePayloadJson (c : Card) : String :=
  "\x7b\"back\":" ++ jsonStr c.back ++ ",\"cloze\":" ++ jsonStr c.cloze ++
    ",\"extra\":" ++ jsonStr c.extra ++ ",\"front\":" ++ jsonStr c.front ++
    ",\"tags\":" ++ jsonStrList (normalize_tags c.tags) ++ ",\"type\":" ++ jsonStr c.type ++ "\x7d"

/-- `note_hash(note)`. -/
def note_hash (c : Card) : String := stable_json_hash (notePayloadJson c)

/-! ## Data model

The relational rows of the single-user slice of the store (every operation in
the source filters by one `user_id`, so one user's rows form a closed system).
Auto-increment identities are carried as `next_*` counters. -/

/-- Configuration default `MAX_SOURCE_TEXT_CHARS`. -/
def MAX_SOURCE_TEXT_CHARS : Nat := 12000

/-- Configuration default `PROPOSAL_MAX_NOTES`. -/
def PROPOSAL_MAX_NOTES : Nat := 3

/-- A `sources` row. -/
structure Source where
  id : Nat
  source_type : String
  source_label : String
  content_text : String
  url : String
  status : String
deriving DecidableEq, Repr

/-- A `notes` row. -/
structure Note where
  id : Nat
  type : String
  front : String
  back : String
  cloze : String
  extra : String
  tags : List String
  source_id : Nat
  origin : String
deriving DecidableEq, Repr

/-- The semantic fields of a note, as passed to `note_hash`. -/
def Note.card (n : Note) : Card :=
  ⟨n.type, n.front, n.back, n.cloze, n.extra, n.tags⟩

/-- A `note_proposals` row. -/
structure Proposal where
  id : Nat
  source_id : Nat
  parent_proposal_id : Nat
  root_proposal_id : Nat
  revision_index : Nat
  feedback_id : Nat
  type : String
  front : String
  back : String
  cloze : String
  extra : String
  tags : List String
  telegram_message_id : Nat
  status : String
  note_id : Nat
deriving DecidableEq, Repr

/-- A `proposal_feedback` row. -/
structure Feedback where
  id : Nat
  source_id : Nat
  target_proposal_id : Nat
  feedback_text : String
deriving DecidableEq, Repr

/-- A `mochi_sync` row (SyncLink). -/
structure SyncRow where
  note_id : Nat
  mochi_card_id : String
  mochi_deck_id : String
  local_hash : String
  remote_hash : String
  remote_updated_at : String
deriving DecidableEq, Repr

/-- One user's slice of the relational store. -/
structure Store where
  sources : List Source
  notes : List Note
  proposals : List Proposal
  feedbacks : List Feedback
  mochi_sync : List SyncRow
  next_source_id : Nat
  next_note_id : Nat
  next_proposal_id : Nat
  next_feedback_id : Nat
deriving DecidableEq, Repr

/-- The freshly initialized store (sqlite auto-increment starts at 1). -/
def Store.empty : Store := ⟨[], [], [], [], [], 1, 1, 1, 1⟩

/-! ## Store operations (one Python function each) -/

/-- Python `s[:n]`. -/
def pyTake (n : Nat) (s : String) : String := ⟨s.data.take n⟩

/-- `add_source(...)`; returns the new row id. -/
def add_source (s : Store) (source_type source_label content_text url status : String) :
    Store × Nat :=
  let status := if status = "pending" ∨ status = "processed" ∨ status = "ignored"
    then status else "pending"
  let row : Source := ⟨s.next_source_id, source_type, pyTake 160 source_label,
    pyTake MAX_SOURCE_TEXT_CHARS content_text, url, status⟩
  ({ s with sources := s.sources ++ [row], next_source_id := s.next_source_id + 1 },
    s.next_source_id)

/-- `set_source_status(...)`. -/
def set_source_status (s : Store) (source_id : Nat) (status : String) : Store :=
  if status = "pending" ∨ status = "processed" ∨ status = "ignored" then
    { s with sources :=
        s.sources.map (fun r => if r.id = source_id then { r with status := status } else r) }
  else s

/-- `get_source_by_id(...)`. -/
def get_source_by_id (s : Store) (source_id : Nat) : Option Source :=
  s.sources.find? (fun r => r.id = source_id)

/-- `add_note(...)`; returns the new row id.  Tags are stored normalized. -/
def add_note (s : Store) (note_type front back cloze extra : String) (tags : List String)
    (source_id : Nat) (origin : String) : Store × Nat :=
  let n : Note := ⟨s.next_note_id, note_type, front, back, cloze, extra,
    normalize_tags tags, source_id, origin⟩
  ({ s with notes := s.notes ++ [n], next_note_id := s.next_note_id + 1 }, s.next_note_id)

/-- `get_note_by_id(...)`. -/
def get_note_by_id (s : Store) (note_id : Nat) : Option Note :=
  s.notes.find? (fun n => n.id = note_id)

/-- `update_note_fields(...)`: rewrites the card fields, normalized tags and
origin of the addressed note; `source_id` and `id` are untouched. -/
def update_note_fields (s : Store) (note_id : Nat)
    (note_type front back cloze extra : String) (tags : List String) (origin : String) :
    Store :=
  { s with notes :=
      s.notes.map (fun n =>
        if n.id = note_id then
          { n with type := note_type, front := front, back := back, cloze := cloze,
                   extra := extra, tags := normalize_tags tags, origin := origin }
        else n) }

/-- `clear_user_notes(...)`. -/
def clear_user_notes (s : Store) : Store := { s with notes := [] }

/-- `link_mochi_sync(...)`: delete any row with the same note or the same
remote card, then insert the fresh row. -/
def link_mochi_sync (s : Store) (note_id : Nat)
    (mochi_card_id mochi_deck_id local_hash remote_hash remote_updated_at : String) : Store :=
  let kept := s.mochi_sync.filter
    (fun r => ¬(r.note_id = note_id ∨ r.mochi_card_id = mochi_card_id))
  let row : SyncRow :=
    ⟨note_id, mochi_card_id, mochi_deck_id, local_hash, remote_hash, remote_updated_at⟩
  { s with mochi_sync := kept ++ [row] }

/-- `remove_mochi_sync_by_card(...)`. -/
def remove_mochi_sync_by_card (s : Store) (mochi_card_id : String) : Store :=
  { s with mochi_sync := s.mochi_sync.filter (fun r => ¬r.mochi_card_id = mochi_card_id) }

/-- `add_note_proposal(...)`; returns the new row id.  Negative threading
arguments are clamped to 0, and a non-positive `root_proposal_id` argument is
replaced by the proposal's own id right after the insert. -/
def add_note_proposal (s : Store) (source_id : Nat) (note : Card)
    (telegram_message_id : Nat) (parent_proposal_id root_proposal_id revision_index
    feedback_id : Int) : Store × Nat :=
  let pid := s.next_proposal_id
  let p : Proposal :=
    { id := pid, source_id := source_id,
      parent_proposal_id := parent_proposal_id.toNat,
      root_proposal_id := root_proposal_id.toNat,
      revision_index := revision_index.toNat,
      feedback_id := feedback_id.toNat,
      type := note.type, front := note.front, back := note.back, cloze := note.cloze,
      extra := note.extra, tags := normalize_tags note.tags,
      telegram_message_id := telegram_message_id, status := "pending", note_id := 0 }
  let s' := { s with proposals := s.proposals ++ [p], next_proposal_id := pid + 1 }
  if root_proposal_id ≤ 0 then
    ({ s' with proposals :=
        s'.proposals.map (fun q => if q.id = pid then { q with root_proposal_id := pid } else q) },
      pid)
  else (s', pid)

/-- `set_note_proposal_message_id(...)`. -/
def set_note_proposal_message_id (s : Store) (proposal_id message_id : Nat) : Store :=
  let upd := fun (q : Proposal) =>
    if q.id = proposal_id then { q with telegram_message_id := message_id } else q
  { s with proposals := s.proposals.map upd }

/-- `get_pending_proposal_by_message(...)`: the first pending proposal carrying
the outbound message id. -/
def get_pending_proposal_by_message (s : Store) (message_id : Nat) : Option Proposal :=
  s.proposals.find? (fun q => q.telegram_message_id = message_id && q.status = "pending")

/-- `add_proposal_feedback(...)`; returns the new row id. -/
def add_proposal_feedback (s : Store) (source_id target_proposal_id : Nat)
    (feedback_text : String) : Store × Nat :=
  let row : Feedback := ⟨s.next_feedback_id, source_id, target_proposal_id,
    pyStrip feedback_text⟩
  ({ s with feedbacks := s.feedbacks ++ [row], next_feedback_id := s.next_feedback_id + 1 },
    s.next_feedback_id)

/-- `set_proposal_decision(...)`: only the three terminal statuses are
accepted; status, `note_id` and the decision timestamp of the addressed row
are rewritten. -/
def set_proposal_decision (s : Store) (proposal_id : Nat) (status : String)
    (note_id : Nat) : Store :=
  if status = "approved" ∨ status = "rejected" ∨ status = "expired" then
    { s with proposals :=
        s.proposals.map (fun q =>
          if q.id = proposal_id then { q with status := status, note_id := note_id } else q) }
  else s

/-- `expire_pending_proposals_for_source(...)`; returns the number of rows
expired. -/
def expire_pending_proposals_for_source (s : Store) (source_id : Nat) : Store × Nat :=
  ({ s with proposals :=
      s.proposals.map (fun q =>
        if q.source_id = source_id ∧ q.status = "pending" then
          { q with status := "expired", note_id := 0 }
        else q) },
   (s.proposals.filter (fun q => q.source_id = source_id && q.status = "pending")).length)

/-! ## The remote card service

Modelled from the spec: the Mochi card service itself is an external
collaborator (spec section 6 gives the contract the engine depends on:
`createCard` returns the stored card with an id, `getCard` returns the card or
not-found, `listCards` lists a deck's cards).  The store is deterministic and
echoes stored cards unchanged; the service-visible tag collection echoes the
submitted manual tags. -/

/-- A remote card (`id`, `content`, `deck-id`, `name`, `manual-tags`, `tags`,
`updated-at`). -/
structure MochiCard where
  id : String
  content : String
  deckId : String
  name : String
  manualTags : List String
  tags : List String
  updatedAt : String
deriving DecidableEq, Repr

/-- The remote service state. -/
structure Remote where
  cards : List MochiCard
  nextId : Nat
deriving DecidableEq, Repr

/-- The card-creation payload the engine sends
(`{"content", "deck-id", "manual-tags"}`). -/
structure CardPayload where
  content : String
  deckId : String
  manualTags : List String
deriving DecidableEq, Repr

/-- `mochi_create_card`: the service stores the payload under a fresh id and
returns the stored card. -/
def mochi_create_card (r : Remote) (p : CardPayload) : Remote × MochiCard :=
  let c : MochiCard :=
    ⟨"mc" ++ toString r.nextId, p.content, p.deckId, "", p.manualTags, p.manualTags, ""⟩
  (⟨r.cards ++ [c], r.nextId + 1⟩, c)

/-- `mochi_get_card` (404 becomes `none`). -/
def mochi_get_card (r : Remote) (card_id : String) : Option MochiCard :=
  r.cards.find? (fun c => c.id = card_id)

/-- `mochi_list_cards`: the full paginated listing of one deck. -/
def mochi_list_cards (r : Remote) (deck_id : String) : List MochiCard :=
  r.cards.filter (fun c => c.deckId = deck_id)

/-- `mochi_card_updated_at(card)`. -/
def mochi_card_updated_at (c : MochiCard) : String := c.updatedAt

/-- The canonical serialization of the `mochi_card_hash` payload
(`content`, `deck-id`, `tags`, keys sorted). -/
def mochiPayloadJson (content deckId : String) (tags : List String) : String :=
  "\x7b\"content\":" ++ jsonStr content ++ ",\"deck-id\":" ++ jsonStr deckId ++
    ",\"tags\":" ++ jsonStrList tags ++ "\x7d"

/-- `mochi_card_hash(card)`. -/
def mochi_card_hash (c : MochiCard) : String :=
  stable_json_hash (mochiPayloadJson c.content c.deckId c.tags)

/-! ## Remote field mapping (push/pull content shape) -/

/-- Lazy body of a cloze marker: the shortest run of non-newline characters
up to the first `}}` (the `(.*?)\}\}` part, `.` not matching newlines). -/
def takeClozeBody : List Char → Option (List Char × List Char)
  | [] => none
  | '}' :: '}' :: rest => some ([], rest)
  | '\n' :: _ => none
  | c :: cs =>
    match takeClozeBody cs with
    | some (b, r) => some (c :: b, r)
    | none => none

/-- Match `\{\{c(\d+)::(.*?)\}\}` at the head; returns digits, body, rest. -/
def tryAnkiMarker : List Char → Option (List Char × List Char × List Char)
  | '{' :: '{' :: 'c' :: rest =>
    let ds := rest.takeWhile Char.isDigit
    if ds = [] then none
    else
      match rest.dropWhile Char.isDigit with
      | ':' :: ':' :: rest2 =>
        match takeClozeBody rest2 with
        | some (body, tail) => some (ds, body, tail)
        | none => none
      | _ => none
  | _ => none

/-- Match `\{\{(\d+)::(.*?)\}\}` at the head; returns digits, body, rest. -/
def tryMochiMarker : List Char → Option (List Char × List Char × List Char)
  | '{' :: '{' :: rest =>
    let ds := rest.takeWhile Char.isDigit
    if ds = [] then none
    else
      match rest.dropWhile Char.isDigit with
      | ':' :: ':' :: rest2 =>
        match takeClozeBody rest2 with
        | some (body, tail) => some (ds, body, tail)
        | none => none
      | _ => none
  | _ => none

/-- Left-to-right non-overlapping substitution of Anki cloze markers by Mochi
ones (fueled scan; the fuel is the remaining length). -/
def subAnkiToMochi : Nat → List Char → List Char
  | 0, l => l
  | _ + 1, [] => []
  | fuel + 1, c :: cs =>
    match tryAnkiMarker (c :: cs) with
    | some (ds, body, rest) =>
      '{' :: '{' :: (ds ++ ':' :: ':' :: body ++ ['}', '}']) ++ subAnkiToMochi fuel rest
    | none => c :: subAnkiToMochi fuel cs

/-- Left-to-right non-overlapping substitution of Mochi cloze markers by Anki
ones. -/
def subMochiToAnki : Nat → List Char → List Char
  | 0, l => l
  | _ + 1, [] => []
  | fuel + 1, c :: cs =>
    match tryMochiMarker (c :: cs) with
    | some (ds, body, rest) =>
      '{' :: '{' :: 'c' :: (ds ++ ':' :: ':' :: body ++ ['}', '}']) ++ subMochiToAnki fuel rest
    | none => c :: subMochiToAnki fuel cs

/-- `anki_cloze_to_mochi(md)`: `{{cN::...}}` becomes `{{N::...}}`. -/
def anki_cloze_to_mochi (md : String) : String :=
  ⟨subAnkiToMochi md.data.length md.data⟩

/-- `mochi_cloze_to_anki(md)`: `{{N::...}}` becomes `{{cN::...}}`. -/
def mochi_cloze_to_anki (md : String) : String :=
  ⟨subMochiToAnki md.data.length md.data⟩

/-- `mochi_note_content(n)`: serialize a card's fields into the two-part
remote body. -/
def mochi_note_content (n : Card) : String :=
  if n.type = "cloze" then
    let base := anki_cloze_to_mochi n.cloze
    if n.extra ≠ "" then base ++ "\n\n---\n" ++ n.extra else base
  else
    let content := n.front ++ "\n\n---\n" ++ n.back
    if n.extra ≠ "" then content ++ "\n\n" ++ n.extra else content

/-- Match `\n-{3,}\n` at the head (greedy dash run, then a newline); returns
the match length. -/
def sepMatchLen : List Char → Option Nat
  | '\n' :: rest =>
    let ds := rest.takeWhile (fun c => c = '-')
    if 3 ≤ ds.length ∧ (rest.drop ds.length).head? = some '\n' then some (ds.length + 2)
    else none
  | _ => none

/-- `MOCHI_SEPARATOR_RE.search`: leftmost match position and length. -/
def findSep : Nat → List Char → Option (Nat × Nat)
  | 0, _ => none
  | _ + 1, [] => none
  | fuel + 1, c :: cs =>
    match sepMatchLen (c :: cs) with
    | some len => some (0, len)
    | none =>
      match findSep fuel cs with
      | some (i, len) => some (i + 1, len)
      | none => none

/-- `mochi_split_content(content)`. -/
def mochi_split_content (content : String) : String × String :=
  if content = "" then ("", "")
  else
    match findSep content.data.length content.data with
    | none => (pyStrip content, "")
    | some (i, len) =>
      (pyStrip ⟨content.data.take i⟩, pyStrip ⟨content.data.drop (i + len)⟩)

/-- `"{{" in s`. -/
def hasDoubleBrace : List Char → Bool
  | '{' :: '{' :: _ => true
  | _ :: cs => hasDoubleBrace cs
  | [] => false

/-- Does `\{\{\d+::` match at the very start of the text? -/
def mochiMarkerHere : List Char → Bool
  | '{' :: '{' :: rest =>
    rest.takeWhile Char.isDigit ≠ [] &&
      (match rest.dropWhile Char.isDigit with
       | ':' :: ':' :: _ => true
       | _ => false)
  | _ => false

/-- `re.search(r"\{\{\d+::", s)` as a Bool: a match at some position. -/
def hasMochiMarkerStart : List Char → Bool
  | [] => false
  | l@(_ :: cs) => mochiMarkerHere l || hasMochiMarkerStart cs

/-- Python `str.splitlines()` worker (`\n`, `\r\n` and `\r` boundaries). -/
def splitlinesGo : List Char → List Char → List (List Char)
  | acc, [] => [acc.reverse]
  | acc, '\n' :: [] => [acc.reverse]
  | acc, '\n' :: rest => acc.reverse :: splitlinesGo [] rest
  | acc, '\x0d' :: '\n' :: [] => [acc.reverse]
  | acc, '\x0d' :: '\n' :: rest => acc.reverse :: splitlinesGo [] rest
  | acc, '\x0d' :: [] => [acc.reverse]
  | acc, '\x0d' :: rest => acc.reverse :: splitlinesGo [] rest
  | acc, c :: rest => splitlinesGo (c :: acc) rest

/-- Python `str.splitlines()`. -/
def splitlinesPy (s : String) : List String :=
  if s.data = [] then [] else (splitlinesGo [] s.data).map (⟨·⟩)

/-- `mochi_extract_tags(card)`: `manual-tags` if non-empty else `tags`,
normalized. -/
def mochi_extract_tags (card : MochiCard) : List String :=
  normalize_tags (if card.manualTags ≠ [] then card.manualTags else card.tags)

/-- `mochi_card_to_local_note(card)`: the remote-to-local field mapping. -/
def mochi_card_to_local_note (card : MochiCard) : Card :=
  let content := pyStrip card.content
  let title := pyStrip card.name
  let tags := mochi_extract_tags card
  let lr := mochi_split_content content
  let left := lr.1
  let right := lr.2
  let cloze_zone := if left ≠ "" then left else content
  if hasDoubleBrace cloze_zone.data ∧ hasMochiMarkerStart cloze_zone.data then
    { type := "cloze", front := "", back := "",
      cloze := mochi_cloze_to_anki cloze_zone, extra := right, tags := tags }
  else if right ≠ "" then
    { type := "basic",
      front := if left ≠ "" then left else if title ≠ "" then title else "Untitled",
      back := right, cloze := "", extra := "", tags := tags }
  else
    let lines := ((splitlinesPy content).map pyStrip).filter (fun ln => ln ≠ "")
    if 2 ≤ lines.length then
      { type := "basic", front := lines.headI,
        back := String.intercalate "\n" lines.tail, cloze := "", extra := "", tags := tags }
    else
      { type := "basic",
        front := if title ≠ "" then title
          else if lines ≠ [] then lines.headI else "Untitled",
        back := if title ≠ "" then content else "", cloze := "", extra := "", tags := tags }

/-! ## Sync reconciliation engine -/

/-- The counters returned by `sync_push_to_mochi`. -/
structure PushResult where
  total_notes : Nat
  created : Nat
  already_linked : Nat
  recreated_missing_remote : Nat
  skipped : Nat
  local_changed_not_pushed : Nat
deriving DecidableEq, Repr

/-- The loop body of `sync_push_to_mochi` for one note.  `snapshot` is the
`link_by_note` map taken before the loop. -/
def pushOne (deck_id : String) (snapshot : List SyncRow) :
    Store × Remote × PushResult → Note → Store × Remote × PushResult
  | (s, r, res), n =>
    let local_hash := note_hash n.card
    let payload : CardPayload := ⟨mochi_note_content n.card, deck_id, n.tags⟩
    match snapshot.find? (fun row => row.note_id = n.id) with
    | some row =>
      let recreate := fun () =>
        let rc := mochi_create_card r payload
        let s' := link_mochi_sync s n.id rc.2.id deck_id local_hash
          (mochi_card_hash rc.2) (mochi_card_updated_at rc.2)
        (s', rc.1,
          { res with recreated_missing_remote := res.recreated_missing_remote + 1 })
      match mochi_get_card r row.mochi_card_id with
      | none => recreate ()
      | some remote =>
        if remote.deckId ≠ deck_id then recreate ()
        else
          let flagged := row.local_hash ≠ "" ∧ row.local_hash ≠ local_hash
          let local_hash_for_link := if flagged then row.local_hash else local_hash
          let bump := if flagged then 1 else 0
          let s' := link_mochi_sync s n.id row.mochi_card_id deck_id local_hash_for_link
            (mochi_card_hash remote) (mochi_card_updated_at remote)
          (s', r,
            { res with
              already_linked := res.already_linked + 1,
              local_changed_not_pushed := res.local_changed_not_pushed + bump })
    | none =>
      let rc := mochi_create_card r payload
      if rc.2.id = "" then
        (s, rc.1, { res with skipped := res.skipped + 1 })
      else
        let s' := link_mochi_sync s n.id rc.2.id deck_id local_hash
          (mochi_card_hash rc.2) (mochi_card_updated_at rc.2)
        (s', rc.1, { res with created := res.created + 1 })

/-- `sync_push_to_mochi(conn, user, key, deck_id, notes)`. -/
def sync_push_to_mochi (s : Store) (r : Remote) (deck_id : String) (notes : List Note) :
    Store × Remote × PushResult :=
  notes.foldl (pushOne deck_id s.mochi_sync) (s, r, ⟨notes.length, 0, 0, 0, 0, 0⟩)

/-- The counters returned by `sync_pull_from_mochi`. -/
structure PullResult where
  remote_cards : Nat
  created_local : Nat
  updated_local : Nat
  unchanged : Nat
  removed_stale_links : Nat
deriving DecidableEq, Repr

/-- The loop body of `sync_pull_from_mochi` for one listed card.
`linkSnapshot` is the `link_by_card` map taken before the loop; the middle
component accumulates `seen_card_ids`. -/
def pullOne (deck_id : String) (linkSnapshot : List SyncRow) :
    Store × List String × PullResult → MochiCard → Store × List String × PullResult
  | (s, seen, res), card =>
    let card_id := pyStrip card.id
    if card_id = "" then (s, seen, res)
    else if card.deckId ≠ deck_id then (s, seen, res)
    else
      let seen' := seen ++ [card_id]
      let remote_hash := mochi_card_hash card
      let remote_updated_at := mochi_card_updated_at card
      let parsed := mochi_card_to_local_note card
      match linkSnapshot.find? (fun l => l.mochi_card_id = card_id) with
      | some link =>
        match get_note_by_id s link.note_id with
        | none => (remove_mochi_sync_by_card s card_id, seen', res)
        | some note =>
          if link.remote_hash ≠ remote_hash then
            let s1 := update_note_fields s note.id parsed.type parsed.front parsed.back
              parsed.cloze parsed.extra parsed.tags "mochi_pull"
            let res1 := { res with updated_local := res.updated_local + 1 }
            match get_note_by_id s1 note.id with
            | some nn =>
              (link_mochi_sync s1 nn.id card_id deck_id (note_hash nn.card)
                remote_hash remote_updated_at, seen', res1)
            | none => (s1, seen', res1)
          else
            (link_mochi_sync s note.id card_id deck_id (note_hash note.card)
              remote_hash remote_updated_at, seen',
              { res with unchanged := res.unchanged + 1 })
      | none =>
        let sr := add_source s "mochi_pull"
          (pyTake 120 (if card.name ≠ "" then card.name else "mochi:" ++ card_id))
          card.content ("mochi://card/" ++ card_id) "processed"
        let sn := add_note sr.1 parsed.type parsed.front parsed.back parsed.cloze
          parsed.extra parsed.tags sr.2 "mochi_pull"
        let lh := match get_note_by_id sn.1 sn.2 with
          | some nn => note_hash nn.card
          | none => note_hash parsed
        (link_mochi_sync sn.1 sn.2 card_id deck_id lh remote_hash remote_updated_at,
          seen', { res with created_local := res.created_local + 1 })

/-- The stale-link sweep at the end of `sync_pull_from_mochi`: `links` is the
pre-pass snapshot, `seen` the observed card ids. -/
def pullSweep (deck_id : String) (seen : List String) :
    Store × PullResult → SyncRow → Store × PullResult
  | (s, res), link =>
    if link.mochi_deck_id ≠ deck_id then (s, res)
    else if link.mochi_card_id ∈ seen then (s, res)
    else
      (remove_mochi_sync_by_card s link.mochi_card_id,
        { res with removed_stale_links := res.removed_stale_links + 1 })

/-- `sync_pull_from_mochi` on an explicit listing (the loop plus the sweep). -/
def sync_pull_on_cards (s : Store) (cards : List MochiCard) (deck_id : String) :
    Store × PullResult :=
  let links := s.mochi_sync
  let step := cards.foldl (pullOne deck_id links) (s, [], ⟨cards.length, 0, 0, 0, 0⟩)
  links.foldl (pullSweep deck_id step.2.1) (step.1, step.2.2)

/-- `sync_pull_from_mochi(conn, user, key, deck_id)`. -/
def sync_pull_from_mochi (s : Store) (r : Remote) (deck_id : String) :
    Store × PullResult :=
  sync_pull_on_cards s (mochi_list_cards r deck_id) deck_id

/-! ## Proposal lifecycle composites

The generation adapter and the chat transport are external collaborators: a
composite takes the sanitized candidate list `cands` the adapter returned and
the delivered outbound message ids `msgs` as parameters. -/

/-- The database effect of `_create_and_send_proposals` (the generation call
already yielded `cands`; empty input text likewise yields no candidates and no
writes).  Returns the new proposal ids. -/
def create_and_send_proposals (s : Store) (source_id : Nat) (cands : List Card)
    (replace_pending_source_proposals : Bool)
    (parent_proposal_id root_proposal_id revision_index feedback_id : Int)
    (msgs : List Nat) : Store × List Nat :=
  if cands = [] then (s, [])
  else
    let s1 := if replace_pending_source_proposals ∧ 0 < source_id then
        (expire_pending_proposals_for_source s source_id).1
      else s
    let created := (cands.take (max 1 PROPOSAL_MAX_NOTES)).foldl
      (fun (acc : Store × List Nat) n =>
        let ap := add_note_proposal acc.1 source_id n 0 parent_proposal_id
          root_proposal_id revision_index feedback_id
        (ap.1, acc.2 ++ [ap.2]))
      (s1, [])
    let s3 := if 0 < source_id then set_source_status created.1 source_id "processed"
      else created.1
    let s4 := (created.2.zip msgs).foldl
      (fun st pm => set_note_proposal_message_id st pm.1 pm.2) s3
    (s4, created.2)

/-- The database effect of `_handle_proposal_feedback`: look up the addressed
pending proposal, record the feedback row, then regenerate with
`replace_pending_source_proposals=True`, threading parent / root /
revision_index from the addressed proposal. -/
def handle_proposal_feedback (s : Store) (replied_message_id : Nat)
    (feedback_text : String) (cands : List Card) (msgs : List Nat) : Store :=
  let feedback := pyStrip feedback_text
  if feedback = "" then s
  else
    match get_pending_proposal_by_message s replied_message_id with
    | none => s
    | some proposal =>
      if proposal.source_id = 0 then s
      else
        let af := add_proposal_feedback s proposal.source_id proposal.id feedback
        match get_source_by_id af.1 proposal.source_id with
        | none => af.1
        | some source =>
          if pyStrip source.content_text = "" then af.1
          else
            (create_and_send_proposals af.1 proposal.source_id cands true
              (proposal.id : Int)
              (if proposal.root_proposal_id ≠ 0 then (proposal.root_proposal_id : Int)
               else (proposal.id : Int))
              ((proposal.revision_index : Int) + 1) (af.2 : Int) msgs).1

/-- The store effect of an approve reaction in `handle_proposal_reaction`
(the optional follow-up Mochi push is `sync_push_to_mochi`). -/
def handle_proposal_reaction_approve (s : Store) (message_id : Nat) : Store :=
  match get_pending_proposal_by_message s message_id with
  | none => s
  | some proposal =>
    let an := add_note s proposal.type proposal.front proposal.back proposal.cloze
      proposal.extra proposal.tags proposal.source_id "proposal_approved"
    set_proposal_decision an.1 proposal.id "approved" an.2

/-- The store effect of a reject reaction in `handle_proposal_reaction`. -/
def handle_proposal_reaction_reject (s : Store) (message_id : Nat) : Store :=
  match get_pending_proposal_by_message s message_id with
  | none => s
  | some proposal => set_proposal_decision s proposal.id "rejected" 0

/-- The committed states of the approve path: every store helper issues its
own `conn.commit()`, so the `add_note` insert and the `set_proposal_decision`
update commit as two separate transactions. -/
def approveCommitStates (s : Store) (message_id : Nat) : List Store :=
  match get_pending_proposal_by_message s message_id with
  | none => [s]
  | some proposal =>
    let an := add_note s proposal.type proposal.front proposal.back proposal.cloze
      proposal.extra proposal.tags proposal.source_id "proposal_approved"
    [s, an.1, set_proposal_decision an.1 proposal.id "approved" an.2]

/-- Approval consistency: every approval-created note is recorded on an
approved proposal. -/
def approvalConsistent (s : Store) : Prop :=
  ∀ n ∈ s.notes, n.origin = "proposal_approved" →
    ∃ p ∈ s.proposals, p.status = "approved" ∧ p.note_id = n.id

instance (s : Store) : Decidable (approvalConsistent s) := by
  unfold approvalConsistent; infer_instance

/-! ## Reachable store states -/

/-- The states of one user's store reachable through the operations of the
source program. -/
inductive Reachable : Store → Prop where
  | empty : Reachable Store.empty
  | addSource {s} (st sl ct url status : String) :
      Reachable s → Reachable (add_source s st sl ct url status).1
  | setSourceStatus {s} (source_id : Nat) (status : String) :
      Reachable s → Reachable (set_source_status s source_id status)
  | addNote {s} (t f b c e : String) (tags : List String) (sid : Nat) (origin : String) :
      Reachable s → Reachable (add_note s t f b c e tags sid origin).1
  | updateNote {s} (nid : Nat) (t f b c e : String) (tags : List String) (origin : String) :
      Reachable s → Reachable (update_note_fields s nid t f b c e tags origin)
  | clearNotes {s} : Reachable s → Reachable (clear_user_notes s)
  | createProposals {s} (source_id : Nat) (cands : List Card) (msgs : List Nat) :
      Reachable s →
      Reachable (create_and_send_proposals s source_id cands false 0 0 0 0 msgs).1
  | scriptProposal {s} (source_id : Nat) (n : Card) :
      Reachable s → Reachable (add_note_proposal s source_id n 0 0 0 0 0).1
  | feedback {s} (msg : Nat) (fb : String) (cands : List Card) (msgs : List Nat) :
      Reachable s → Reachable (handle_proposal_feedback s msg fb cands msgs)
  | approve {s} (msg : Nat) :
      Reachable s → Reachable (handle_proposal_reaction_approve s msg)
  | reject {s} (msg : Nat) :
      Reachable s → Reachable (handle_proposal_reaction_reject s msg)
  | assignMsg {s} (pid mid : Nat) :
      Reachable s → Reachable (set_note_proposal_message_id s pid mid)
  | push {s} (r : Remote) (deck : String) (notes : List Note) :
      Reachable s → Reachable (sync_push_to_mochi s r deck notes).1
  | pull {s} (r : Remote) (deck : String) :
      Reachable s → Reachable (sync_pull_from_mochi s r deck).1

/-! ## Lemmas about tag normalization -/

theorem isPySpace_dash : isPySpace '-' = false := by decide

theorem collapseWsAux_no_space (l : List Char) :
    ∀ b, ∀ c ∈ collapseWsAux b l, isPySpace c = false := by
  induction l with
  | nil => intro b c hc; simp [collapseWsAux] at hc
  | cons a as ih =>
    intro b c hc
    by_cases ha : isPySpace a
    · simp [collapseWsAux, ha] at hc
      rcases b with _ | _
      · simp at hc
        rcases hc with hc | hc
        · subst hc; exact isPySpace_dash
        · exact ih true c hc
      · simp at hc
        exact ih true c hc
    · simp [collapseWsAux, ha] at hc
      rcases hc with hc | hc
      · subst hc; simpa using ha
      · exact ih false c hc

theorem dropWhile_eq_self_of_no_space (l : List Char)
    (h : ∀ c ∈ l, isPySpace c = false) : l.dropWhile isPySpace = l := by
  cases l with
  | nil => rfl
  | cons a as =>
    have := h a (by simp)
    simp [List.dropWhile, this]

theorem pyStripList_eq_self_of_no_space (l : List Char)
    (h : ∀ c ∈ l, isPySpace c = false) : pyStripList l = l := by
  unfold pyStripList
  rw [dropWhile_eq_self_of_no_space l h]
  rw [dropWhile_eq_self_of_no_space l.reverse (fun c hc => h c (by simpa using hc))]
  simp

theorem collapseWsAux_eq_self_of_no_space (l : List Char)
    (h : ∀ c ∈ l, isPySpace c = false) : collapseWsAux false l = l := by
  induction l with
  | nil => rfl
  | cons a as ih =>
    have ha := h a (by simp)
    simp [collapseWsAux, ha]
    exact ih (fun c hc => h c (by simp [hc]))

theorem cleanTag_no_space (t : String) : ∀ c ∈ (cleanTag t).data, isPySpace c = false := by
  intro c hc
  exact collapseWsAux_no_space (pyStrip t).data false c hc

theorem cleanTag_idem (t : String) : cleanTag (cleanTag t) = cleanTag t := by
  have h := cleanTag_no_space t
  have h1 : pyStrip (cleanTag t) = cleanTag t := by
    show (⟨pyStripList (cleanTag t).data⟩ : String) = cleanTag t
    rw [pyStripList_eq_self_of_no_space _ h]
  have h2 : collapseWs (cleanTag t) = cleanTag t := by
    show (⟨collapseWsAux false (cleanTag t).data⟩ : String) = cleanTag t
    rw [collapseWsAux_eq_self_of_no_space _ h]
  show collapseWs (pyStrip (cleanTag t)) = cleanTag t
  rw [h1, h2]

theorem normalize_tags_aux_cons (seen : List String) (t : String) (ts : List String) :
    normalize_tags_aux seen (t :: ts) =
      if cleanTag t = "" then normalize_tags_aux seen ts
      else if pyLower (cleanTag t) ∈ seen then normalize_tags_aux seen ts
      else cleanTag t :: normalize_tags_aux (pyLower (cleanTag t) :: seen) ts := rfl

theorem normalize_tags_aux_mem (l : List String) :
    ∀ seen, ∀ e ∈ normalize_tags_aux seen l,
      cleanTag e = e ∧ e ≠ "" ∧ pyLower e ∉ seen := by
  induction l with
  | nil => intro seen e he; simp [normalize_tags_aux] at he
  | cons t ts ih =>
    intro seen e he
    rw [normalize_tags_aux_cons] at he
    by_cases h1 : cleanTag t = ""
    · rw [if_pos h1] at he
      exact ih seen e he
    · rw [if_neg h1] at he
      by_cases h2 : pyLower (cleanTag t) ∈ seen
      · rw [if_pos h2] at he
        exact ih seen e he
      · rw [if_neg h2] at he
        rcases List.mem_cons.mp he with he | he
        · subst he
          exact ⟨cleanTag_idem t, h1, h2⟩
        · obtain ⟨ha, hb, hc⟩ := ih _ e he
          exact ⟨ha, hb, fun hmem => hc (List.mem_cons_of_mem _ hmem)⟩

theorem normalize_tags_aux_idem (l : List String) :
    ∀ seen, normalize_tags_aux seen (normalize_tags_aux seen l) =
      normalize_tags_aux seen l := by
  induction l with
  | nil => intro seen; rfl
  | cons t ts ih =>
    intro seen
    rw [normalize_tags_aux_cons]
    by_cases h1 : cleanTag t = ""
    · rw [if_pos h1]
      exact ih seen
    · rw [if_neg h1]
      by_cases h2 : pyLower (cleanTag t) ∈ seen
      · rw [if_pos h2]
        exact ih seen
      · rw [if_neg h2, normalize_tags_aux_cons, cleanTag_idem, if_neg h1, if_neg h2, ih]

theorem normalize_tags_idem (tags : List String) :
    normalize_tags (normalize_tags tags) = normalize_tags tags :=
  normalize_tags_aux_idem tags []

theorem normalize_tags_aux_pairwise (l : List String) :
    ∀ seen, (normalize_tags_aux seen l).Pairwise (fun a b => pyLower a ≠ pyLower b) := by
  induction l with
  | nil => intro seen; simp [normalize_tags_aux]
  | cons t ts ih =>
    intro seen
    rw [normalize_tags_aux_cons]
    by_cases h1 : cleanTag t = ""
    · rw [if_pos h1]; exact ih seen
    · rw [if_neg h1]
      by_cases h2 : pyLower (cleanTag t) ∈ seen
      · rw [if_pos h2]; exact ih seen
      · rw [if_neg h2]
        refine List.Pairwise.cons ?_ (ih _)
        intro e he heq
        have := normalize_tags_aux_mem ts _ e he
        exact this.2.2 (by simp [← heq])

/-- C10 helper: the properties of every stored tag list. -/
def TagListNormal (tags : List String) : Prop :=
  normalize_tags tags = tags ∧
  (∀ t ∈ tags, t ≠ "" ∧ ∀ c ∈ t.data, isPySpace c = false) ∧
  tags.Pairwise (fun a b => pyLower a ≠ pyLower b)

theorem normalize_tags_normal (tags : List String) : TagListNormal (normalize_tags tags) := by
  refine ⟨normalize_tags_idem tags, ?_, normalize_tags_aux_pairwise tags []⟩
  intro t ht
  have h := normalize_tags_aux_mem tags [] t ht
  refine ⟨h.2.1, ?_⟩
  rw [← h.1]
  exact cleanTag_no_space t

/-! ## Claim theorems -/

/-- C3 (counterexample): `note_hash` is *not* invariant under reordering the
tag list — `["a","b"]` and `["b","a"]` are equal as tag multisets (and have
identical dedup keys) yet hash differently, because `normalize_tags`
preserves order and the canonical serialization keeps the tag array in
order. -/
theorem note_hash_tag_order_counterexample :
    (["a", "b"] : List String).Perm ["b", "a"] ∧
    note_hash ⟨"basic", "", "", "", "", ["a", "b"]⟩ ≠
      note_hash ⟨"basic", "", "", "", "", ["b", "a"]⟩ := by
  constructor
  · decide
  · set_option maxRecDepth 100000 in decide

/-- C3 (amended): `note_hash` is a pure deterministic function of the
semantic fields — two cards with equal `type`, `front`, `back`, `cloze`,
`extra` and tag lists with equal `normalize_tags` image (in particular, lists
differing only by case-insensitive duplicate tags) receive the same digest.
Tag order and the stored casing of the first occurrence do affect the
digest. -/
theorem note_hash_deterministic (ty f b cz ex : String) (t1 t2 : List String)
    (h : normalize_tags t1 = normalize_tags t2) :
    note_hash ⟨ty, f, b, cz, ex, t1⟩ = note_hash ⟨ty, f, b, cz, ex, t2⟩ := by
  unfold note_hash notePayloadJson
  simp [h]

/-- C3 witness: the amended determinism theorem applied to the tag lists
`["Geo", "GEO"]` and `["Geo"]`. -/
theorem note_hash_deterministic_witness :
    normalize_tags ["Geo", "GEO"] = normalize_tags ["Geo"] ∧
    note_hash ⟨"basic", "f", "b", "", "", ["Geo", "GEO"]⟩ =
      note_hash ⟨"basic", "f", "b", "", "", ["Geo"]⟩ :=
  ⟨by decide, note_hash_deterministic "basic" "f" "b" "" "" _ _ (by decide)⟩

/-- C10: `normalize_tags` is idempotent, and every Note or Proposal row
written by `add_note`, `update_note_fields` or `add_note_proposal` stores a
tag list that is a fixed point of `normalize_tags` — no empty tag, no
whitespace inside a tag (runs are collapsed to `-`), and no two tags equal
case-insensitively (first occurrence wins). -/
theorem stored_tags_normalized :
    (∀ tags : List String, normalize_tags (normalize_tags tags) = normalize_tags tags) ∧
    (∀ s t f b c e tags sid o, ∀ n ∈ (add_note s t f b c e tags sid o).1.notes,
      n ∈ s.notes ∨ TagListNormal n.tags) ∧
    (∀ s nid t f b c e tags o, ∀ n ∈ (update_note_fields s nid t f b c e tags o).notes,
      n ∈ s.notes ∨ TagListNormal n.tags) ∧
    (∀ s sid note m p r rv fb, ∀ q ∈ (add_note_proposal s sid note m p r rv fb).1.proposals,
      (∃ q0 ∈ s.proposals, q.tags = q0.tags) ∨ TagListNormal q.tags) := by
  refine ⟨normalize_tags_idem, ?_, ?_, ?_⟩
  · intro s t f b c e tags sid o n hn
    simp only [add_note, List.mem_append, List.mem_singleton] at hn
    rcases hn with hn | hn
    · exact Or.inl hn
    · subst hn
      exact Or.inr (normalize_tags_normal tags)
  · intro s nid t f b c e tags o n hn
    simp only [update_note_fields, List.mem_map] at hn
    obtain ⟨m, hm, hmap⟩ := hn
    by_cases hid : m.id = nid
    · subst hmap
      simp only [hid, if_pos rfl]
      exact Or.inr (normalize_tags_normal tags)
    · subst hmap
      simp only [hid, if_neg hid]
      exact Or.inl hm
  · intro s sid note m p r rv fb q hq
    unfold add_note_proposal at hq
    by_cases hr : r ≤ 0
    · simp only [if_pos hr, List.mem_map] at hq
      obtain ⟨q0, hq0, hmap⟩ := hq
      simp only [List.mem_append, List.mem_singleton] at hq0
      rcases hq0 with hq0 | hq0
      · subst hmap
        by_cases hid : q0.id = s.next_proposal_id
        · simp only [if_pos hid]
          exact Or.inl ⟨q0, hq0, rfl⟩
        · simp only [if_neg hid]
          exact Or.inl ⟨q0, hq0, rfl⟩
      · subst hq0
        subst hmap
        by_cases hid : (s.next_proposal_id = s.next_proposal_id)
        · simp only [if_pos hid]
          exact Or.inr (normalize_tags_normal note.tags)
        · exact absurd rfl hid
    · simp only [if_neg hr, List.mem_append, List.mem_singleton] at hq
      rcases hq with hq | hq
      · exact Or.inl ⟨q, hq, rfl⟩
      · subst hq
        exact Or.inr (normalize_tags_normal note.tags)

/-! ## Lemmas about proposal decisions -/

theorem pending_of_lookup {s : Store} {m : Nat} {p : Proposal}
    (hp : get_pending_proposal_by_message s m = some p) :
    p ∈ s.proposals ∧ p.telegram_message_id = m ∧ p.status = "pending" := by
  unfold get_pending_proposal_by_message at hp
  have hmem := List.mem_of_find?_eq_some hp
  have hpred := List.find?_some hp
  simp only [Bool.and_eq_true, decide_eq_true_eq] at hpred
  exact ⟨hmem, hpred.1, hpred.2⟩

theorem lookup_none_after_decide (s : Store) (m : Nat) (p : Proposal) (st : String)
    (nid : Nat)
    (_hp : get_pending_proposal_by_message s m = some p)
    (huniq : ∀ q ∈ s.proposals, q.telegram_message_id = m → q.id = p.id)
    (hst : st = "approved" ∨ st = "rejected" ∨ st = "expired")
    (hne : st ≠ "pending") :
    get_pending_proposal_by_message (set_proposal_decision s p.id st nid) m = none := by
  unfold get_pending_proposal_by_message set_proposal_decision
  rw [if_pos hst]
  rw [List.find?_eq_none]
  intro q hq
  simp only [List.mem_map] at hq
  obtain ⟨q0, hq0, hmap⟩ := hq
  by_cases hid : q0.id = p.id
  · rw [if_pos hid] at hmap
    subst hmap
    simp only [Bool.and_eq_true, decide_eq_true_eq, not_and]
    intro _
    exact hne
  · rw [if_neg hid] at hmap
    subst hmap
    simp only [Bool.and_eq_true, decide_eq_true_eq, not_and]
    intro hmsg
    exact absurd (huniq q0 hq0 hmsg) hid

theorem approve_stale_noop {s : Store} {m : Nat}
    (h : get_pending_proposal_by_message s m = none) :
    handle_proposal_reaction_approve s m = s := by
  unfold handle_proposal_reaction_approve
  rw [h]

theorem reject_stale_noop {s : Store} {m : Nat}
    (h : get_pending_proposal_by_message s m = none) :
    handle_proposal_reaction_reject s m = s := by
  unfold handle_proposal_reaction_reject
  rw [h]

/-- C2: decisions are idempotent against a stale handle.  If no pending
Proposal is addressed by the handle, approve and reject change nothing; if a
pending Proposal is addressed (and the handle addresses only it), approving
resolves it, creates exactly one Note, and a second approve or a reject
through the now-stale handle is a complete no-op. -/
theorem decision_idempotent (s : Store) (m : Nat) :
    (get_pending_proposal_by_message s m = none →
      handle_proposal_reaction_approve s m = s ∧
      handle_proposal_reaction_reject s m = s) ∧
    (∀ p, get_pending_proposal_by_message s m = some p →
      (∀ q ∈ s.proposals, q.telegram_message_id = m → q.id = p.id) →
      get_pending_proposal_by_message (handle_proposal_reaction_approve s m) m = none ∧
      (handle_proposal_reaction_approve s m).notes.length = s.notes.length + 1 ∧
      handle_proposal_reaction_approve (handle_proposal_reaction_approve s m) m =
        handle_proposal_reaction_approve s m ∧
      handle_proposal_reaction_reject (handle_proposal_reaction_approve s m) m =
        handle_proposal_reaction_approve s m) := by
  constructor
  · intro hnone
    exact ⟨approve_stale_noop hnone, reject_stale_noop hnone⟩
  · intro p hp huniq
    have happ : handle_proposal_reaction_approve s m =
        set_proposal_decision
          (add_note s p.type p.front p.back p.cloze p.extra p.tags p.source_id
            "proposal_approved").1 p.id "approved"
          (add_note s p.type p.front p.back p.cloze p.extra p.tags p.source_id
            "proposal_approved").2 := by
      unfold handle_proposal_reaction_approve
      rw [hp]
    have hlookup :
        get_pending_proposal_by_message (handle_proposal_reaction_approve s m) m = none := by
      rw [happ]
      exact lookup_none_after_decide _ m p "approved" _ hp huniq (Or.inl rfl) (by decide)
    refine ⟨hlookup, ?_, approve_stale_noop hlookup, reject_stale_noop hlookup⟩
    rw [happ]
    simp [set_proposal_decision, add_note]

/-- Demonstration store for C2: one pending proposal (id 1, handle 5). -/
def c2Store : Store :=
  (add_note_proposal Store.empty 7 ⟨"basic", "F", "B", "", "", []⟩ 5 0 0 0 0).1

/-- C2 witness: the idempotence theorem applied to `c2Store` and handle 5. -/
theorem decision_idempotent_witness :
    handle_proposal_reaction_approve (handle_proposal_reaction_approve c2Store 5) 5 =
      handle_proposal_reaction_approve c2Store 5 ∧
    (handle_proposal_reaction_approve c2Store 5).notes.length = 1 := by
  have h := (decision_idempotent c2Store 5).2
    ⟨1, 7, 0, 1, 0, 0, "basic", "F", "B", "", "", [], 5, "pending", 0⟩
    (by decide) (by decide)
  exact ⟨h.2.2.1, h.2.1⟩

/-! ## C8: commit granularity of decide-then-create-Note -/

/-- Demonstration store for C8: one pending proposal (id 1, handle 5),
reached via a script-created proposal and its message-id assignment. -/
def c8Store : Store :=
  set_note_proposal_message_id
    (add_note_proposal Store.empty 7 ⟨"basic", "F", "B", "", "", []⟩ 0 0 0 0 0).1 1 5

/-- C8 counterexample: the approve path is not atomic.  On a reachable store
holding one pending proposal, the committed state between the `add_note`
commit and the `set_proposal_decision` commit contains an approval-created
Note whose Proposal is still pending. -/
theorem approve_not_atomic_counterexample :
    Reachable c8Store ∧
    ∃ mid ∈ approveCommitStates c8Store 5, ¬ approvalConsistent mid :=
  ⟨Reachable.assignMsg 1 5
      (Reachable.scriptProposal 7 ⟨"basic", "F", "B", "", "", []⟩ Reachable.empty),
    by decide⟩

/-- C8 (amended): the decide-then-create-Note operation commits as two
separate transactions — the committed states are the pre-state, the state
after the Note insert, and the final state.  A completed run restores
approval consistency (assuming distinct proposal ids), but the intermediate
committed state is not covered by any transaction wrapper, as the
counterexample exhibits. -/
theorem approve_commit_granularity (s : Store) (m : Nat) (p : Proposal)
    (hp : get_pending_proposal_by_message s m = some p)
    (hcons : approvalConsistent s)
    (hids : s.proposals.Pairwise (fun a b => a.id ≠ b.id)) :
    approveCommitStates s m =
      [s,
        (add_note s p.type p.front p.back p.cloze p.extra p.tags p.source_id
          "proposal_approved").1,
        handle_proposal_reaction_approve s m] ∧
    approvalConsistent (handle_proposal_reaction_approve s m) := by
  obtain ⟨hmem, _, hpend⟩ := pending_of_lookup hp
  constructor
  · unfold approveCommitStates handle_proposal_reaction_approve
    rw [hp]
  · unfold handle_proposal_reaction_approve
    rw [hp]
    unfold set_proposal_decision add_note
    dsimp only
    rw [if_pos (by decide :
      ("approved" : String) = "approved" ∨ ("approved" : String) = "rejected" ∨
        ("approved" : String) = "expired")]
    intro n hn hor
    simp only [List.mem_append, List.mem_singleton] at hn
    rcases hn with hn | hn
    · obtain ⟨q, hq, hqap, hqnid⟩ := hcons n hn hor
      have hqnep : q ≠ p := by
        intro e
        rw [e, hpend] at hqap
        exact absurd hqap (by decide)
      have hsym : Symmetric (fun a b : Proposal => a.id ≠ b.id) :=
        fun a b h e => h e.symm
      have hqid : q.id ≠ p.id := List.Pairwise.forall hsym hids hq hmem hqnep
      exact ⟨q, List.mem_map.mpr ⟨q, hq, by rw [if_neg hqid]⟩, hqap, hqnid⟩
    · subst hn
      refine ⟨{ p with status := "approved", note_id := s.next_note_id },
        List.mem_map.mpr ⟨p, hmem, by rw [if_pos rfl]⟩, rfl, rfl⟩

/-! ## C5 / C9: push frame properties for live-linked notes -/

theorem find?_append_singleton (p : SyncRow → Bool) (m : List SyncRow) (x : SyncRow)
    (hm : ∀ y ∈ m, p y = false) (hx : p x = true) :
    (m ++ [x]).find? p = some x := by
  induction m with
  | nil => simp [List.find?_cons, hx]
  | cons a as ih =>
    have ha := hm a (List.mem_cons_self a as)
    rw [List.cons_append, List.find?_cons, ha]
    exact ih (fun y hy => hm y (List.mem_cons_of_mem a hy))

theorem find?_filter_append_self (l : List SyncRow) (nid : Nat) (cid : String)
    (newRow : SyncRow) (h : newRow.note_id = nid) :
    ((l.filter (fun x => ¬(x.note_id = nid ∨ x.mochi_card_id = cid))) ++ [newRow]).find?
      (fun x => x.note_id = nid) = some newRow := by
  apply find?_append_singleton
  · intro y hy
    have h2 := of_decide_eq_true (List.mem_filter.mp hy).2
    exact decide_eq_false (fun e => h2 (Or.inl e))
  · exact decide_eq_true h

/-- C5: during push, a Note with an existing SyncLink whose remote card is
still present in the target deck causes no remote-card creation or overwrite
(the remote state is untouched); `local_changed_not_pushed` is bumped exactly
when the recorded local hash differs from the Note's current hash; and in
either case the rewritten link's remote hash and remote timestamp are
refreshed from the fetched remote card. -/
theorem push_linked_live_frame (deck : String) (snapshot : List SyncRow)
    (s : Store) (r : Remote) (res : PushResult) (n : Note) (row : SyncRow)
    (hrow : snapshot.find? (fun x => x.note_id = n.id) = some row)
    (remote : MochiCard) (hremote : mochi_get_card r row.mochi_card_id = some remote)
    (hdeck : remote.deckId = deck)
    (hlh : row.local_hash ≠ "") :
    (pushOne deck snapshot (s, r, res) n).2.1 = r ∧
    (pushOne deck snapshot (s, r, res) n).2.2.created = res.created ∧
    (pushOne deck snapshot (s, r, res) n).2.2.recreated_missing_remote =
      res.recreated_missing_remote ∧
    (pushOne deck snapshot (s, r, res) n).2.2.already_linked = res.already_linked + 1 ∧
    (pushOne deck snapshot (s, r, res) n).2.2.local_changed_not_pushed =
      res.local_changed_not_pushed +
        (if row.local_hash ≠ note_hash n.card then 1 else 0) ∧
    (pushOne deck snapshot (s, r, res) n).1.mochi_sync =
      s.mochi_sync.filter
        (fun x => ¬(x.note_id = n.id ∨ x.mochi_card_id = row.mochi_card_id)) ++
      [⟨n.id, row.mochi_card_id, deck,
        (if row.local_hash ≠ note_hash n.card then row.local_hash else note_hash n.card),
        mochi_card_hash remote, mochi_card_updated_at remote⟩] := by
  have hstep : pushOne deck snapshot (s, r, res) n =
      (link_mochi_sync s n.id row.mochi_card_id deck
        (if row.local_hash ≠ "" ∧ row.local_hash ≠ note_hash n.card then row.local_hash
         else note_hash n.card)
        (mochi_card_hash remote) (mochi_card_updated_at remote), r,
        { res with
          already_linked := res.already_linked + 1,
          local_changed_not_pushed := res.local_changed_not_pushed +
            (if row.local_hash ≠ "" ∧ row.local_hash ≠ note_hash n.card then 1 else 0) }) := by
    simp only [pushOne, hrow, hremote]
    rw [if_neg (by simp [hdeck])]
  rw [hstep]
  have hcond : (row.local_hash ≠ "" ∧ row.local_hash ≠ note_hash n.card) =
      (row.local_hash ≠ note_hash n.card) := by
    by_cases hd : row.local_hash = note_hash n.card
    · simp [hd]
    · simp [hd, hlh]
  simp [hcond, link_mochi_sync]

/-- Witness data for C5/C9: one note, its live link (recorded hash "X"),
and the matching remote card. -/
def wNote : Note := ⟨1, "basic", "F", "B", "", "", ["t"], 0, "manual"⟩

/-- Witness link row with a stale recorded local hash. -/
def wRow : SyncRow := ⟨1, "mc1", "d", "X", "rh", "2024"⟩

/-- Witness store holding `wNote` and `wRow`. -/
def wStore : Store := ⟨[], [wNote], [], [], [wRow], 1, 2, 1, 1⟩

/-- Witness remote holding the linked card in deck `d`. -/
def wRemote : Remote := ⟨[⟨"mc1", "body", "d", "", [], [], "2024"⟩], 2⟩

/-- C5 witness: the frame theorem applied to `wNote` / `wRow` / `wRemote`. -/
theorem push_linked_live_frame_witness :
    (pushOne "d" [wRow] (wStore, wRemote, ⟨1, 0, 0, 0, 0, 0⟩) wNote).2.1 = wRemote ∧
    (pushOne "d" [wRow] (wStore, wRemote, ⟨1, 0, 0, 0, 0, 0⟩) wNote).2.2.already_linked = 1 := by
  have h := push_linked_live_frame "d" [wRow] wStore wRemote ⟨1, 0, 0, 0, 0, 0⟩ wNote wRow
    (by decide) ⟨"mc1", "body", "d", "", [], [], "2024"⟩ (by decide) (by decide) (by decide)
  exact ⟨h.1, by rw [h.2.2.2.1]⟩

/-- C9: when push flags a linked Note as drifted (recorded hash non-empty and
different from the current hash), the rewritten link keeps the previously
recorded `local_hash` — it is not replaced by the current hash — so an
identical second pass flags the drift again; only when the hashes agree is
the current hash stored. -/
theorem push_drift_hash_persists (deck : String) (s : Store) (r : Remote) (n : Note)
    (row : SyncRow)
    (hrow : s.mochi_sync.find? (fun x => x.note_id = n.id) = some row)
    (remote : MochiCard) (hremote : mochi_get_card r row.mochi_card_id = some remote)
    (hdeck : remote.deckId = deck)
    (hlh : row.local_hash ≠ "") :
    ((row.local_hash ≠ note_hash n.card) →
      (sync_push_to_mochi s r deck [n]).2.2.local_changed_not_pushed = 1 ∧
      (sync_push_to_mochi s r deck [n]).1.mochi_sync.find? (fun x => x.note_id = n.id) =
        some ⟨n.id, row.mochi_card_id, deck, row.local_hash,
          mochi_card_hash remote, mochi_card_updated_at remote⟩ ∧
      (sync_push_to_mochi (sync_push_to_mochi s r deck [n]).1
          (sync_push_to_mochi s r deck [n]).2.1 deck [n]).2.2.local_changed_not_pushed = 1) ∧
    ((row.local_hash = note_hash n.card) →
      (sync_push_to_mochi s r deck [n]).1.mochi_sync.find? (fun x => x.note_id = n.id) =
        some ⟨n.id, row.mochi_card_id, deck, note_hash n.card,
          mochi_card_hash remote, mochi_card_updated_at remote⟩) := by
  have hbase := push_linked_live_frame deck s.mochi_sync s r ⟨1, 0, 0, 0, 0, 0⟩ n row hrow
    remote hremote hdeck hlh
  have hsingle : sync_push_to_mochi s r deck [n] =
      pushOne deck s.mochi_sync (s, r, ⟨1, 0, 0, 0, 0, 0⟩) n := rfl
  constructor
  · intro hdrift
    have h1 : (sync_push_to_mochi s r deck [n]).2.2.local_changed_not_pushed = 1 := by
      rw [hsingle, hbase.2.2.2.2.1, if_pos hdrift]
    have h2 : (sync_push_to_mochi s r deck [n]).1.mochi_sync.find?
        (fun x => x.note_id = n.id) =
        some ⟨n.id, row.mochi_card_id, deck, row.local_hash,
          mochi_card_hash remote, mochi_card_updated_at remote⟩ := by
      rw [hsingle, hbase.2.2.2.2.2, if_pos hdrift]
      exact find?_filter_append_self _ _ _ _ rfl
    refine ⟨h1, h2, ?_⟩
    have hr' : (sync_push_to_mochi s r deck [n]).2.1 = r := by rw [hsingle]; exact hbase.1
    have hbase2 := push_linked_live_frame deck
      (sync_push_to_mochi s r deck [n]).1.mochi_sync
      (sync_push_to_mochi s r deck [n]).1 r ⟨1, 0, 0, 0, 0, 0⟩ n
      ⟨n.id, row.mochi_card_id, deck, row.local_hash,
        mochi_card_hash remote, mochi_card_updated_at remote⟩ h2 remote hremote hdeck hlh
    have hsingle2 : sync_push_to_mochi (sync_push_to_mochi s r deck [n]).1
        (sync_push_to_mochi s r deck [n]).2.1 deck [n] =
        pushOne deck (sync_push_to_mochi s r deck [n]).1.mochi_sync
          ((sync_push_to_mochi s r deck [n]).1, (sync_push_to_mochi s r deck [n]).2.1,
            ⟨1, 0, 0, 0, 0, 0⟩) n := rfl
    rw [hsingle2, hr', hbase2.2.2.2.2.1, if_pos hdrift]
  · intro hsame
    have hnd : ¬(row.local_hash ≠ note_hash n.card) := fun h => h hsame
    rw [hsingle, hbase.2.2.2.2.2, if_neg hnd]
    exact find?_filter_append_self _ _ _ _ rfl

/-- C9 witness: the drift-persistence theorem applied to `wNote` / `wRow` /
`wRemote` (recorded hash "X" differs from the note's digest). -/
theorem push_drift_hash_persists_witness :
    (sync_push_to_mochi wStore wRemote "d" [wNote]).2.2.local_changed_not_pushed = 1 ∧
    (sync_push_to_mochi (sync_push_to_mochi wStore wRemote "d" [wNote]).1
        (sync_push_to_mochi wStore wRemote "d" [wNote]).2.1 "d"
        [wNote]).2.2.local_changed_not_pushed = 1 := by
  have h := (push_drift_hash_persists "d" wStore wRemote wNote wRow (by decide)
    ⟨"mc1", "body", "d", "", [], [], "2024"⟩ (by decide) (by decide) (by decide)).1
    (by set_option maxRecDepth 100000 in decide)
  exact ⟨h.1, h.2.2⟩

/-! ## Proposal chain machinery (C1, C7) -/

/-- All fields relevant to revision chains and decisions agree (everything
except the outbound message handle and the card payload). -/
def SameCore (a b : Proposal) : Prop :=
  a.id = b.id ∧ a.source_id = b.source_id ∧
  a.parent_proposal_id = b.parent_proposal_id ∧
  a.root_proposal_id = b.root_proposal_id ∧
  a.revision_index = b.revision_index ∧
  a.feedback_id = b.feedback_id ∧ a.status = b.status ∧ a.note_id = b.note_id

theorem sameCore_refl (a : Proposal) : SameCore a a :=
  ⟨rfl, rfl, rfl, rfl, rfl, rfl, rfl, rfl⟩

theorem sameCore_trans {a b c : Proposal} (h1 : SameCore a b) (h2 : SameCore b c) :
    SameCore a c := by
  obtain ⟨e1, e2, e3, e4, e5, e6, e7, e8⟩ := h1
  obtain ⟨f1, f2, f3, f4, f5, f6, f7, f8⟩ := h2
  exact ⟨e1.trans f1, e2.trans f2, e3.trans f3, e4.trans f4, e5.trans f5,
    e6.trans f6, e7.trans f7, e8.trans f8⟩

/-- The shape of a proposal row freshly inserted by `add_note_proposal`. -/
def newRowSpec (src : Nat) (par roo rev fb : Int) (lo : Nat) (q : Proposal) : Prop :=
  q.source_id = src ∧ q.parent_proposal_id = par.toNat ∧
  q.root_proposal_id = (if roo ≤ 0 then q.id else roo.toNat) ∧
  q.revision_index = rev.toNat ∧ q.feedback_id = fb.toNat ∧
  q.status = "pending" ∧ q.note_id = 0 ∧ lo ≤ q.id ∧ q.id ≠ 0

theorem map_eq_self_of_ne {α : Type} (l : List α) (f : α → α)
    (h : ∀ a ∈ l, f a = a) : l.map f = l := by
  induction l with
  | nil => rfl
  | cons a as ih =>
    rw [List.map_cons, h a (List.mem_cons_self a as),
      ih (fun b hb => h b (List.mem_cons_of_mem a hb))]

/-- Result shape of `add_note_proposal` when existing ids are below the
counter and the counter is positive. -/
theorem add_note_proposal_spec (s : Store) (src : Nat) (note : Card)
    (mid : Nat) (par roo rev fb : Int)
    (hid : ∀ q ∈ s.proposals, q.id < s.next_proposal_id)
    (hpos : 1 ≤ s.next_proposal_id) :
    (add_note_proposal s src note mid par roo rev fb).2 = s.next_proposal_id ∧
    ∃ row : Proposal,
      (add_note_proposal s src note mid par roo rev fb).1.proposals =
        s.proposals ++ [row] ∧
      newRowSpec src par roo rev fb s.next_proposal_id row ∧
      row.id = s.next_proposal_id ∧ row.telegram_message_id = mid ∧
      (add_note_proposal s src note mid par roo rev fb).1.next_proposal_id =
        s.next_proposal_id + 1 ∧
      (add_note_proposal s src note mid par roo rev fb).1.sources = s.sources ∧
      (add_note_proposal s src note mid par roo rev fb).1.notes = s.notes ∧
      (add_note_proposal s src note mid par roo rev fb).1.feedbacks = s.feedbacks ∧
      (add_note_proposal s src note mid par roo rev fb).1.mochi_sync = s.mochi_sync ∧
      (add_note_proposal s src note mid par roo rev fb).1.next_note_id = s.next_note_id ∧
      (add_note_proposal s src note mid par roo rev fb).1.next_source_id =
        s.next_source_id ∧
      (add_note_proposal s src note mid par roo rev fb).1.next_feedback_id =
        s.next_feedback_id := by
  unfold add_note_proposal
  dsimp only
  by_cases hroo : roo ≤ 0
  · rw [if_pos hroo]
    refine ⟨rfl, ?_⟩
    refine ⟨⟨s.next_proposal_id, src, par.toNat, s.next_proposal_id, rev.toNat, fb.toNat,
      note.type, note.front, note.back, note.cloze, note.extra, normalize_tags note.tags,
      mid, "pending", 0⟩, ?_, ?_, rfl, rfl, rfl, rfl, rfl, rfl, rfl, rfl, rfl, rfl⟩
    · rw [List.map_append,
        map_eq_self_of_ne s.proposals _
          (fun q hq => by rw [if_neg (Nat.ne_of_lt (hid q hq))])]
      simp
    · exact ⟨rfl, rfl, by simp [hroo], rfl, rfl, rfl, rfl, le_refl _,
        by show s.next_proposal_id ≠ 0; omega⟩
  · rw [if_neg hroo]
    refine ⟨rfl, ?_⟩
    refine ⟨⟨s.next_proposal_id, src, par.toNat, roo.toNat, rev.toNat, fb.toNat,
      note.type, note.front, note.back, note.cloze, note.extra, normalize_tags note.tags,
      mid, "pending", 0⟩, rfl, ?_, rfl, rfl, rfl, rfl, rfl, rfl, rfl, rfl, rfl, rfl⟩
    exact ⟨rfl, rfl, by simp [hroo], rfl, rfl, rfl, rfl, le_refl _,
      by show s.next_proposal_id ≠ 0; omega⟩

/-- The candidate-insertion fold inside `create_and_send_proposals`. -/
def foldAdd (src : Nat) (par roo rev fb : Int) (cands : List Card)
    (init : Store × List Nat) : Store × List Nat :=
  cands.foldl
    (fun acc2 n =>
      let ap := add_note_proposal acc2.1 src n 0 par roo rev fb
      (ap.1, acc2.2 ++ [ap.2]))
    init

theorem foldAdd_spec (src : Nat) (par roo rev fb : Int) (cands : List Card) :
    ∀ (st : Store) (acc : List Nat),
      (∀ q ∈ st.proposals, q.id < st.next_proposal_id) →
      1 ≤ st.next_proposal_id →
      ∃ newRows : List Proposal,
        (foldAdd src par roo rev fb cands (st, acc)).1.proposals =
          st.proposals ++ newRows ∧
        (∀ q ∈ newRows, newRowSpec src par roo rev fb st.next_proposal_id q ∧
          q.telegram_message_id = 0) ∧
        (∀ q ∈ (foldAdd src par roo rev fb cands (st, acc)).1.proposals,
          q.id < (foldAdd src par roo rev fb cands (st, acc)).1.next_proposal_id) ∧
        st.next_proposal_id ≤
          (foldAdd src par roo rev fb cands (st, acc)).1.next_proposal_id ∧
        (foldAdd src par roo rev fb cands (st, acc)).1.sources = st.sources ∧
        (foldAdd src par roo rev fb cands (st, acc)).1.notes = st.notes ∧
        (foldAdd src par roo rev fb cands (st, acc)).1.feedbacks = st.feedbacks ∧
        (foldAdd src par roo rev fb cands (st, acc)).1.mochi_sync = st.mochi_sync := by
  induction cands with
  | nil =>
    intro st acc hid hpos
    exact ⟨[], by simp [foldAdd], by simp, hid, le_refl _, rfl, rfl, rfl, rfl⟩
  | cons n ns ih =>
    intro st acc hid hpos
    obtain ⟨hpid, row, hprops, hrow, hrid, hrmid, hnext, hsrcs, hnotes, hfbs, hms,
      hnn, hns, hnf⟩ := add_note_proposal_spec st src n 0 par roo rev fb hid hpos
    have hstep : foldAdd src par roo rev fb (n :: ns) (st, acc) =
        foldAdd src par roo rev fb ns
          ((add_note_proposal st src n 0 par roo rev fb).1,
            acc ++ [(add_note_proposal st src n 0 par roo rev fb).2]) := rfl
    set st1 := (add_note_proposal st src n 0 par roo rev fb).1 with hst1
    have hid1 : ∀ q ∈ st1.proposals, q.id < st1.next_proposal_id := by
      intro q hq
      rw [hprops] at hq
      rw [hnext]
      rcases List.mem_append.mp hq with hq | hq
      · exact Nat.lt_succ_of_lt (hid q hq)
      · rw [List.mem_singleton.mp hq, hrid]; omega
    have hpos1 : 1 ≤ st1.next_proposal_id := by rw [hnext]; omega
    obtain ⟨rows, ihprops, ihrow, ihbound, ihmono, ihsrcs, ihnotes, ihfbs, ihms⟩ :=
      ih st1 (acc ++ [(add_note_proposal st src n 0 par roo rev fb).2]) hid1 hpos1
    refine ⟨row :: rows, ?_, ?_, ?_, ?_, ?_, ?_, ?_, ?_⟩
    · rw [hstep, ihprops, hprops]; simp
    · intro q hq
      rcases List.mem_cons.mp hq with hq | hq
      · subst hq
        exact ⟨hrow, hrmid⟩
      · obtain ⟨h1, h2⟩ := ihrow q hq
        refine ⟨⟨h1.1, h1.2.1, h1.2.2.1, h1.2.2.2.1, h1.2.2.2.2.1, h1.2.2.2.2.2.1,
          h1.2.2.2.2.2.2.1, ?_, h1.2.2.2.2.2.2.2.2⟩, h2⟩
        have := h1.2.2.2.2.2.2.2.1
        rw [hnext] at this
        omega
    · rw [hstep]; exact ihbound
    · rw [hstep]
      calc st.next_proposal_id ≤ st1.next_proposal_id := by rw [hnext]; omega
        _ ≤ _ := ihmono
    · rw [hstep, ihsrcs, hsrcs]
    · rw [hstep, ihnotes, hnotes]
    · rw [hstep, ihfbs, hfbs]
    · rw [hstep, ihms, hms]

/-- The assignment of delivered outbound message ids after proposal
creation. -/
def msgFold (ps : List (Nat × Nat)) (st : Store) : Store :=
  ps.foldl (fun st pm => set_note_proposal_message_id st pm.1 pm.2) st

theorem set_msg_sameCore (st : Store) (pid mid : Nat) :
    (∀ q' ∈ (set_note_proposal_message_id st pid mid).proposals,
      ∃ q ∈ st.proposals, SameCore q' q) ∧
    (∀ q ∈ st.proposals, ∃ q' ∈ (set_note_proposal_message_id st pid mid).proposals,
      SameCore q' q) := by
  constructor
  · intro q' hq'
    obtain ⟨q, hq, he⟩ := List.mem_map.mp hq'
    refine ⟨q, hq, ?_⟩
    subst he
    by_cases h : q.id = pid
    · rw [if_pos h]; exact sameCore_refl _
    · rw [if_neg h]; exact sameCore_refl _
  · intro q hq
    refine ⟨_, List.mem_map.mpr ⟨q, hq, rfl⟩, ?_⟩
    by_cases h : q.id = pid
    · rw [if_pos h]; exact sameCore_refl _
    · rw [if_neg h]; exact sameCore_refl _

theorem msgFold_spec (ps : List (Nat × Nat)) : ∀ st : Store,
    (∀ q' ∈ (msgFold ps st).proposals, ∃ q ∈ st.proposals, SameCore q' q) ∧
    (∀ q ∈ st.proposals, ∃ q' ∈ (msgFold ps st).proposals, SameCore q' q) ∧
    (msgFold ps st).sources = st.sources ∧ (msgFold ps st).notes = st.notes ∧
    (msgFold ps st).feedbacks = st.feedbacks ∧
    (msgFold ps st).mochi_sync = st.mochi_sync ∧
    (msgFold ps st).next_proposal_id = st.next_proposal_id := by
  induction ps with
  | nil =>
    intro st
    exact ⟨fun q' h => ⟨q', h, sameCore_refl _⟩, fun q h => ⟨q, h, sameCore_refl _⟩,
      rfl, rfl, rfl, rfl, rfl⟩
  | cons pm ps ih =>
    intro st
    have hstep : msgFold (pm :: ps) st =
        msgFold ps (set_note_proposal_message_id st pm.1 pm.2) := rfl
    obtain ⟨ihf, ihb, ihs, ihn, ihfb, ihm, ihnx⟩ :=
      ih (set_note_proposal_message_id st pm.1 pm.2)
    obtain ⟨hf, hb⟩ := set_msg_sameCore st pm.1 pm.2
    refine ⟨?_, ?_, by rw [hstep]; exact ihs.trans rfl,
      by rw [hstep]; exact ihn.trans rfl, by rw [hstep]; exact ihfb.trans rfl,
      by rw [hstep]; exact ihm.trans rfl, by rw [hstep]; exact ihnx.trans rfl⟩
    · intro q' hq'
      rw [hstep] at hq'
      obtain ⟨q1, hq1, hc1⟩ := ihf q' hq'
      obtain ⟨q0, hq0, hc0⟩ := hf q1 hq1
      exact ⟨q0, hq0, sameCore_trans hc1 hc0⟩
    · intro q hq
      obtain ⟨q1, hq1, hc1⟩ := hb q hq
      obtain ⟨q', hq', hc'⟩ := ihb q1 hq1
      rw [← hstep] at hq'
      exact ⟨q', hq', sameCore_trans hc' hc1⟩

/-- The revision-chain invariant of C7. -/
def chainInv (s : Store) : Prop :=
  1 ≤ s.next_proposal_id ∧
  (∀ q ∈ s.proposals, q.id ≠ 0 ∧ q.id < s.next_proposal_id ∧
    q.root_proposal_id ≠ 0) ∧
  (∀ q ∈ s.proposals,
    (q.parent_proposal_id = 0 → q.revision_index = 0 ∧ q.root_proposal_id = q.id) ∧
    (q.parent_proposal_id ≠ 0 → ∃ p ∈ s.proposals, p.id = q.parent_proposal_id ∧
      q.revision_index = p.revision_index + 1 ∧
      q.root_proposal_id = p.root_proposal_id))

/-- The invariant is preserved by any per-row update that keeps id, parent,
root, revision index and the counter. -/
theorem chainInv_map (s s' : Store) (f : Proposal → Proposal)
    (hprops : s'.proposals = s.proposals.map f)
    (hnext : s'.next_proposal_id = s.next_proposal_id)
    (hf : ∀ q, (f q).id = q.id ∧ (f q).parent_proposal_id = q.parent_proposal_id ∧
      (f q).root_proposal_id = q.root_proposal_id ∧
      (f q).revision_index = q.revision_index)
    (h : chainInv s) : chainInv s' := by
  obtain ⟨h0, h1, h2⟩ := h
  refine ⟨by rw [hnext]; exact h0, ?_, ?_⟩
  · intro q' hq'
    rw [hprops] at hq'
    obtain ⟨q, hq, he⟩ := List.mem_map.mp hq'
    subst he
    obtain ⟨e1, _, e3, _⟩ := hf q
    rw [e1, e3, hnext]
    exact h1 q hq
  · intro q' hq'
    rw [hprops] at hq'
    obtain ⟨q, hq, he⟩ := List.mem_map.mp hq'
    subst he
    obtain ⟨e1, e2, e3, e4⟩ := hf q
    rw [e1, e2, e3, e4]
    obtain ⟨hb1, hb2⟩ := h2 q hq
    refine ⟨hb1, ?_⟩
    intro hpar
    obtain ⟨p, hp, hpe, hpr, hproot⟩ := hb2 hpar
    obtain ⟨g1, _, g3, g4⟩ := hf p
    refine ⟨f p, by rw [hprops]; exact List.mem_map.mpr ⟨p, hp, rfl⟩, ?_, ?_, ?_⟩
    · rw [g1, hpe]
    · rw [g4, hpr]
    · rw [g3, hproot]

theorem expire_kills_pending (s : Store) (src : Nat) :
    ∀ q' ∈ (expire_pending_proposals_for_source s src).1.proposals,
      q'.source_id = src → q'.status ≠ "pending" := by
  intro q' hq' hsrc
  obtain ⟨q, hq, he⟩ := List.mem_map.mp hq'
  by_cases hc : q.source_id = src ∧ q.status = "pending"
  · rw [if_pos hc] at he
    rw [← he]
    show ("expired" : String) ≠ "pending"
    decide
  · rw [if_neg hc] at he
    subst he
    intro hpend
    exact hc ⟨hsrc, hpend⟩

theorem pushOne_frame (d : String) (snap : List SyncRow)
    (x : Store × Remote × PushResult) (n : Note) :
    (pushOne d snap x n).1.proposals = x.1.proposals ∧
    (pushOne d snap x n).1.next_proposal_id = x.1.next_proposal_id ∧
    (pushOne d snap x n).1.sources = x.1.sources ∧
    (pushOne d snap x n).1.notes = x.1.notes ∧
    (pushOne d snap x n).1.feedbacks = x.1.feedbacks := by
  obtain ⟨s, r, res⟩ := x
  unfold pushOne
  dsimp only
  split
  · split
    · exact ⟨rfl, rfl, rfl, rfl, rfl⟩
    · split
      · exact ⟨rfl, rfl, rfl, rfl, rfl⟩
      · exact ⟨rfl, rfl, rfl, rfl, rfl⟩
  · split
    · exact ⟨rfl, rfl, rfl, rfl, rfl⟩
    · exact ⟨rfl, rfl, rfl, rfl, rfl⟩

theorem sync_push_frame (d : String) (notes : List Note) :
    ∀ (x : Store × Remote × PushResult) (snap : List SyncRow),
    (notes.foldl (pushOne d snap) x).1.proposals = x.1.proposals ∧
    (notes.foldl (pushOne d snap) x).1.next_proposal_id = x.1.next_proposal_id := by
  induction notes with
  | nil => intro x snap; exact ⟨rfl, rfl⟩
  | cons n ns ih =>
    intro x snap
    have hstep : (n :: ns).foldl (pushOne d snap) x =
        ns.foldl (pushOne d snap) (pushOne d snap x n) := rfl
    obtain ⟨ih1, ih2⟩ := ih (pushOne d snap x n) snap
    obtain ⟨f1, f2, _⟩ := pushOne_frame d snap x n
    rw [hstep]
    exact ⟨ih1.trans f1, ih2.trans f2⟩

theorem pullOne_frame (d : String) (snap : List SyncRow)
    (x : Store × List String × PullResult) (card : MochiCard) :
    (pullOne d snap x card).1.proposals = x.1.proposals ∧
    (pullOne d snap x card).1.next_proposal_id = x.1.next_proposal_id := by
  obtain ⟨s, seen, res⟩ := x
  unfold pullOne
  dsimp only
  split
  · exact ⟨rfl, rfl⟩
  · split
    · exact ⟨rfl, rfl⟩
    · split
      · split
        · exact ⟨rfl, rfl⟩
        · split
          · split
            · exact ⟨rfl, rfl⟩
            · exact ⟨rfl, rfl⟩
          · exact ⟨rfl, rfl⟩
      · exact ⟨rfl, rfl⟩

theorem pullSweep_frame (d : String) (seen : List String)
    (x : Store × PullResult) (link : SyncRow) :
    (pullSweep d seen x link).1.proposals = x.1.proposals ∧
    (pullSweep d seen x link).1.next_proposal_id = x.1.next_proposal_id := by
  obtain ⟨s, res⟩ := x
  unfold pullSweep
  dsimp only
  split
  · exact ⟨rfl, rfl⟩
  · split
    · exact ⟨rfl, rfl⟩
    · exact ⟨rfl, rfl⟩

theorem sync_pull_frame (s : Store) (r : Remote) (d : String) :
    (sync_pull_from_mochi s r d).1.proposals = s.proposals ∧
    (sync_pull_from_mochi s r d).1.next_proposal_id = s.next_proposal_id := by
  have hloop : ∀ (cards : List MochiCard) (snap : List SyncRow)
      (x : Store × List String × PullResult),
      (cards.foldl (pullOne d snap) x).1.proposals = x.1.proposals ∧
      (cards.foldl (pullOne d snap) x).1.next_proposal_id = x.1.next_proposal_id := by
    intro cards
    induction cards with
    | nil => intro snap x; exact ⟨rfl, rfl⟩
    | cons c cs ih =>
      intro snap x
      obtain ⟨ih1, ih2⟩ := ih snap (pullOne d snap x c)
      obtain ⟨f1, f2⟩ := pullOne_frame d snap x c
      exact ⟨ih1.trans f1, ih2.trans f2⟩
  have hsweep : ∀ (links : List SyncRow) (seen : List String) (x : Store × PullResult),
      (links.foldl (pullSweep d seen) x).1.proposals = x.1.proposals ∧
      (links.foldl (pullSweep d seen) x).1.next_proposal_id = x.1.next_proposal_id := by
    intro links
    induction links with
    | nil => intro seen x; exact ⟨rfl, rfl⟩
    | cons l ls ih =>
      intro seen x
      obtain ⟨ih1, ih2⟩ := ih seen (pullSweep d seen x l)
      obtain ⟨f1, f2⟩ := pullSweep_frame d seen x l
      exact ⟨ih1.trans f1, ih2.trans f2⟩
  unfold sync_pull_from_mochi sync_pull_on_cards
  dsimp only
  obtain ⟨s1, s2⟩ := hsweep s.mochi_sync
    ((mochi_list_cards r d).foldl (pullOne d s.mochi_sync)
      (s, [], ⟨(mochi_list_cards r d).length, 0, 0, 0, 0⟩)).2.1
    (((mochi_list_cards r d).foldl (pullOne d s.mochi_sync)
      (s, [], ⟨(mochi_list_cards r d).length, 0, 0, 0, 0⟩)).1,
     ((mochi_list_cards r d).foldl (pullOne d s.mochi_sync)
      (s, [], ⟨(mochi_list_cards r d).length, 0, 0, 0, 0⟩)).2.2)
  obtain ⟨l1, l2⟩ := hloop (mochi_list_cards r d) s.mochi_sync
    (s, [], ⟨(mochi_list_cards r d).length, 0, 0, 0, 0⟩)
  exact ⟨s1.trans l1, s2.trans l2⟩

theorem set_source_status_proposals (s : Store) (sid : Nat) (st : String) :
    (set_source_status s sid st).proposals = s.proposals ∧
    (set_source_status s sid st).next_proposal_id = s.next_proposal_id := by
  unfold set_source_status
  split
  · exact ⟨rfl, rfl⟩
  · exact ⟨rfl, rfl⟩

theorem expire_proposal_images (s : Store) (src : Nat) :
    (∀ q' ∈ (expire_pending_proposals_for_source s src).1.proposals,
      ∃ q ∈ s.proposals, q'.id = q.id ∧ q'.source_id = q.source_id ∧
        q'.parent_proposal_id = q.parent_proposal_id ∧
        q'.root_proposal_id = q.root_proposal_id ∧
        q'.revision_index = q.revision_index) ∧
    (∀ q ∈ s.proposals, ∃ q' ∈ (expire_pending_proposals_for_source s src).1.proposals,
      q'.id = q.id ∧ q'.source_id = q.source_id ∧
      q'.parent_proposal_id = q.parent_proposal_id ∧
      q'.root_proposal_id = q.root_proposal_id ∧
      q'.revision_index = q.revision_index) := by
  constructor
  · intro q' hq'
    obtain ⟨q, hq, he⟩ := List.mem_map.mp hq'
    refine ⟨q, hq, ?_⟩
    subst he
    by_cases hc : q.source_id = src ∧ q.status = "pending"
    · rw [if_pos hc]; exact ⟨rfl, rfl, rfl, rfl, rfl⟩
    · rw [if_neg hc]; exact ⟨rfl, rfl, rfl, rfl, rfl⟩
  · intro q hq
    refine ⟨_, List.mem_map.mpr ⟨q, hq, rfl⟩, ?_⟩
    by_cases hc : q.source_id = src ∧ q.status = "pending"
    · rw [if_pos hc]; exact ⟨rfl, rfl, rfl, rfl, rfl⟩
    · rw [if_neg hc]; exact ⟨rfl, rfl, rfl, rfl, rfl⟩

/-- `create_and_send_proposals` in terms of the expire step, the insertion
fold, the source-status update and the message-id assignment. -/
theorem create_and_send_spec (s : Store) (source_id : Nat) (cands : List Card)
    (rep : Bool) (par roo rev fb : Int) (msgs : List Nat) (hc : ¬cands = []) :
    (create_and_send_proposals s source_id cands rep par roo rev fb msgs).1 =
      msgFold
        ((foldAdd source_id par roo rev fb (cands.take (max 1 PROPOSAL_MAX_NOTES))
          ((if rep ∧ 0 < source_id then
              (expire_pending_proposals_for_source s source_id).1 else s), [])).2.zip msgs)
        (if 0 < source_id then
          set_source_status
            (foldAdd source_id par roo rev fb (cands.take (max 1 PROPOSAL_MAX_NOTES))
              ((if rep ∧ 0 < source_id then
                  (expire_pending_proposals_for_source s source_id).1 else s), [])).1
            source_id "processed"
         else
          (foldAdd source_id par roo rev fb (cands.take (max 1 PROPOSAL_MAX_NOTES))
            ((if rep ∧ 0 < source_id then
                (expire_pending_proposals_for_source s source_id).1 else s), [])).1) := by
  unfold create_and_send_proposals
  rw [if_neg hc]
  rfl

/-! ## C1: feedback expiry and the pending-chain shape -/

/-- Demonstration store for C1: one Source, one non-feedback propose pass
with two candidates — both proposals remain pending and each is the root of
its own chain. -/
def c1Store : Store :=
  (create_and_send_proposals
    (add_source Store.empty "proposal_text" "l" "text" "" "pending").1
    1 [⟨"basic", "F1", "B1", "", "", []⟩, ⟨"basic", "F2", "B2", "", "", []⟩]
    false 0 0 0 0 [11, 12]).1

/-- C1 counterexample: a reachable state holding two pending Proposals for
the same Source with different `root_proposal_id` — two chains pending at
once.  Initial (non-feedback) proposal creation expires nothing and roots
each candidate at itself, so the "at most one pending chain per Source"
invariant fails even though the feedback path does expire-then-create. -/
theorem pending_chains_counterexample :
    Reachable c1Store ∧
    ∃ p ∈ c1Store.proposals, ∃ q ∈ c1Store.proposals,
      p.status = "pending" ∧ q.status = "pending" ∧
      p.source_id = q.source_id ∧ p.root_proposal_id ≠ q.root_proposal_id :=
  ⟨Reachable.createProposals 1 _ _
      (Reachable.addSource "proposal_text" "l" "text" "" "pending" Reachable.empty),
    by decide⟩

/-- C1 (amended): submitting feedback on a pending Proposal expires every
currently-pending Proposal of its Source before the successor rows are
inserted, so immediately afterwards every pending Proposal of that Source is
one of the feedback's successors — a single chain with parent = the addressed
proposal, root = its root (itself if it was the root), and revision index one
higher.  The claim's further "at most one chain pending in every reachable
state" is refuted by the counterexample: non-feedback proposal creation
leaves prior pending chains pending. -/
theorem feedback_expires_before_successors (s : Store) (m : Nat) (fb : String)
    (cands : List Card) (msgs : List Nat) (p : Proposal) (src : Source)
    (hp : get_pending_proposal_by_message s m = some p)
    (hsid : ¬p.source_id = 0)
    (hsrc : get_source_by_id s p.source_id = some src)
    (htext : ¬pyStrip src.content_text = "")
    (hfb : ¬pyStrip fb = "")
    (hcands : ¬cands = [])
    (hid : ∀ q ∈ s.proposals, q.id < s.next_proposal_id)
    (hpos : 1 ≤ s.next_proposal_id)
    (hpid : p.id ≠ 0) :
    ∀ q ∈ (handle_proposal_feedback s m fb cands msgs).proposals,
      q.status = "pending" → q.source_id = p.source_id →
        q.parent_proposal_id = p.id ∧
        q.root_proposal_id =
          (if p.root_proposal_id ≠ 0 then p.root_proposal_id else p.id) ∧
        q.revision_index = p.revision_index + 1 ∧
        s.next_proposal_id ≤ q.id := by
  have hstep : handle_proposal_feedback s m fb cands msgs =
      (create_and_send_proposals
        (add_proposal_feedback s p.source_id p.id (pyStrip fb)).1
        p.source_id cands true (p.id : Int)
        (if p.root_proposal_id ≠ 0 then (p.root_proposal_id : Int) else (p.id : Int))
        ((p.revision_index : Int) + 1)
        ((add_proposal_feedback s p.source_id p.id (pyStrip fb)).2 : Int) msgs).1 := by
    unfold handle_proposal_feedback
    dsimp only
    rw [if_neg hfb, hp]
    dsimp only
    rw [if_neg hsid]
    have hsrc' : get_source_by_id
        (add_proposal_feedback s p.source_id p.id (pyStrip fb)).1 p.source_id =
        some src := hsrc
    rw [hsrc']
    dsimp only
    rw [if_neg htext]
  set af := (add_proposal_feedback s p.source_id p.id (pyStrip fb)).1 with haf
  have hafprops : af.proposals = s.proposals := rfl
  have hafnext : af.next_proposal_id = s.next_proposal_id := rfl
  set roo : Int :=
    (if p.root_proposal_id ≠ 0 then (p.root_proposal_id : Int) else (p.id : Int))
    with hroo
  have hsidpos : 0 < p.source_id := Nat.pos_of_ne_zero hsid
  have hexp : (true = true ∧ 0 < p.source_id) := ⟨rfl, hsidpos⟩
  set s1 := (expire_pending_proposals_for_source af p.source_id).1 with hs1
  have hs1props : s1.proposals = af.proposals.map (fun q =>
      if q.source_id = p.source_id ∧ q.status = "pending" then
        { q with status := "expired", note_id := 0 } else q) := rfl
  have hs1next : s1.next_proposal_id = s.next_proposal_id := rfl
  have hid1 : ∀ q ∈ s1.proposals, q.id < s1.next_proposal_id := by
    intro q hq
    rw [hs1props, hafprops] at hq
    obtain ⟨q0, hq0, he⟩ := List.mem_map.mp hq
    rw [hs1next]
    have : q.id = q0.id := by
      subst he
      by_cases hc : q0.source_id = p.source_id ∧ q0.status = "pending"
      · rw [if_pos hc]
      · rw [if_neg hc]
    rw [this]
    exact hid q0 hq0
  have hpos1 : 1 ≤ s1.next_proposal_id := by rw [hs1next]; exact hpos
  obtain ⟨rows, hfold, hrows, _, _, _, _, _, _⟩ :=
    foldAdd_spec p.source_id (p.id : Int) roo ((p.revision_index : Int) + 1)
      ((add_proposal_feedback s p.source_id p.id (pyStrip fb)).2 : Int)
      (cands.take (max 1 PROPOSAL_MAX_NOTES)) s1 [] hid1 hpos1
  intro q hq hpend hqsrc
  rw [hstep, create_and_send_spec _ _ _ _ _ _ _ _ _ hcands] at hq
  rw [if_pos hexp, if_pos hsidpos] at hq
  obtain ⟨q3, hq3, hcore⟩ := (msgFold_spec _ _).1 q hq
  rw [(set_source_status_proposals _ _ _).1, hfold] at hq3
  obtain ⟨e1, e2, e3, e4, e5, _, e7, _⟩ := hcore
  rcases List.mem_append.mp hq3 with hold | hnew
  · exfalso
    have := expire_kills_pending af p.source_id q3 hold (by rw [← e2, hqsrc])
    exact this (by rw [← e7, hpend])
  · obtain ⟨⟨f1, f2, f3, f4, _, _, _, f8, _⟩, _⟩ := hrows q3 hnew
    have hroopos : ¬roo ≤ 0 := by
      rw [hroo]
      by_cases hr : p.root_proposal_id ≠ 0
      · rw [if_pos hr]; omega
      · rw [if_neg hr]
        have : 0 < p.id := Nat.pos_of_ne_zero hpid
        omega
    refine ⟨?_, ?_, ?_, ?_⟩
    · rw [e3, f2]; omega
    · rw [e4, f3, if_neg hroopos, hroo]
      by_cases hr : p.root_proposal_id ≠ 0
      · rw [if_pos hr, if_pos hr]; omega
      · rw [if_neg hr, if_neg hr]; omega
    · rw [e5, f4]; omega
    · rw [e1]
      rw [hs1next] at f8
      exact f8

/-- C1 witness setup: one Source with text and one pending proposal (id 1,
handle 5) created from it. -/
def c1fbStore : Store :=
  (create_and_send_proposals
    (add_source Store.empty "proposal_text" "l" "text" "" "pending").1
    1 [⟨"basic", "F1", "B1", "", "", []⟩] false 0 0 0 0 [5]).1

/-- The pending proposal of `c1fbStore`. -/
def c1p : Proposal := ⟨1, 1, 0, 1, 0, 0, "basic", "F1", "B1", "", "", [], 5, "pending", 0⟩

/-- The Source row of `c1fbStore`. -/
def c1src : Source := ⟨1, "proposal_text", "l", "text", "", "processed"⟩

/-- The successor proposal created by the witness feedback. -/
def c1q : Proposal := ⟨2, 1, 1, 1, 1, 1, "basic", "F2", "B2", "", "", [], 9, "pending", 0⟩

/-- C1 witness: the amended theorem applied to `c1fbStore`, handle 5 and one
revision candidate. -/
theorem feedback_expires_before_successors_witness :
    c1q ∈ (handle_proposal_feedback c1fbStore 5 "harder"
      [⟨"basic", "F2", "B2", "", "", []⟩] [9]).proposals ∧
    c1q.parent_proposal_id = c1p.id ∧
    c1q.root_proposal_id =
      (if c1p.root_proposal_id ≠ 0 then c1p.root_proposal_id else c1p.id) ∧
    c1q.revision_index = c1p.revision_index + 1 ∧
    c1fbStore.next_proposal_id ≤ c1q.id := by
  refine ⟨by decide, ?_⟩
  exact feedback_expires_before_successors c1fbStore 5 "harder"
    [⟨"basic", "F2", "B2", "", "", []⟩] [9] c1p c1src
    (by decide) (by decide) (by decide) (by decide) (by decide) (by decide)
    (by decide) (by decide) (by decide) c1q (by decide) (by decide) (by decide)

/-! ## C7: the revision-chain invariant over reachable states -/

theorem chainInv_set_msg (s : Store) (pid mid : Nat) (h : chainInv s) :
    chainInv (set_note_proposal_message_id s pid mid) := by
  refine chainInv_map s _ _ rfl rfl ?_ h
  intro q
  by_cases hq : q.id = pid
  · rw [if_pos hq]; exact ⟨rfl, rfl, rfl, rfl⟩
  · rw [if_neg hq]; exact ⟨rfl, rfl, rfl, rfl⟩

theorem chainInv_msgFold (ps : List (Nat × Nat)) :
    ∀ s : Store, chainInv s → chainInv (msgFold ps s) := by
  induction ps with
  | nil => intro s h; exact h
  | cons pm ps ih =>
    intro s h
    exact ih _ (chainInv_set_msg s pm.1 pm.2 h)

theorem chainInv_expire (s : Store) (src : Nat) (h : chainInv s) :
    chainInv (expire_pending_proposals_for_source s src).1 := by
  refine chainInv_map s _ _ rfl rfl ?_ h
  intro q
  by_cases hq : q.source_id = src ∧ q.status = "pending"
  · rw [if_pos hq]; exact ⟨rfl, rfl, rfl, rfl⟩
  · rw [if_neg hq]; exact ⟨rfl, rfl, rfl, rfl⟩

theorem chainInv_set_decision (s : Store) (pid : Nat) (st : String) (nid : Nat)
    (h : chainInv s) : chainInv (set_proposal_decision s pid st nid) := by
  unfold set_proposal_decision
  split
  · refine chainInv_map s _ _ rfl rfl ?_ h
    intro q
    by_cases hq : q.id = pid
    · rw [if_pos hq]; exact ⟨rfl, rfl, rfl, rfl⟩
    · rw [if_neg hq]; exact ⟨rfl, rfl, rfl, rfl⟩
  · exact h

theorem chainInv_frame {s s' : Store} (hprops : s'.proposals = s.proposals)
    (hnext : s'.next_proposal_id = s.next_proposal_id) (h : chainInv s) :
    chainInv s' := by
  unfold chainInv at h ⊢
  rw [hprops, hnext]
  exact h

theorem chainInv_foldAdd_root (s : Store) (src : Nat) (cands : List Card)
    (acc : List Nat) (h : chainInv s) :
    chainInv (foldAdd src 0 0 0 0 cands (s, acc)).1 := by
  obtain ⟨h0, h1, h2⟩ := h
  obtain ⟨rows, hprops, hrows, hbound, hmono, _⟩ :=
    foldAdd_spec src 0 0 0 0 cands s acc (fun q hq => (h1 q hq).2.1) h0
  refine ⟨le_trans h0 hmono, ?_, ?_⟩
  · intro q hq
    have hq' := hq
    rw [hprops] at hq'
    rcases List.mem_append.mp hq' with hold | hnew
    · exact ⟨(h1 q hold).1, hbound q hq, (h1 q hold).2.2⟩
    · obtain ⟨⟨_, _, f3, _, _, _, _, _, f9⟩, _⟩ := hrows q hnew
      refine ⟨f9, hbound q hq, ?_⟩
      rw [f3, if_pos (by omega : (0 : Int) ≤ 0)]
      exact f9
  · intro q hq
    have hq' := hq
    rw [hprops] at hq'
    rcases List.mem_append.mp hq' with hold | hnew
    · obtain ⟨hb1, hb2⟩ := h2 q hold
      refine ⟨hb1, ?_⟩
      intro hpar
      obtain ⟨pp, hpp, hppe, hppr, hpproot⟩ := hb2 hpar
      exact ⟨pp, by rw [hprops]; exact List.mem_append_left _ hpp, hppe, hppr, hpproot⟩
    · obtain ⟨⟨_, f2, f3, f4, _, _, _, _, _⟩, _⟩ := hrows q hnew
      constructor
      · intro _
        constructor
        · rw [f4]; rfl
        · rw [f3, if_pos (by omega : (0 : Int) ≤ 0)]
      · intro hpar
        exfalso
        rw [f2] at hpar
        exact hpar rfl

theorem chainInv_foldAdd_child (src : Nat) (par roo rev fb : Int)
    (cands : List Card) (s : Store) (acc : List Nat)
    (hpmem : ∃ pp ∈ s.proposals, (pp.id : Int) = par ∧
      ((pp.revision_index : Int) + 1) = rev ∧ (pp.root_proposal_id : Int) = roo)
    (hparpos : 0 < par) (hroopos : 0 < roo)
    (h : chainInv s) : chainInv (foldAdd src par roo rev fb cands (s, acc)).1 := by
  obtain ⟨h0, h1, h2⟩ := h
  obtain ⟨rows, hprops, hrows, hbound, hmono, _⟩ :=
    foldAdd_spec src par roo rev fb cands s acc (fun q hq => (h1 q hq).2.1) h0
  obtain ⟨pp, hpp, hppid, hpprev, hpproot⟩ := hpmem
  refine ⟨le_trans h0 hmono, ?_, ?_⟩
  · intro q hq
    have hq' := hq
    rw [hprops] at hq'
    rcases List.mem_append.mp hq' with hold | hnew
    · exact ⟨(h1 q hold).1, hbound q hq, (h1 q hold).2.2⟩
    · obtain ⟨⟨_, _, f3, _, _, _, _, _, f9⟩, _⟩ := hrows q hnew
      refine ⟨f9, hbound q hq, ?_⟩
      rw [f3, if_neg (by omega : ¬roo ≤ 0)]
      omega
  · intro q hq
    have hq' := hq
    rw [hprops] at hq'
    rcases List.mem_append.mp hq' with hold | hnew
    · obtain ⟨hb1, hb2⟩ := h2 q hold
      refine ⟨hb1, ?_⟩
      intro hpar
      obtain ⟨qq, hqq, hqqe, hqqr, hqqroot⟩ := hb2 hpar
      exact ⟨qq, by rw [hprops]; exact List.mem_append_left _ hqq, hqqe, hqqr, hqqroot⟩
    · obtain ⟨⟨_, f2, f3, f4, _, _, _, _, _⟩, _⟩ := hrows q hnew
      constructor
      · intro hpar
        exfalso
        rw [f2] at hpar
        omega
      · intro _
        refine ⟨pp, by rw [hprops]; exact List.mem_append_left _ hpp, ?_, ?_, ?_⟩
        · rw [f2]; omega
        · rw [f4]; omega
        · rw [f3, if_neg (by omega : ¬roo ≤ 0)]
          omega

/-- The invariant holds in every reachable state. -/
theorem chainInv_reachable : ∀ s, Reachable s → chainInv s := by
  intro s h
  induction h with
  | empty =>
    refine ⟨by decide, ?_, ?_⟩
    · intro q hq; simp [Store.empty] at hq
    · intro q hq; simp [Store.empty] at hq
  | addSource st sl ct url status _ ih => exact chainInv_frame rfl rfl ih
  | setSourceStatus source_id status _ ih =>
    exact chainInv_frame (set_source_status_proposals _ _ _).1
      (set_source_status_proposals _ _ _).2 ih
  | addNote t f b c e tags sid origin _ ih => exact chainInv_frame rfl rfl ih
  | updateNote nid t f b c e tags origin _ ih => exact chainInv_frame rfl rfl ih
  | clearNotes _ ih => exact chainInv_frame rfl rfl ih
  | createProposals source_id cands msgs _ ih =>
    rename_i s0 _
    by_cases hc : cands = []
    · subst hc
      exact ih
    · rw [create_and_send_spec _ _ _ _ _ _ _ _ _ hc,
        if_neg (show ¬(false = true ∧ 0 < source_id) from fun h => by simp at h)]
      apply chainInv_msgFold
      have hbase : chainInv (foldAdd source_id 0 0 0 0
          (cands.take (max 1 PROPOSAL_MAX_NOTES)) (s0, [])).1 :=
        chainInv_foldAdd_root s0 source_id _ [] ih
      split
      · exact chainInv_frame (set_source_status_proposals _ _ _).1
          (set_source_status_proposals _ _ _).2 hbase
      · exact hbase
  | scriptProposal source_id n _ ih =>
    exact chainInv_foldAdd_root _ source_id [n] [] ih
  | feedback msg fb cands msgs _ ih =>
    rename_i s0 _
    unfold handle_proposal_feedback
    dsimp only
    by_cases hfb : pyStrip fb = ""
    · rw [if_pos hfb]; exact ih
    · rw [if_neg hfb]
      cases hp : get_pending_proposal_by_message s0 msg with
      | none => exact ih
      | some p =>
        dsimp only
        by_cases hsid : p.source_id = 0
        · rw [if_pos hsid]; exact ih
        · rw [if_neg hsid]
          have hafinv : chainInv (add_proposal_feedback s0 p.source_id p.id
              (pyStrip fb)).1 := chainInv_frame rfl rfl ih
          cases hsrc : get_source_by_id
              (add_proposal_feedback s0 p.source_id p.id (pyStrip fb)).1 p.source_id with
          | none => exact hafinv
          | some src =>
            dsimp only
            by_cases htext : pyStrip src.content_text = ""
            · rw [if_pos htext]; exact hafinv
            · rw [if_neg htext]
              by_cases hcands : cands = []
              · subst hcands
                exact hafinv
              · obtain ⟨hmem, _, hpend⟩ := pending_of_lookup hp
                obtain ⟨h0, h1, h2⟩ := ih
                obtain ⟨hpid0, _, hproot0⟩ := h1 p hmem
                have hsidpos : 0 < p.source_id := Nat.pos_of_ne_zero hsid
                rw [create_and_send_spec _ _ _ _ _ _ _ _ _ hcands,
                  if_pos (show true = true ∧ 0 < p.source_id from ⟨rfl, hsidpos⟩),
                  if_pos hsidpos]
                apply chainInv_msgFold
                have hexpinv : chainInv (expire_pending_proposals_for_source
                    (add_proposal_feedback s0 p.source_id p.id (pyStrip fb)).1
                    p.source_id).1 := chainInv_expire _ _ hafinv
                have hbase : chainInv (foldAdd p.source_id (p.id : Int)
                    (if p.root_proposal_id ≠ 0 then (p.root_proposal_id : Int)
                     else (p.id : Int))
                    ((p.revision_index : Int) + 1)
                    ((add_proposal_feedback s0 p.source_id p.id (pyStrip fb)).2 : Int)
                    (cands.take (max 1 PROPOSAL_MAX_NOTES))
                    ((expire_pending_proposals_for_source
                        (add_proposal_feedback s0 p.source_id p.id (pyStrip fb)).1
                        p.source_id).1, [])).1 := by
                  apply chainInv_foldAdd_child
                  · obtain ⟨pimg, hpimg, g1, _, _, g4, g5⟩ :=
                      (expire_proposal_images
                        (add_proposal_feedback s0 p.source_id p.id (pyStrip fb)).1
                        p.source_id).2 p hmem
                    refine ⟨pimg, hpimg, ?_, ?_, ?_⟩
                    · rw [g1]
                    · rw [g5]
                    · rw [g4]
                      by_cases hr : p.root_proposal_id ≠ 0
                      · rw [if_pos hr]
                      · rw [if_neg hr]
                        omega
                  · omega
                  · by_cases hr : p.root_proposal_id ≠ 0
                    · rw [if_pos hr]; omega
                    · rw [if_neg hr]; omega
                  · exact hexpinv
                exact chainInv_frame (set_source_status_proposals _ _ _).1
                  (set_source_status_proposals _ _ _).2 hbase
  | approve msg _ ih =>
    rename_i s0 _
    unfold handle_proposal_reaction_approve
    cases hp : get_pending_proposal_by_message s0 msg with
    | none => exact ih
    | some p =>
      dsimp only
      exact chainInv_set_decision _ _ _ _ (chainInv_frame rfl rfl ih)
  | reject msg _ ih =>
    rename_i s0 _
    unfold handle_proposal_reaction_reject
    cases hp : get_pending_proposal_by_message s0 msg with
    | none => exact ih
    | some p => exact chainInv_set_decision _ _ _ _ ih
  | assignMsg pid mid _ ih => exact chainInv_set_msg _ pid mid ih
  | push r deck notes _ ih =>
    exact chainInv_frame (sync_push_frame deck notes _ _).1
      (sync_push_frame deck notes _ _).2 ih
  | pull r deck _ ih =>
    exact chainInv_frame (sync_pull_frame _ r deck).1 (sync_pull_frame _ r deck).2 ih

/-- C7: in every reachable store state, `revision_index` is strictly
increasing along each Proposal parent chain starting at 0 (a root has index 0
and roots itself; every child's index is its parent's plus one), and
`root_proposal_id` is constant along the chain. -/
theorem revision_chain_invariant (s : Store) (hs : Reachable s) :
    ∀ q ∈ s.proposals,
      (q.parent_proposal_id = 0 → q.revision_index = 0 ∧
        q.root_proposal_id = q.id) ∧
      (q.parent_proposal_id ≠ 0 → ∃ p ∈ s.proposals,
        p.id = q.parent_proposal_id ∧
        q.revision_index = p.revision_index + 1 ∧
        q.root_proposal_id = p.root_proposal_id ∧
        p.revision_index < q.revision_index) := by
  obtain ⟨_, _, h2⟩ := chainInv_reachable s hs
  intro q hq
  obtain ⟨hb1, hb2⟩ := h2 q hq
  refine ⟨hb1, ?_⟩
  intro hpar
  obtain ⟨p, hp, he, hr, hroot⟩ := hb2 hpar
  exact ⟨p, hp, he, hr, hroot, by omega⟩

/-- C7 witness: the invariant theorem applied to the reachable demonstration
store `c1fbStore` and its root proposal. -/
theorem revision_chain_invariant_witness :
    c1p.revision_index = 0 ∧ c1p.root_proposal_id = c1p.id := by
  have hr : Reachable c1fbStore :=
    Reachable.createProposals 1 [⟨"basic", "F1", "B1", "", "", []⟩] [5]
      (Reachable.addSource "proposal_text" "l" "text" "" "pending" Reachable.empty)
  exact (revision_chain_invariant c1fbStore hr c1p (by decide)).1 (by decide)

/-- C8 witness: the commit-granularity theorem applied to `c8Store`; the
completed approve run is consistent. -/
theorem approve_commit_granularity_witness :
    approvalConsistent (handle_proposal_reaction_approve c8Store 5) :=
  (approve_commit_granularity c8Store 5
    ⟨1, 7, 0, 1, 0, 0, "basic", "F", "B", "", "", [], 5, "pending", 0⟩
    (by decide) (by decide) (by decide)).2

/-- C10 witness: the stored-tags theorem applied to an `add_note` call on the
empty store with tags `["A a", "a-A", "x"]`. -/
theorem stored_tags_normalized_witness :
    TagListNormal (Note.mk 1 "basic" "f" "b" "" "" ["A-a", "x"] 0 "manual").tags := by
  have h := stored_tags_normalized.2.1 Store.empty "basic" "f" "b" "" "" ["A a", "a-A", "x"]
    0 "manual" ⟨1, "basic", "f", "b", "", "", ["A-a", "x"], 0, "manual"⟩ (by decide)
  rcases h with h | h
  · exact absurd h (by decide)
  · exact h

/-! ## C4: characterization of the pull pass -/

/-- The stripped remote card id used by the pull loop. -/
def stripId (c : MochiCard) : String := pyStrip c.id

/-- The loop processes a listed card (non-empty id, matching deck). -/
def procP (deck : String) (c : MochiCard) : Prop :=
  ¬stripId c = "" ∧ c.deckId = deck

instance (deck : String) (c : MochiCard) : Decidable (procP deck c) := by
  unfold procP; infer_instance

/-- The pull loop creates a local Note (and Source) for the card: processed
and not addressed by any pre-pass SyncLink. -/
def pullCreates (snap : List SyncRow) (deck : String) (c : MochiCard) : Prop :=
  procP deck c ∧ snap.find? (fun l => l.mochi_card_id = stripId c) = none

instance (snap : List SyncRow) (deck : String) (c : MochiCard) :
    Decidable (pullCreates snap deck c) := by
  unfold pullCreates; infer_instance

theorem pullOne_spec (deck : String) (snap : List SyncRow)
    (st : Store) (seen : List String) (res : PullResult) (c : MochiCard) :
    (pullOne deck snap (st, seen, res) c).2.1 =
      (if procP deck c then seen ++ [stripId c] else seen) ∧
    (pullOne deck snap (st, seen, res) c).2.2.created_local =
      res.created_local + (if pullCreates snap deck c then 1 else 0) ∧
    (pullOne deck snap (st, seen, res) c).2.2.removed_stale_links =
      res.removed_stale_links ∧
    (pullOne deck snap (st, seen, res) c).1.sources.length =
      st.sources.length + (if pullCreates snap deck c then 1 else 0) ∧
    (∀ src ∈ (pullOne deck snap (st, seen, res) c).1.sources,
      src ∈ st.sources ∨ src.status = "processed") ∧
    (pullOne deck snap (st, seen, res) c).1.notes.length =
      st.notes.length + (if pullCreates snap deck c then 1 else 0) ∧
    (∀ n ∈ (pullOne deck snap (st, seen, res) c).1.notes,
      (∃ n0 ∈ st.notes, n.id = n0.id) ∨ n.id = st.next_note_id) ∧
    (pullOne deck snap (st, seen, res) c).1.next_note_id =
      st.next_note_id + (if pullCreates snap deck c then 1 else 0) ∧
    (∀ row ∈ (pullOne deck snap (st, seen, res) c).1.mochi_sync,
      row ∈ st.mochi_sync ∨ (procP deck c ∧ row.mochi_card_id = stripId c)) ∧
    (∀ L ∈ st.mochi_sync, (procP deck c → ¬L.mochi_card_id = stripId c) →
      (∀ M ∈ snap, M.mochi_card_id = stripId c → ¬L.note_id = M.note_id) →
      L.note_id < st.next_note_id → L ∈ (pullOne deck snap (st, seen, res) c).1.mochi_sync) ∧
    (∀ M, procP deck c →
      snap.find? (fun l => l.mochi_card_id = stripId c) = some M →
      get_note_by_id st M.note_id = none →
      ∀ row ∈ (pullOne deck snap (st, seen, res) c).1.mochi_sync,
        ¬row.mochi_card_id = stripId c) := by
  by_cases hcid : pyStrip c.id = ""
  · have hproc : ¬procP deck c := fun h => h.1 hcid
    have hcr : ¬pullCreates snap deck c := fun h => hproc h.1
    have hskip : pullOne deck snap (st, seen, res) c = (st, seen, res) := by
      unfold pullOne
      dsimp only
      rw [if_pos hcid]
    rw [hskip, if_neg hproc, if_neg hcr]
    refine ⟨rfl, rfl, rfl, rfl, fun src h => Or.inl h, rfl,
      fun n hn => Or.inl ⟨n, hn, rfl⟩, rfl, fun row h => Or.inl h,
      fun L hL _ _ _ => hL, fun M hM _ _ => absurd hM hproc⟩
  · by_cases hdeck : c.deckId = deck
    · have hproc : procP deck c := ⟨hcid, hdeck⟩
      have hstep0 : pullOne deck snap (st, seen, res) c =
          (match snap.find? (fun l => l.mochi_card_id = pyStrip c.id) with
           | some link =>
             match get_note_by_id st link.note_id with
             | none => (remove_mochi_sync_by_card st (pyStrip c.id),
                 seen ++ [pyStrip c.id], res)
             | some note =>
               if link.remote_hash ≠ mochi_card_hash c then
                 let s1 := update_note_fields st note.id (mochi_card_to_local_note c).type
                   (mochi_card_to_local_note c).front (mochi_card_to_local_note c).back
                   (mochi_card_to_local_note c).cloze (mochi_card_to_local_note c).extra
                   (mochi_card_to_local_note c).tags "mochi_pull"
                 let res1 := { res with updated_local := res.updated_local + 1 }
                 match get_note_by_id s1 note.id with
                 | some nn =>
                   (link_mochi_sync s1 nn.id (pyStrip c.id) deck (note_hash nn.card)
                     (mochi_card_hash c) (mochi_card_updated_at c),
                     seen ++ [pyStrip c.id], res1)
                 | none => (s1, seen ++ [pyStrip c.id], res1)
               else
                 (link_mochi_sync st note.id (pyStrip c.id) deck (note_hash note.card)
                   (mochi_card_hash c) (mochi_card_updated_at c),
                   seen ++ [pyStrip c.id],
                   { res with unchanged := res.unchanged + 1 })
           | none =>
             let sr := add_source st "mochi_pull"
               (pyTake 120 (if c.name ≠ "" then c.name else "mochi:" ++ pyStrip c.id))
               c.content ("mochi://card/" ++ pyStrip c.id)
               "processed"
             let sn := add_note sr.1 (mochi_card_to_local_note c).type
               (mochi_card_to_local_note c).front (mochi_card_to_local_note c).back
               (mochi_card_to_local_note c).cloze (mochi_card_to_local_note c).extra
               (mochi_card_to_local_note c).tags sr.2 "mochi_pull"
             let lh := match get_note_by_id sn.1 sn.2 with
               | some nn => note_hash nn.card
               | none => note_hash (mochi_card_to_local_note c)
             (link_mochi_sync sn.1 sn.2 (pyStrip c.id) deck lh (mochi_card_hash c)
               (mochi_card_updated_at c),
               seen ++ [pyStrip c.id],
               { res with created_local := res.created_local + 1 })) := by
        unfold pullOne
        dsimp only
        rw [if_neg hcid, if_neg (by rw [hdeck]; exact fun h => h rfl)]
      cases hfind : snap.find? (fun l => l.mochi_card_id = pyStrip c.id) with
      | none =>
        have hcr : pullCreates snap deck c := ⟨hproc, hfind⟩
        rw [hstep0, hfind]
        dsimp only
        rw [if_pos hproc, if_pos hcr]
        refine ⟨rfl, rfl, rfl, by simp [link_mochi_sync, add_source, add_note],
          ?_, ?_, ?_, ?_, ?_, ?_, ?_⟩
        · intro src hsrc
          simp only [link_mochi_sync, add_note, add_source, List.mem_append,
            List.mem_singleton] at hsrc
          rcases hsrc with h | h
          · exact Or.inl h
          · subst h
            exact Or.inr rfl
        · simp [link_mochi_sync, add_source, add_note]
        · intro n hn
          simp only [link_mochi_sync, add_note, add_source, List.mem_append,
            List.mem_singleton] at hn
          rcases hn with h | h
          · exact Or.inl ⟨n, h, rfl⟩
          · subst h
            exact Or.inr rfl
        · simp [link_mochi_sync, add_source, add_note]
        · intro row hrow
          simp only [link_mochi_sync, add_note, add_source, List.mem_append,
            List.mem_singleton, List.mem_filter] at hrow
          rcases hrow with h | h
          · exact Or.inl h.1
          · subst h
            exact Or.inr ⟨hproc, rfl⟩
        · intro L hL hcard hnote hlt
          simp only [link_mochi_sync, add_note, add_source]
          apply List.mem_append_left
          apply List.mem_filter.mpr
          refine ⟨hL, ?_⟩
          apply decide_eq_true
          intro hor
          rcases hor with h | h
          · have h2 : L.note_id = st.next_note_id := h
            omega
          · exact hcard hproc h
        · intro M _ hM
          have hfind2 : snap.find? (fun l => l.mochi_card_id = stripId c) = none := hfind
          rw [hfind2] at hM
          exact absurd hM (by simp)
      | some link =>
        rw [hstep0, hfind]
        dsimp only
        have hcr : ¬pullCreates snap deck c := by
          intro h
          have h2 : snap.find? (fun l => l.mochi_card_id = pyStrip c.id) = none := h.2
          rw [hfind] at h2
          exact absurd h2 (by simp)
        cases hnote : get_note_by_id st link.note_id with
        | none =>
          dsimp only
          rw [if_pos hproc, if_neg hcr]
          refine ⟨rfl, rfl, rfl, rfl, fun src h => Or.inl h, rfl,
            fun n hn => Or.inl ⟨n, hn, rfl⟩, rfl, ?_, ?_, ?_⟩
          · intro row hrow
            exact Or.inl (List.mem_filter.mp hrow).1
          · intro L hL hcard _ _
            apply List.mem_filter.mpr
            exact ⟨hL, decide_eq_true (hcard hproc)⟩
          · intro M _ hM _ row hrow
            intro he
            have he2 : row.mochi_card_id = pyStrip c.id := he
            have h2 := (List.mem_filter.mp hrow).2
            rw [he2] at h2
            simp at h2
        | some note =>
          dsimp only
          have hnid : note.id = link.note_id := by
            have := List.find?_some hnote
            simpa using this
          have hml : ∀ M, snap.find? (fun l => l.mochi_card_id = pyStrip c.id) = some M →
              M = link := fun M hM => by rw [hfind] at hM; exact (Option.some_inj.mp hM).symm
          by_cases hhash : link.remote_hash ≠ mochi_card_hash c
          · rw [if_pos hhash]
            have hfound : get_note_by_id
                (update_note_fields st note.id (mochi_card_to_local_note c).type
                  (mochi_card_to_local_note c).front (mochi_card_to_local_note c).back
                  (mochi_card_to_local_note c).cloze (mochi_card_to_local_note c).extra
                  (mochi_card_to_local_note c).tags "mochi_pull") note.id ≠ none := by
              unfold get_note_by_id update_note_fields
              dsimp only
              intro hnone
              rw [List.find?_eq_none] at hnone
              have hmem := List.mem_of_find?_eq_some hnote
              have hpred := hnone _ (List.mem_map.mpr ⟨note, hmem, rfl⟩)
              by_cases hc2 : note.id = note.id
              · rw [if_pos hc2] at hpred
                exact hpred (by simp [hnid])
              · exact hc2 rfl
            cases hnn : get_note_by_id
                (update_note_fields st note.id (mochi_card_to_local_note c).type
                  (mochi_card_to_local_note c).front (mochi_card_to_local_note c).back
                  (mochi_card_to_local_note c).cloze (mochi_card_to_local_note c).extra
                  (mochi_card_to_local_note c).tags "mochi_pull") note.id with
            | none => exact absurd hnn hfound
            | some nn =>
              have hnnid : nn.id = note.id := by
                have := List.find?_some hnn
                simpa using this
              dsimp only
              rw [if_pos hproc, if_neg hcr]
              refine ⟨rfl, rfl, rfl, rfl, fun src h => Or.inl h,
                by simp [link_mochi_sync, update_note_fields], ?_, rfl, ?_, ?_, ?_⟩
              · intro n hn
                simp only [link_mochi_sync, update_note_fields] at hn
                obtain ⟨n0, hn0, he⟩ := List.mem_map.mp hn
                refine Or.inl ⟨n0, hn0, ?_⟩
                subst he
                by_cases hc2 : n0.id = note.id
                · rw [if_pos hc2]
                · rw [if_neg hc2]
              · intro row hrow
                simp only [link_mochi_sync, update_note_fields] at hrow
                rcases List.mem_append.mp hrow with h | h
                · exact Or.inl (List.mem_filter.mp h).1
                · rw [List.mem_singleton.mp h]
                  exact Or.inr ⟨hproc, rfl⟩
              · intro L hL hcard hnid2 _
                simp only [link_mochi_sync, update_note_fields]
                apply List.mem_append_left
                apply List.mem_filter.mpr
                refine ⟨hL, ?_⟩
                apply decide_eq_true
                intro hor
                rcases hor with h | h
                · rw [hnnid, hnid] at h
                  exact hnid2 link (List.mem_of_find?_eq_some hfind)
                    (by simpa using List.find?_some hfind) h
                · exact hcard hproc h
              · intro M _ hM hMn
                rw [hml M hM] at hMn
                rw [hnote] at hMn
                exact absurd hMn (by simp)
          · rw [if_neg hhash]
            dsimp only
            rw [if_pos hproc, if_neg hcr]
            refine ⟨rfl, rfl, rfl, rfl, fun src h => Or.inl h, rfl,
              fun n hn => Or.inl ⟨n, hn, rfl⟩, rfl, ?_, ?_, ?_⟩
            · intro row hrow
              simp only [link_mochi_sync] at hrow
              rcases List.mem_append.mp hrow with h | h
              · exact Or.inl (List.mem_filter.mp h).1
              · rw [List.mem_singleton.mp h]
                exact Or.inr ⟨hproc, rfl⟩
            · intro L hL hcard hnid2 _
              simp only [link_mochi_sync]
              apply List.mem_append_left
              apply List.mem_filter.mpr
              refine ⟨hL, ?_⟩
              apply decide_eq_true
              intro hor
              rcases hor with h | h
              · rw [hnid] at h
                exact hnid2 link (List.mem_of_find?_eq_some hfind)
                  (by simpa using List.find?_some hfind) h
              · exact hcard hproc h
            · intro M _ hM hMn
              rw [hml M hM] at hMn
              rw [hnote] at hMn
              exact absurd hMn (by simp)
    · have hproc : ¬procP deck c := fun h => hdeck h.2
      have hcr : ¬pullCreates snap deck c := fun h => hproc h.1
      have hskip : pullOne deck snap (st, seen, res) c = (st, seen, res) := by
        unfold pullOne
        dsimp only
        rw [if_neg hcid, if_pos (by intro h; exact hdeck h)]
      rw [hskip, if_neg hproc, if_neg hcr]
      exact ⟨rfl, rfl, rfl, rfl, fun src h => Or.inl h, rfl,
        fun n hn => Or.inl ⟨n, hn, rfl⟩, rfl, fun row h => Or.inl h,
        fun L hL _ _ _ => hL, fun M hM _ _ => absurd hM hproc⟩

theorem pullLoop_spec (deck : String) (snap : List SyncRow) (cards : List MochiCard) :
    ∀ (st : Store) (seen : List String) (res : PullResult),
      (cards.foldl (pullOne deck snap) (st, seen, res)).2.2.created_local =
        res.created_local +
          List.countP (fun c => decide (pullCreates snap deck c)) cards ∧
      (cards.foldl (pullOne deck snap) (st, seen, res)).2.2.removed_stale_links =
        res.removed_stale_links ∧
      (cards.foldl (pullOne deck snap) (st, seen, res)).1.sources.length =
        st.sources.length + List.countP (fun c => decide (pullCreates snap deck c)) cards ∧
      (∀ src ∈ (cards.foldl (pullOne deck snap) (st, seen, res)).1.sources,
        src ∈ st.sources ∨ src.status = "processed") ∧
      (cards.foldl (pullOne deck snap) (st, seen, res)).1.notes.length =
        st.notes.length + List.countP (fun c => decide (pullCreates snap deck c)) cards ∧
      (∀ n ∈ (cards.foldl (pullOne deck snap) (st, seen, res)).1.notes,
        (∃ n0 ∈ st.notes, n.id = n0.id) ∨ st.next_note_id ≤ n.id) ∧
      st.next_note_id ≤ (cards.foldl (pullOne deck snap) (st, seen, res)).1.next_note_id ∧
      (cards.foldl (pullOne deck snap) (st, seen, res)).2.1 =
        seen ++ (cards.filter (fun c => decide (procP deck c))).map stripId ∧
      (∀ row ∈ (cards.foldl (pullOne deck snap) (st, seen, res)).1.mochi_sync,
        row ∈ st.mochi_sync ∨
          row.mochi_card_id ∈ (cards.filter (fun c => decide (procP deck c))).map stripId) := by
  induction cards with
  | nil =>
    intro st seen res
    exact ⟨rfl, rfl, rfl, fun src h => Or.inl h, rfl,
      fun n hn => Or.inl ⟨n, hn, rfl⟩, le_refl _, by simp, fun row h => Or.inl h⟩
  | cons c cs ih =>
    intro st seen res
    obtain ⟨p1, p2, p3, p4, p5, p6, p7, p8, p9, p10, p11⟩ :=
      pullOne_spec deck snap st seen res c
    set x := pullOne deck snap (st, seen, res) c with hx
    have hstep : (c :: cs).foldl (pullOne deck snap) (st, seen, res) =
        cs.foldl (pullOne deck snap) (x.1, x.2.1, x.2.2) := by
      rw [hx]
      rfl
    obtain ⟨i1, i2, i3, i4, i5, i6, i7, i8, i9⟩ := ih x.1 x.2.1 x.2.2
    have hcount : List.countP (fun c => decide (pullCreates snap deck c)) (c :: cs) =
        List.countP (fun c => decide (pullCreates snap deck c)) cs +
          (if pullCreates snap deck c then 1 else 0) := by
      rw [List.countP_cons]
      by_cases hc : pullCreates snap deck c
      · simp [hc]
      · simp [hc]
    have hfiltercons : ((c :: cs).filter (fun c => decide (procP deck c))).map stripId =
        (if procP deck c then [stripId c] else []) ++
          (cs.filter (fun c => decide (procP deck c))).map stripId := by
      rw [List.filter_cons]
      by_cases hc : procP deck c
      · simp [hc]
      · simp [hc]
    refine ⟨?_, ?_, ?_, ?_, ?_, ?_, ?_, ?_, ?_⟩
    · rw [hstep, i1, p2, hcount]; omega
    · rw [hstep, i2, p3]
    · rw [hstep, i3, p4, hcount]; omega
    · intro src hsrc
      rw [hstep] at hsrc
      rcases i4 src hsrc with h | h
      · exact p5 src h
      · exact Or.inr h
    · rw [hstep, i5, p6, hcount]; omega
    · intro n hn
      rw [hstep] at hn
      rcases i6 n hn with ⟨n0, hn0, he⟩ | h
      · rcases p7 n0 hn0 with ⟨n1, hn1, he1⟩ | h1
        · exact Or.inl ⟨n1, hn1, he.trans he1⟩
        · right
          rw [he, h1]
      · right
        calc st.next_note_id ≤ x.1.next_note_id := by rw [p8]; omega
          _ ≤ n.id := h
    · rw [hstep]
      calc st.next_note_id ≤ x.1.next_note_id := by rw [p8]; omega
        _ ≤ _ := i7
    · rw [hstep, i8, p1, hfiltercons]
      by_cases hc : procP deck c
      · rw [if_pos hc, if_pos hc]
        simp
      · rw [if_neg hc, if_neg hc]
        simp
    · intro row hrow
      rw [hstep] at hrow
      rw [hfiltercons]
      rcases i9 row hrow with h | h
      · rcases p9 row h with h2 | h2
        · exact Or.inl h2
        · right
          rw [if_pos h2.1]
          simp [h2.2]
      · right
        rcases List.mem_append.mpr (Or.inr h) with _
        exact List.mem_append_right _ h

theorem pullLoop_survives (deck : String) (snap : List SyncRow) (cards : List MochiCard) :
    ∀ (st : Store) (seen : List String) (res : PullResult) (L : SyncRow),
      L ∈ st.mochi_sync → L.note_id < st.next_note_id →
      (∀ c ∈ cards, procP deck c → ¬L.mochi_card_id = stripId c) →
      (∀ c ∈ cards, ∀ M ∈ snap, M.mochi_card_id = stripId c → ¬L.note_id = M.note_id) →
      L ∈ (cards.foldl (pullOne deck snap) (st, seen, res)).1.mochi_sync := by
  induction cards with
  | nil => intro st seen res L hL _ _ _; exact hL
  | cons c cs ih =>
    intro st seen res L hL hlt hcard hM
    obtain ⟨_, _, _, _, _, _, _, p8, _, p10, _⟩ := pullOne_spec deck snap st seen res c
    set x := pullOne deck snap (st, seen, res) c with hx
    have hstep : (c :: cs).foldl (pullOne deck snap) (st, seen, res) =
        cs.foldl (pullOne deck snap) (x.1, x.2.1, x.2.2) := by rw [hx]; rfl
    rw [hstep]
    refine ih x.1 x.2.1 x.2.2 L ?_ ?_ ?_ ?_
    · exact p10 L hL (fun hp => hcard c (List.mem_cons_self c cs) hp)
        (fun M hMs hMc => hM c (List.mem_cons_self c cs) M hMs hMc) hlt
    · rw [p8]; omega
    · exact fun c' hc' => hcard c' (List.mem_cons_of_mem c hc')
    · exact fun c' hc' => hM c' (List.mem_cons_of_mem c hc')

theorem pullLoop_noRow (deck : String) (snap : List SyncRow) (cards : List MochiCard)
    (cid : String) (M : SyncRow)
    (hfind : snap.find? (fun l => l.mochi_card_id = cid) = some M) :
    ∀ (st : Store) (seen : List String) (res : PullResult),
      (∀ row ∈ st.mochi_sync, ¬row.mochi_card_id = cid) →
      M.note_id < st.next_note_id →
      (∀ n ∈ st.notes, ¬n.id = M.note_id) →
      ∀ row ∈ (cards.foldl (pullOne deck snap) (st, seen, res)).1.mochi_sync,
        ¬row.mochi_card_id = cid := by
  induction cards with
  | nil => intro st seen res hrows _ _ row hrow; exact hrows row hrow
  | cons c cs ih =>
    intro st seen res hrows hlt hnotes
    obtain ⟨_, _, _, _, _, _, p7, p8, p9, _, p11⟩ := pullOne_spec deck snap st seen res c
    set x := pullOne deck snap (st, seen, res) c with hx
    have hstep : (c :: cs).foldl (pullOne deck snap) (st, seen, res) =
        cs.foldl (pullOne deck snap) (x.1, x.2.1, x.2.2) := by rw [hx]; rfl
    rw [hstep]
    have hxrows : ∀ row ∈ x.1.mochi_sync, ¬row.mochi_card_id = cid := by
      by_cases hc : procP deck c ∧ stripId c = cid
      · have hfind2 : snap.find? (fun l => l.mochi_card_id = stripId c) = some M := by
          rw [hc.2]
          exact hfind
        have hnone : get_note_by_id st M.note_id = none := by
          unfold get_note_by_id
          rw [List.find?_eq_none]
          intro n hn
          simp only [decide_eq_true_eq]
          exact hnotes n hn
        intro row hrow he
        exact p11 M hc.1 hfind2 hnone row hrow (by rw [he, ← hc.2])
      · intro row hrow
        rcases p9 row hrow with h | h
        · exact hrows row h
        · intro he
          exact hc ⟨h.1, by rw [← h.2, he]⟩
    refine ih x.1 x.2.1 x.2.2 hxrows (by rw [p8]; omega) ?_
    intro n hn
    rcases p7 n hn with ⟨n0, hn0, he⟩ | he
    · rw [he]
      exact hnotes n0 hn0
    · rw [he]
      omega

theorem pullLoop_dangling (deck : String) (snap : List SyncRow) (cards : List MochiCard) :
    ∀ (st : Store) (seen : List String) (res : PullResult) (c0 : MochiCard) (M : SyncRow),
      c0 ∈ cards → procP deck c0 →
      snap.find? (fun l => l.mochi_card_id = stripId c0) = some M →
      M.note_id < st.next_note_id →
      (∀ n ∈ st.notes, ¬n.id = M.note_id) →
      ∀ row ∈ (cards.foldl (pullOne deck snap) (st, seen, res)).1.mochi_sync,
        ¬row.mochi_card_id = stripId c0 := by
  induction cards with
  | nil => intro st seen res c0 M hc0 _ _ _ _; simp at hc0
  | cons c cs ih =>
    intro st seen res c0 M hc0 hproc0 hfind0 hlt hnotes
    obtain ⟨_, _, _, _, _, _, p7, p8, p9, _, p11⟩ := pullOne_spec deck snap st seen res c
    set x := pullOne deck snap (st, seen, res) c with hx
    have hstep : (c :: cs).foldl (pullOne deck snap) (st, seen, res) =
        cs.foldl (pullOne deck snap) (x.1, x.2.1, x.2.2) := by rw [hx]; rfl
    rw [hstep]
    have hnotes' : ∀ n ∈ x.1.notes, ¬n.id = M.note_id := by
      intro n hn
      rcases p7 n hn with ⟨n0, hn0, he⟩ | he
      · rw [he]; exact hnotes n0 hn0
      · rw [he]; omega
    have hlt' : M.note_id < x.1.next_note_id := by rw [p8]; omega
    rcases List.mem_cons.mp hc0 with he | hmem
    · subst he
      have hnone : get_note_by_id st M.note_id = none := by
        unfold get_note_by_id
        rw [List.find?_eq_none]
        intro n hn
        simp only [decide_eq_true_eq]
        exact hnotes n hn
      have hxrows : ∀ row ∈ x.1.mochi_sync, ¬row.mochi_card_id = stripId c0 :=
        p11 M hproc0 hfind0 hnone
      exact pullLoop_noRow deck snap cs (stripId c0) M (by rw [← hfind0]) x.1 x.2.1 x.2.2
        hxrows hlt' hnotes'
    · exact ih x.1 x.2.1 x.2.2 c0 M hmem hproc0 hfind0 hlt' hnotes'

theorem pullSweep_step (deck : String) (seen : List String)
    (st : Store) (res : PullResult) (l : SyncRow) :
    ((pullSweep deck seen (st, res) l).2.removed_stale_links =
      res.removed_stale_links +
        (if l.mochi_deck_id = deck ∧ l.mochi_card_id ∉ seen then 1 else 0)) ∧
    (pullSweep deck seen (st, res) l).2.created_local = res.created_local ∧
    (pullSweep deck seen (st, res) l).1.sources = st.sources ∧
    (pullSweep deck seen (st, res) l).1.notes = st.notes ∧
    (∀ row ∈ (pullSweep deck seen (st, res) l).1.mochi_sync, row ∈ st.mochi_sync) ∧
    (l.mochi_deck_id = deck → l.mochi_card_id ∉ seen →
      ∀ row ∈ (pullSweep deck seen (st, res) l).1.mochi_sync,
        ¬row.mochi_card_id = l.mochi_card_id) ∧
    (∀ L ∈ st.mochi_sync,
      (l.mochi_deck_id = deck → l.mochi_card_id ∉ seen →
        ¬L.mochi_card_id = l.mochi_card_id) →
      L ∈ (pullSweep deck seen (st, res) l).1.mochi_sync) := by
  unfold pullSweep
  dsimp only
  by_cases h1 : l.mochi_deck_id ≠ deck
  · rw [if_pos h1]
    refine ⟨?_, rfl, rfl, rfl, fun row h => h, ?_, fun L hL _ => hL⟩
    · rw [if_neg (fun h => h1 h.1)]
      rfl
    · intro h2
      exact absurd h2 h1
  · rw [if_neg h1]
    have hdeck : l.mochi_deck_id = deck := not_not.mp h1
    by_cases h2 : l.mochi_card_id ∈ seen
    · rw [if_pos h2]
      refine ⟨?_, rfl, rfl, rfl, fun row h => h, ?_, fun L hL _ => hL⟩
      · rw [if_neg (fun h => h.2 h2)]
        rfl
      · intro _ hnot
        exact absurd h2 hnot
    · rw [if_neg h2]
      refine ⟨?_, rfl, rfl, rfl, ?_, ?_, ?_⟩
      · rw [if_pos ⟨hdeck, h2⟩]
      · intro row hrow
        exact (List.mem_filter.mp hrow).1
      · intro _ _ row hrow he
        have hkeep := (List.mem_filter.mp hrow).2
        rw [he] at hkeep
        simp at hkeep
      · intro L hL hne
        apply List.mem_filter.mpr
        exact ⟨hL, decide_eq_true (hne hdeck h2)⟩

theorem pullSweep_spec (deck : String) (seen : List String) (links : List SyncRow) :
    ∀ (st : Store) (res : PullResult),
      (links.foldl (pullSweep deck seen) (st, res)).2.removed_stale_links =
        res.removed_stale_links +
          List.countP
            (fun l => decide (l.mochi_deck_id = deck ∧ l.mochi_card_id ∉ seen)) links ∧
      (links.foldl (pullSweep deck seen) (st, res)).2.created_local = res.created_local ∧
      (links.foldl (pullSweep deck seen) (st, res)).1.sources = st.sources ∧
      (links.foldl (pullSweep deck seen) (st, res)).1.notes = st.notes ∧
      (∀ row ∈ (links.foldl (pullSweep deck seen) (st, res)).1.mochi_sync,
        row ∈ st.mochi_sync) ∧
      (∀ l0 ∈ links, l0.mochi_deck_id = deck → l0.mochi_card_id ∉ seen →
        ∀ row ∈ (links.foldl (pullSweep deck seen) (st, res)).1.mochi_sync,
          ¬row.mochi_card_id = l0.mochi_card_id) ∧
      (∀ L ∈ st.mochi_sync,
        (∀ l0 ∈ links, l0.mochi_deck_id = deck → l0.mochi_card_id ∉ seen →
          ¬L.mochi_card_id = l0.mochi_card_id) →
        L ∈ (links.foldl (pullSweep deck seen) (st, res)).1.mochi_sync) := by
  induction links with
  | nil =>
    intro st res
    exact ⟨by simp, rfl, rfl, rfl, fun row h => h, by simp, fun L hL _ => hL⟩
  | cons l ls ih =>
    intro st res
    obtain ⟨s1, s2, s3, s4, s5, s6, s7⟩ := pullSweep_step deck seen st res l
    set x := pullSweep deck seen (st, res) l with hx
    have hstep : (l :: ls).foldl (pullSweep deck seen) (st, res) =
        ls.foldl (pullSweep deck seen) (x.1, x.2) := by rw [hx]; rfl
    obtain ⟨i1, i2, i3, i4, i5, i6, i7⟩ := ih x.1 x.2
    refine ⟨?_, ?_, ?_, ?_, ?_, ?_, ?_⟩
    · rw [hstep, i1, s1, List.countP_cons]
      simp only [decide_eq_true_eq]
      by_cases hc : l.mochi_deck_id = deck ∧ l.mochi_card_id ∉ seen
      · simp only [if_pos hc]
        omega
      · simp only [if_neg hc]
        omega
    · rw [hstep, i2, s2]
    · rw [hstep, i3, s3]
    · rw [hstep, i4, s4]
    · intro row hrow
      rw [hstep] at hrow
      exact s5 row (i5 row hrow)
    · intro l0 hl0 hd hn row hrow
      rw [hstep] at hrow
      rcases List.mem_cons.mp hl0 with he | hmem
      · subst he
        exact s6 hd hn row (i5 row hrow)
      · exact i6 l0 hmem hd hn row hrow
    · intro L hL hcond
      rw [hstep]
      refine i7 L ?_ ?_
      · exact s7 L hL (hcond l (List.mem_cons_self l ls))
      · exact fun l0 h => hcond l0 (List.mem_cons_of_mem l h)

/-- A store holding a single sync link that belongs to a different Mochi deck
("other") than the one being pulled. -/
def c4Store : Store :=
  ⟨[], [], [], [], [⟨1, "x", "other", "h", "rh", ""⟩], 1, 2, 1, 1⟩

/-- C4 counterexample: a pull pass over deck "deckA" whose full listing is
empty observes no card ids, so the claim requires every SyncLink whose card id
was not observed — including the "other"-deck link with card id "x" — to be
deleted.  The code's stale sweep skips links of other decks: the link survives
and `removed_stale_links` stays 0. -/
theorem pull_stale_deletion_counterexample :
    (sync_pull_on_cards c4Store [] "deckA").2.removed_stale_links = 0 ∧
    (sync_pull_on_cards c4Store [] "deckA").1.mochi_sync =
      [⟨1, "x", "other", "h", "rh", ""⟩] := by
  decide

/-- C4 (amended): characterization of one pull pass `sync_pull_on_cards`.
Writing `observed` for the stripped ids of the listed cards that are processed
(non-blank id and matching deck): (1) `created_local` counts exactly the
processed cards with no snapshot link, (2)–(3) each such card adds exactly one
local Note and one Source, (4) every new Source is created as "processed",
(5) `removed_stale_links` counts exactly the snapshot links OF THE SELECTED
DECK whose card id is not in `observed` (links of other decks are never
swept), (6) after the pass no link carries the card id of a selected-deck
snapshot link that was not observed, (7) every surviving link either predates
the pass or carries an observed card id, and (8) a second deletion path
exists inside the loop: a processed card whose snapshot link points to a
missing local Note gets its link deleted even though its card id WAS
observed. -/
theorem pull_pass_characterization (s : Store) (cards : List MochiCard) (deck : String) :
    (sync_pull_on_cards s cards deck).2.created_local =
      List.countP (fun c => decide (pullCreates s.mochi_sync deck c)) cards ∧
    (sync_pull_on_cards s cards deck).1.notes.length =
      s.notes.length + List.countP (fun c => decide (pullCreates s.mochi_sync deck c)) cards ∧
    (sync_pull_on_cards s cards deck).1.sources.length =
      s.sources.length +
        List.countP (fun c => decide (pullCreates s.mochi_sync deck c)) cards ∧
    (∀ src ∈ (sync_pull_on_cards s cards deck).1.sources,
      src ∈ s.sources ∨ src.status = "processed") ∧
    (sync_pull_on_cards s cards deck).2.removed_stale_links =
      List.countP (fun l => decide (l.mochi_deck_id = deck ∧
          l.mochi_card_id ∉ (cards.filter (fun c => decide (procP deck c))).map stripId))
        s.mochi_sync ∧
    (∀ l0 ∈ s.mochi_sync, l0.mochi_deck_id = deck →
      l0.mochi_card_id ∉ (cards.filter (fun c => decide (procP deck c))).map stripId →
      ∀ row ∈ (sync_pull_on_cards s cards deck).1.mochi_sync,
        ¬row.mochi_card_id = l0.mochi_card_id) ∧
    (∀ row ∈ (sync_pull_on_cards s cards deck).1.mochi_sync,
      row ∈ s.mochi_sync ∨
        row.mochi_card_id ∈ (cards.filter (fun c => decide (procP deck c))).map stripId) ∧
    (∀ c0 ∈ cards, procP deck c0 →
      ∀ M, s.mochi_sync.find? (fun l => l.mochi_card_id = stripId c0) = some M →
      M.note_id < s.next_note_id → (∀ n ∈ s.notes, ¬n.id = M.note_id) →
      ∀ row ∈ (sync_pull_on_cards s cards deck).1.mochi_sync,
        ¬row.mochi_card_id = stripId c0) := by
  obtain ⟨l1, l2, l3, l4, l5, l6, l7, l8, l9⟩ :=
    pullLoop_spec deck s.mochi_sync cards s [] ⟨cards.length, 0, 0, 0, 0⟩
  obtain ⟨w1, w2, w3, w4, w5, w6, w7⟩ :=
    pullSweep_spec deck
      (cards.foldl (pullOne deck s.mochi_sync) (s, [], ⟨cards.length, 0, 0, 0, 0⟩)).2.1
      s.mochi_sync
      (cards.foldl (pullOne deck s.mochi_sync) (s, [], ⟨cards.length, 0, 0, 0, 0⟩)).1
      (cards.foldl (pullOne deck s.mochi_sync) (s, [], ⟨cards.length, 0, 0, 0, 0⟩)).2.2
  have hfinal : sync_pull_on_cards s cards deck =
      s.mochi_sync.foldl
        (pullSweep deck
          (cards.foldl (pullOne deck s.mochi_sync)
            (s, [], ⟨cards.length, 0, 0, 0, 0⟩)).2.1)
        ((cards.foldl (pullOne deck s.mochi_sync) (s, [], ⟨cards.length, 0, 0, 0, 0⟩)).1,
          (cards.foldl (pullOne deck s.mochi_sync)
            (s, [], ⟨cards.length, 0, 0, 0, 0⟩)).2.2) := rfl
  have hseen : (cards.foldl (pullOne deck s.mochi_sync)
      (s, [], ⟨cards.length, 0, 0, 0, 0⟩)).2.1 =
      (cards.filter (fun c => decide (procP deck c))).map stripId := by
    rw [l8]
    rfl
  refine ⟨?_, ?_, ?_, ?_, ?_, ?_, ?_, ?_⟩
  · rw [hfinal, w2, l1]
    show 0 + _ = _
    omega
  · rw [hfinal, w4, l5]
  · rw [hfinal, w3, l3]
  · intro src hsrc
    rw [hfinal, w3] at hsrc
    exact l4 src hsrc
  · rw [hfinal, w1, l2, hseen]
    show 0 + _ = _
    omega
  · intro l0 hl0 hd hn row hrow
    rw [hfinal] at hrow
    refine w6 l0 hl0 hd ?_ row hrow
    rw [hseen]
    exact hn
  · intro row hrow
    rw [hfinal] at hrow
    exact l9 row (w5 row hrow)
  · intro c0 hc0 hp M hfind hlt hnotes row hrow
    rw [hfinal] at hrow
    exact pullLoop_dangling deck s.mochi_sync cards s [] ⟨cards.length, 0, 0, 0, 0⟩
      c0 M hc0 hp hfind hlt hnotes row (w5 row hrow)

/-- Closed instance of the C4 characterization at a concrete store and deck. -/
theorem pull_pass_characterization_witness :
    (sync_pull_on_cards c4Store [] "deckA").2.created_local =
      List.countP (fun c => decide (pullCreates c4Store.mochi_sync "deckA" c)) [] :=
  (pull_pass_characterization c4Store [] "deckA").1

/-! ## C6: the remote field mapping as a best-effort inverse

Token model for cloze texts: a cloze source is a concatenation of plain
segments and Anki markers `{{cN::body}}`.  `renderA` produces the Anki-side
text, `renderM` the Mochi-side text (`{{N::body}}`). -/

/-- One lexical piece of a cloze text. -/
inductive ClozeTok where
  | plain (s : List Char)
  | marker (ds : List Char) (body : List Char)
deriving DecidableEq, Repr

/-- Anki-side rendering of one token. -/
def renderATok : ClozeTok → List Char
  | .plain s => s
  | .marker ds body => '{' :: '{' :: 'c' :: (ds ++ ':' :: ':' :: (body ++ ['}', '}']))

/-- Mochi-side rendering of one token. -/
def renderMTok : ClozeTok → List Char
  | .plain s => s
  | .marker ds body => '{' :: '{' :: (ds ++ ':' :: ':' :: (body ++ ['}', '}']))

/-- Anki-side rendering of a token list. -/
def renderA : List ClozeTok → List Char
  | [] => []
  | t :: ts => renderATok t ++ renderA ts

/-- Mochi-side rendering of a token list. -/
def renderM : List ClozeTok → List Char
  | [] => []
  | t :: ts => renderMTok t ++ renderM ts

/-- Well-formedness of a token: plain segments are nonempty and contain no
brace-opening and no newline; marker indices are nonempty digit runs; marker
bodies contain no braces and no newline. -/
def TokOK : ClozeTok → Prop
  | .plain s => s ≠ [] ∧ ∀ c ∈ s, ¬c = '{' ∧ ¬c = '\n'
  | .marker ds body =>
      ds ≠ [] ∧ (∀ c ∈ ds, c.isDigit = true) ∧
        ∀ c ∈ body, ¬c = '{' ∧ ¬c = '}' ∧ ¬c = '\n'

instance : DecidablePred TokOK := by
  intro t
  cases t with
  | plain s => exact inferInstanceAs (Decidable (_ ∧ _))
  | marker ds body => exact inferInstanceAs (Decidable (_ ∧ _ ∧ _))

/-- The basic card used in the C6 counterexample: a non-empty `extra`. -/
def c6Card : Card :=
  { type := "basic", front := "F", back := "B", cloze := "", extra := "E", tags := [] }

/-- The unmodified remote card produced by pushing `c6Card`. -/
def c6RemoteCard : MochiCard :=
  ⟨"mc1", mochi_note_content c6Card, "deckA", "", [], [], ""⟩

theorem dropWhile_eq_self_of_head (l : List Char)
    (h : ∀ a, l.head? = some a → isPySpace a = false) :
    l.dropWhile isPySpace = l := by
  cases l with
  | nil => rfl
  | cons a as => simp [List.dropWhile, h a rfl]

theorem pyStripList_eq_self_of_ends (l : List Char)
    (hh : ∀ a, l.head? = some a → isPySpace a = false)
    (hl : ∀ a, l.getLast? = some a → isPySpace a = false) :
    pyStripList l = l := by
  unfold pyStripList
  rw [dropWhile_eq_self_of_head l hh]
  rw [dropWhile_eq_self_of_head l.reverse (by
    intro a ha
    rw [List.head?_reverse] at ha
    exact hl a ha)]
  simp

theorem pyStripList_append_newline (l : List Char) (hne : l ≠ [])
    (hh : ∀ a, l.head? = some a → isPySpace a = false)
    (hl : ∀ a, l.getLast? = some a → isPySpace a = false) :
    pyStripList (l ++ ['\n']) = l := by
  unfold pyStripList
  rw [dropWhile_eq_self_of_head (l ++ ['\n']) (by
    intro a ha
    cases l with
    | nil => exact absurd rfl hne
    | cons b bs =>
      simp only [List.cons_append, List.head?_cons, Option.some.injEq] at ha
      exact ha ▸ hh b rfl)]
  rw [List.reverse_append]
  show List.reverse (List.dropWhile isPySpace ('\n' :: l.reverse)) = l
  rw [List.dropWhile_cons_of_pos (by decide)]
  rw [dropWhile_eq_self_of_head l.reverse (by
    intro a ha
    rw [List.head?_reverse] at ha
    exact hl a ha)]
  simp

theorem takeWhile_digits_sep (ds rest : List Char) (hd : ∀ c ∈ ds, c.isDigit = true) :
    (ds ++ ':' :: rest).takeWhile Char.isDigit = ds ∧
      (ds ++ ':' :: rest).dropWhile Char.isDigit = ':' :: rest := by
  induction ds with
  | nil =>
    constructor
    · rw [List.nil_append, List.takeWhile_cons_of_neg (by decide)]
    · rw [List.nil_append, List.dropWhile_cons_of_neg (by decide)]
  | cons d ds' ih =>
    obtain ⟨ih1, ih2⟩ := ih (fun c hc => hd c (List.mem_cons_of_mem d hc))
    have hdd := hd d (List.mem_cons_self d ds')
    constructor
    · rw [List.cons_append, List.takeWhile_cons_of_pos hdd, ih1]
    · rw [List.cons_append, List.dropWhile_cons_of_pos hdd, ih2]

theorem takeClozeBody_spec (body rest : List Char)
    (h : ∀ c ∈ body, ¬c = '}' ∧ ¬c = '\n') :
    takeClozeBody (body ++ '}' :: '}' :: rest) = some (body, rest) := by
  induction body with
  | nil => rfl
  | cons c cs ih =>
    obtain ⟨hc1, hc2⟩ := h c (List.mem_cons_self c cs)
    rw [List.cons_append]
    unfold takeClozeBody
    split
    · rename_i heq
      exact absurd heq (by simp)
    · rename_i heq
      exact absurd (List.cons.inj heq).1 hc1
    · rename_i heq
      exact absurd (List.cons.inj heq).1 hc2
    · rename_i c' cs' heq
      obtain ⟨he1, he2⟩ := List.cons.inj heq
      rw [← he1, ← he2, ih (fun a ha => h a (List.mem_cons_of_mem c ha))]

theorem tryAnkiMarker_at_marker (ds body rest : List Char) (hds : ds ≠ [])
    (hdig : ∀ c ∈ ds, c.isDigit = true) (hb : ∀ c ∈ body, ¬c = '}' ∧ ¬c = '\n') :
    tryAnkiMarker ('{' :: '{' :: 'c' :: (ds ++ ':' :: ':' :: (body ++ '}' :: '}' :: rest))) =
      some (ds, body, rest) := by
  obtain ⟨ht, hdw⟩ := takeWhile_digits_sep ds (':' :: (body ++ '}' :: '}' :: rest)) hdig
  simp only [tryAnkiMarker, ht, hdw, if_neg hds, takeClozeBody_spec body rest hb]

theorem tryMochiMarker_at_marker (ds body rest : List Char) (hds : ds ≠ [])
    (hdig : ∀ c ∈ ds, c.isDigit = true) (hb : ∀ c ∈ body, ¬c = '}' ∧ ¬c = '\n') :
    tryMochiMarker ('{' :: '{' :: (ds ++ ':' :: ':' :: (body ++ '}' :: '}' :: rest))) =
      some (ds, body, rest) := by
  obtain ⟨ht, hdw⟩ := takeWhile_digits_sep ds (':' :: (body ++ '}' :: '}' :: rest)) hdig
  simp only [tryMochiMarker, ht, hdw, if_neg hds, takeClozeBody_spec body rest hb]

theorem tryAnkiMarker_none_of_head (c : Char) (cs : List Char) (h : ¬c = '{') :
    tryAnkiMarker (c :: cs) = none := by
  unfold tryAnkiMarker
  split
  · rename_i heq
    exact absurd (List.cons.inj heq).1 h
  · rfl

theorem tryMochiMarker_none_of_head (c : Char) (cs : List Char) (h : ¬c = '{') :
    tryMochiMarker (c :: cs) = none := by
  unfold tryMochiMarker
  split
  · rename_i heq
    exact absurd (List.cons.inj heq).1 h
  · rfl

theorem subAnkiToMochi_cons (f : Nat) (c : Char) (cs : List Char) :
    subAnkiToMochi (f + 1) (c :: cs) =
      match tryAnkiMarker (c :: cs) with
      | some (ds, body, rest) =>
        '{' :: '{' :: (ds ++ ':' :: ':' :: body ++ ['}', '}']) ++ subAnkiToMochi f rest
      | none => c :: subAnkiToMochi f cs := rfl

theorem subMochiToAnki_cons (f : Nat) (c : Char) (cs : List Char) :
    subMochiToAnki (f + 1) (c :: cs) =
      match tryMochiMarker (c :: cs) with
      | some (ds, body, rest) =>
        '{' :: '{' :: 'c' :: (ds ++ ':' :: ':' :: body ++ ['}', '}']) ++ subMochiToAnki f rest
      | none => c :: subMochiToAnki f cs := rfl

theorem subA_plain (s : List Char) : ∀ (r : List Char) (fuel : Nat),
    (∀ c ∈ s, ¬c = '{') → (s ++ r).length ≤ fuel →
    subAnkiToMochi fuel (s ++ r) = s ++ subAnkiToMochi (fuel - s.length) r := by
  induction s with
  | nil => intro r fuel _ _; simp
  | cons c s' ih =>
    intro r fuel hs hfuel
    simp only [List.length_append, List.length_cons] at hfuel
    cases fuel with
    | zero => omega
    | succ f =>
      rw [List.cons_append]
      rw [subAnkiToMochi_cons f c (s' ++ r)]
      rw [tryAnkiMarker_none_of_head c _ (hs c (List.mem_cons_self c s'))]
      show c :: subAnkiToMochi f (s' ++ r) = _
      rw [ih r f (fun a ha => hs a (List.mem_cons_of_mem c ha))
        (by simp only [List.length_append]; omega)]
      have hsub : f + 1 - (c :: s').length = f - s'.length := by
        simp only [List.length_cons]
        omega
      rw [hsub, List.cons_append]

theorem subM_plain (s : List Char) : ∀ (r : List Char) (fuel : Nat),
    (∀ c ∈ s, ¬c = '{') → (s ++ r).length ≤ fuel →
    subMochiToAnki fuel (s ++ r) = s ++ subMochiToAnki (fuel - s.length) r := by
  induction s with
  | nil => intro r fuel _ _; simp
  | cons c s' ih =>
    intro r fuel hs hfuel
    simp only [List.length_append, List.length_cons] at hfuel
    cases fuel with
    | zero => omega
    | succ f =>
      rw [List.cons_append]
      rw [subMochiToAnki_cons f c (s' ++ r)]
      rw [tryMochiMarker_none_of_head c _ (hs c (List.mem_cons_self c s'))]
      show c :: subMochiToAnki f (s' ++ r) = _
      rw [ih r f (fun a ha => hs a (List.mem_cons_of_mem c ha))
        (by simp only [List.length_append]; omega)]
      have hsub : f + 1 - (c :: s').length = f - s'.length := by
        simp only [List.length_cons]
        omega
      rw [hsub, List.cons_append]

theorem subA_render (ts : List ClozeTok) : ∀ (fuel : Nat), (∀ t ∈ ts, TokOK t) →
    (renderA ts).length ≤ fuel → subAnkiToMochi fuel (renderA ts) = renderM ts := by
  induction ts with
  | nil => intro fuel _ _; cases fuel <;> rfl
  | cons t ts' ih =>
    intro fuel hOK hfuel
    have hOKt := hOK t (List.mem_cons_self t ts')
    have hOK' := fun t' ht' => hOK t' (List.mem_cons_of_mem t ht')
    cases t with
    | plain s =>
      obtain ⟨_, hchars⟩ := hOKt
      show subAnkiToMochi fuel (s ++ renderA ts') = s ++ renderM ts'
      rw [subA_plain s (renderA ts') fuel (fun c hc => (hchars c hc).1)
        (by simpa [renderA, renderATok] using hfuel)]
      rw [ih (fuel - s.length) hOK' (by
        simp only [renderA, renderATok, List.length_append] at hfuel ⊢
        omega)]
    | marker ds body =>
      obtain ⟨hds, hdig, hb⟩ := hOKt
      have hsh : renderA (ClozeTok.marker ds body :: ts') =
          '{' :: '{' :: 'c' :: (ds ++ ':' :: ':' :: (body ++ '}' :: '}' :: renderA ts')) := by
        simp [renderA, renderATok, List.append_assoc]
      rw [hsh] at hfuel ⊢
      simp only [List.length_cons, List.length_append] at hfuel
      cases fuel with
      | zero => omega
      | succ f =>
        rw [subAnkiToMochi_cons]
        rw [tryAnkiMarker_at_marker ds body (renderA ts') hds hdig
          (fun c hc => ⟨(hb c hc).2.1, (hb c hc).2.2⟩)]
        show '{' :: '{' :: (ds ++ ':' :: ':' :: body ++ ['}', '}']) ++
            subAnkiToMochi f (renderA ts') = _
        rw [ih f hOK' (by omega)]
        simp [renderM, renderMTok, List.append_assoc]

theorem subM_render (ts : List ClozeTok) : ∀ (fuel : Nat), (∀ t ∈ ts, TokOK t) →
    (renderM ts).length ≤ fuel → subMochiToAnki fuel (renderM ts) = renderA ts := by
  induction ts with
  | nil => intro fuel _ _; cases fuel <;> rfl
  | cons t ts' ih =>
    intro fuel hOK hfuel
    have hOKt := hOK t (List.mem_cons_self t ts')
    have hOK' := fun t' ht' => hOK t' (List.mem_cons_of_mem t ht')
    cases t with
    | plain s =>
      obtain ⟨_, hchars⟩ := hOKt
      show subMochiToAnki fuel (s ++ renderM ts') = s ++ renderA ts'
      rw [subM_plain s (renderM ts') fuel (fun c hc => (hchars c hc).1)
        (by simpa [renderM, renderMTok] using hfuel)]
      rw [ih (fuel - s.length) hOK' (by
        simp only [renderM, renderMTok, List.length_append] at hfuel ⊢
        omega)]
    | marker ds body =>
      obtain ⟨hds, hdig, hb⟩ := hOKt
      have hsh : renderM (ClozeTok.marker ds body :: ts') =
          '{' :: '{' :: (ds ++ ':' :: ':' :: (body ++ '}' :: '}' :: renderM ts')) := by
        simp [renderM, renderMTok, List.append_assoc]
      rw [hsh] at hfuel ⊢
      simp only [List.length_cons, List.length_append] at hfuel
      cases fuel with
      | zero => omega
      | succ f =>
        rw [subMochiToAnki_cons]
        rw [tryMochiMarker_at_marker ds body (renderM ts') hds hdig
          (fun c hc => ⟨(hb c hc).2.1, (hb c hc).2.2⟩)]
        show '{' :: '{' :: 'c' :: (ds ++ ':' :: ':' :: body ++ ['}', '}']) ++
            subMochiToAnki f (renderM ts') = _
        rw [ih f hOK' (by omega)]
        simp [renderA, renderATok, List.append_assoc]

theorem anki_to_mochi_render (ts : List ClozeTok) (hOK : ∀ t ∈ ts, TokOK t) :
    anki_cloze_to_mochi ⟨renderA ts⟩ = ⟨renderM ts⟩ := by
  unfold anki_cloze_to_mochi
  exact congrArg _ (subA_render ts _ hOK (le_refl _))

theorem mochi_to_anki_render (ts : List ClozeTok) (hOK : ∀ t ∈ ts, TokOK t) :
    mochi_cloze_to_anki ⟨renderM ts⟩ = ⟨renderA ts⟩ := by
  unfold mochi_cloze_to_anki
  exact congrArg _ (subM_render ts _ hOK (le_refl _))

theorem sepMatchLen_newline (rest : List Char) :
    sepMatchLen ('\n' :: rest) =
      (if 3 ≤ (rest.takeWhile (fun c => c = '-')).length ∧
          (rest.drop (rest.takeWhile (fun c => c = '-')).length).head? = some '\n'
        then some ((rest.takeWhile (fun c => c = '-')).length + 2) else none) := rfl

theorem sepMatchLen_not_newline (c : Char) (cs : List Char) (h : ¬c = '\n') :
    sepMatchLen (c :: cs) = none := by
  unfold sepMatchLen
  split
  · rename_i heq
    exact absurd (List.cons.inj heq).1 h
  · rfl

theorem findSep_cons (f : Nat) (c : Char) (cs : List Char) :
    findSep (f + 1) (c :: cs) =
      match sepMatchLen (c :: cs) with
      | some len => some (0, len)
      | none =>
        match findSep f cs with
        | some (i, len) => some (i + 1, len)
        | none => none := rfl

theorem findSep_none_of_no_newline : ∀ (fuel : Nat) (l : List Char),
    (∀ c ∈ l, ¬c = '\n') → findSep fuel l = none := by
  intro fuel
  induction fuel with
  | zero => intro l _; rfl
  | succ f ih =>
    intro l hl
    cases l with
    | nil => rfl
    | cons c cs =>
      rw [findSep_cons, sepMatchLen_not_newline c cs (hl c (List.mem_cons_self c cs))]
      show (match findSep f cs with
        | some (i, len) => some (i + 1, len)
        | none => none) = none
      rw [ih cs (fun a ha => hl a (List.mem_cons_of_mem c ha))]

theorem findSep_skip (l : List Char) : ∀ (r : List Char) (fuel : Nat),
    (∀ c ∈ l, ¬c = '\n') →
    findSep (l.length + fuel) (l ++ r) =
      (findSep fuel r).map (fun p => (l.length + p.1, p.2)) := by
  induction l with
  | nil =>
    intro r fuel _
    simp
  | cons c l' ih =>
    intro r fuel hl
    have harith : (c :: l').length + fuel = (l'.length + fuel) + 1 := by
      simp only [List.length_cons]
      omega
    rw [harith, List.cons_append, findSep_cons,
      sepMatchLen_not_newline c _ (hl c (List.mem_cons_self c l'))]
    show (match findSep (l'.length + fuel) (l' ++ r) with
      | some (i, len) => some (i + 1, len)
      | none => none) = _
    rw [ih r fuel (fun a ha => hl a (List.mem_cons_of_mem c ha))]
    rcases hr : findSep fuel r with _ | ⟨i, len⟩
    · rfl
    · show some (l'.length + i + 1, len) = some ((c :: l').length + i, len)
      simp only [List.length_cons]
      congr 2
      omega

theorem sepblock_first_none (back : List Char) :
    sepMatchLen ('\n' :: '\n' :: '-' :: '-' :: '-' :: '\n' :: back) = none := by
  rw [sepMatchLen_newline, List.takeWhile_cons_of_neg (by decide)]
  rw [if_neg (fun h => absurd h.1 (by decide))]

theorem sepblock_match (back : List Char) :
    sepMatchLen ('\n' :: '-' :: '-' :: '-' :: '\n' :: back) = some 5 := by
  rw [sepMatchLen_newline]
  have ht : (('-' :: '-' :: '-' :: '\n' :: back).takeWhile (fun c => c = '-')) =
      ['-', '-', '-'] := by
    rw [List.takeWhile_cons_of_pos (by decide), List.takeWhile_cons_of_pos (by decide),
      List.takeWhile_cons_of_pos (by decide), List.takeWhile_cons_of_neg (by decide)]
  rw [ht]
  rw [if_pos ⟨by decide, by rfl⟩]
  rfl

theorem findSep_block (back : List Char) :
    findSep (6 + back.length) ('\n' :: '\n' :: '-' :: '-' :: '-' :: '\n' :: back) =
      some (1, 5) := by
  have h6 : 6 + back.length = ((4 + back.length) + 1) + 1 := by omega
  rw [h6, findSep_cons, sepblock_first_none]
  show (match findSep ((4 + back.length) + 1) ('\n' :: '-' :: '-' :: '-' :: '\n' :: back) with
    | some (i, len) => some (i + 1, len)
    | none => none) = some (1, 5)
  rw [findSep_cons, sepblock_match]

theorem findSep_basic (front back : List Char) (hf : ∀ c ∈ front, ¬c = '\n') :
    findSep (front ++ '\n' :: '\n' :: '-' :: '-' :: '-' :: '\n' :: back).length
      (front ++ '\n' :: '\n' :: '-' :: '-' :: '-' :: '\n' :: back) =
      some (front.length + 1, 5) := by
  have hlen : (front ++ '\n' :: '\n' :: '-' :: '-' :: '-' :: '\n' :: back).length =
      front.length + (6 + back.length) := by
    simp only [List.length_append, List.length_cons]
    omega
  rw [hlen, findSep_skip front _ (6 + back.length) hf, findSep_block]
  rfl

theorem take_len_plus {α : Type} (l r : List α) (k : Nat) :
    (l ++ r).take (l.length + k) = l ++ r.take k := by
  induction l with
  | nil => simp
  | cons a l' ih =>
    have : (a :: l').length + k = (l'.length + k) + 1 := by
      simp only [List.length_cons]
      omega
    rw [this, List.cons_append, List.take_succ_cons, ih, List.cons_append]

theorem drop_len_plus {α : Type} (l r : List α) (k : Nat) :
    (l ++ r).drop (l.length + k) = r.drop k := by
  induction l with
  | nil => simp
  | cons a l' ih =>
    have : (a :: l').length + k = (l'.length + k) + 1 := by
      simp only [List.length_cons]
      omega
    rw [this, List.cons_append, List.drop_succ_cons, ih]

theorem split_basic (front back : List Char)
    (hfront_ne : front ≠ []) (_hback_ne : back ≠ [])
    (hf_nl : ∀ c ∈ front, ¬c = '\n')
    (hf_head : ∀ a, front.head? = some a → isPySpace a = false)
    (hf_last : ∀ a, front.getLast? = some a → isPySpace a = false)
    (hb_head : ∀ a, back.head? = some a → isPySpace a = false)
    (hb_last : ∀ a, back.getLast? = some a → isPySpace a = false) :
    mochi_split_content ⟨front ++ '\n' :: '\n' :: '-' :: '-' :: '-' :: '\n' :: back⟩ =
      (⟨front⟩, ⟨back⟩) := by
  unfold mochi_split_content
  rw [if_neg (by
    intro h
    have : front ++ '\n' :: '\n' :: '-' :: '-' :: '-' :: '\n' :: back = [] :=
      congrArg String.data h
    simp at this)]
  show (match findSep (front ++ '\n' :: '\n' :: '-' :: '-' :: '-' :: '\n' :: back).length
      (front ++ '\n' :: '\n' :: '-' :: '-' :: '-' :: '\n' :: back) with
    | none => (pyStrip ⟨front ++ '\n' :: '\n' :: '-' :: '-' :: '-' :: '\n' :: back⟩, "")
    | some (i, len) =>
      (pyStrip ⟨(front ++ '\n' :: '\n' :: '-' :: '-' :: '-' :: '\n' :: back).take i⟩,
        pyStrip ⟨(front ++ '\n' :: '\n' :: '-' :: '-' :: '-' :: '\n' :: back).drop (i + len)⟩))
    = (⟨front⟩, ⟨back⟩)
  rw [findSep_basic front back hf_nl]
  show (pyStrip ⟨(front ++ '\n' :: '\n' :: '-' :: '-' :: '-' :: '\n' :: back).take
        (front.length + 1)⟩,
      pyStrip ⟨(front ++ '\n' :: '\n' :: '-' :: '-' :: '-' :: '\n' :: back).drop
        (front.length + 1 + 5)⟩) = (⟨front⟩, ⟨back⟩)
  have htake : (front ++ '\n' :: '\n' :: '-' :: '-' :: '-' :: '\n' :: back).take
      (front.length + 1) = front ++ ['\n'] :=
    take_len_plus front _ 1
  have harith : front.length + 1 + 5 = front.length + 6 := by omega
  have hdrop : (front ++ '\n' :: '\n' :: '-' :: '-' :: '-' :: '\n' :: back).drop
      (front.length + 6) = back :=
    drop_len_plus front _ 6
  rw [htake, harith, hdrop]
  unfold pyStrip
  rw [show (⟨front ++ ['\n']⟩ : String).data = front ++ ['\n'] from rfl,
    show (⟨back⟩ : String).data = back from rfl,
    pyStripList_append_newline front hfront_ne hf_head hf_last,
    pyStripList_eq_self_of_ends back hb_head hb_last]

theorem head?_append_left {α : Type} (l r : List α) (h : l ≠ []) :
    (l ++ r).head? = l.head? := by
  cases l with
  | nil => exact absurd rfl h
  | cons a as => rfl

theorem getLast?_append_right {α : Type} (l r : List α) (h : r ≠ []) :
    (l ++ r).getLast? = r.getLast? := by
  rw [← List.head?_reverse, List.reverse_append,
    head?_append_left _ _ (by simpa using h), List.head?_reverse]

theorem basic_content_data (c : Card) (htype : c.type = "basic") (hextra : c.extra = "") :
    mochi_note_content c =
      ⟨c.front.data ++ '\n' :: '\n' :: '-' :: '-' :: '-' :: '\n' :: c.back.data⟩ := by
  unfold mochi_note_content
  rw [htype]
  rw [if_neg (by decide)]
  dsimp only
  rw [hextra, if_neg (by simp)]
  apply String.ext
  simp only [String.data_append]
  simp [List.append_assoc]

theorem basic_parse_aux (c : Card) (id deckId name updatedAt : String) (mt tg : List String)
    (htype : c.type = "basic") (hextra : c.extra = "")
    (hfront_ne : c.front.data ≠ []) (hback_ne : c.back.data ≠ [])
    (hf_nl : ∀ ch ∈ c.front.data, ¬ch = '\n')
    (hf_head : ∀ a, c.front.data.head? = some a → isPySpace a = false)
    (hf_last : ∀ a, c.front.data.getLast? = some a → isPySpace a = false)
    (hb_head : ∀ a, c.back.data.head? = some a → isPySpace a = false)
    (hb_last : ∀ a, c.back.data.getLast? = some a → isPySpace a = false)
    (hbrace : hasDoubleBrace c.front.data = false) :
    mochi_card_to_local_note ⟨id, mochi_note_content c, deckId, name, mt, tg, updatedAt⟩ =
      { type := "basic", front := c.front, back := c.back, cloze := "", extra := "",
        tags := normalize_tags (if mt ≠ [] then mt else tg) } := by
  have hstrip : pyStrip
      ⟨c.front.data ++ '\n' :: '\n' :: '-' :: '-' :: '-' :: '\n' :: c.back.data⟩ =
      ⟨c.front.data ++ '\n' :: '\n' :: '-' :: '-' :: '-' :: '\n' :: c.back.data⟩ := by
    unfold pyStrip
    congr 1
    apply pyStripList_eq_self_of_ends
    · intro a ha
      rw [head?_append_left _ _ hfront_ne] at ha
      exact hf_head a ha
    · intro a ha
      rw [show c.front.data ++ '\n' :: '\n' :: '-' :: '-' :: '-' :: '\n' :: c.back.data =
          (c.front.data ++ ['\n', '\n', '-', '-', '-', '\n']) ++ c.back.data from by
        simp [List.append_assoc]] at ha
      rw [getLast?_append_right _ _ hback_ne] at ha
      exact hb_last a ha
  have hsplit := split_basic c.front.data c.back.data hfront_ne hback_ne hf_nl
    hf_head hf_last hb_head hb_last
  have hfront_str : (c.front : String) ≠ "" := fun h => hfront_ne (congrArg String.data h)
  have hback_str : (c.back : String) ≠ "" := fun h => hback_ne (congrArg String.data h)
  unfold mochi_card_to_local_note
  dsimp only
  rw [basic_content_data c htype hextra, hstrip, hsplit]
  dsimp only
  rw [if_pos hfront_str]
  rw [if_neg (fun h => by
    rw [hbrace] at h
    exact absurd h.1 (by simp))]
  rw [if_pos hback_str, if_pos hfront_str]
  rfl

theorem hasDoubleBrace_cons_ne (c : Char) (cs : List Char) (h : ¬c = '{') :
    hasDoubleBrace (c :: cs) = hasDoubleBrace cs := by
  conv_lhs => unfold hasDoubleBrace
  split
  · rename_i heq
    exact absurd (List.cons.inj heq).1 h
  · rename_i heq
    rw [← (List.cons.inj heq).2]
  · rename_i heq
    exact absurd heq (by simp)

theorem hasDoubleBrace_append_no_brace (s : List Char) : ∀ (r : List Char),
    (∀ c ∈ s, ¬c = '{') → hasDoubleBrace (s ++ r) = hasDoubleBrace r := by
  induction s with
  | nil => intro r _; rfl
  | cons c s' ih =>
    intro r hs
    rw [List.cons_append,
      hasDoubleBrace_cons_ne c (s' ++ r) (hs c (List.mem_cons_self c s'))]
    exact ih r (fun a ha => hs a (List.mem_cons_of_mem c ha))

theorem hasDoubleBrace_renderM (ts : List ClozeTok) :
    ∀ ds body, ClozeTok.marker ds body ∈ ts → (∀ t ∈ ts, TokOK t) →
    hasDoubleBrace (renderM ts) = true := by
  induction ts with
  | nil => intro ds body hmem _; simp at hmem
  | cons t ts' ih =>
    intro ds body hmem hOK
    rcases List.mem_cons.mp hmem with he | hmem'
    · rw [← he]
      rfl
    · cases t with
      | plain s =>
        obtain ⟨_, hchars⟩ := hOK (ClozeTok.plain s) (List.mem_cons_self _ ts')
        show hasDoubleBrace (s ++ renderM ts') = true
        rw [hasDoubleBrace_append_no_brace s (renderM ts') (fun a ha => (hchars a ha).1)]
        exact ih ds body hmem' (fun t' ht' => hOK t' (List.mem_cons_of_mem _ ht'))
      | marker ds0 body0 => rfl

theorem hasMochiMarkerStart_append_right (l : List Char) : ∀ (r : List Char),
    hasMochiMarkerStart r = true → hasMochiMarkerStart (l ++ r) = true := by
  induction l with
  | nil => intro r h; exact h
  | cons c l' ih =>
    intro r h
    rw [List.cons_append]
    show (mochiMarkerHere (c :: (l' ++ r)) || hasMochiMarkerStart (l' ++ r)) = true
    rw [ih r h, Bool.or_true]

theorem hasMochiMarkerStart_marker (ds body rest : List Char) (hds : ds ≠ [])
    (hdig : ∀ c ∈ ds, c.isDigit = true) :
    hasMochiMarkerStart ('{' :: '{' :: (ds ++ ':' :: ':' :: (body ++ '}' :: '}' :: rest))) =
      true := by
  obtain ⟨ht, hdw⟩ := takeWhile_digits_sep ds (':' :: (body ++ '}' :: '}' :: rest)) hdig
  show (mochiMarkerHere ('{' :: '{' :: (ds ++ ':' :: ':' :: (body ++ '}' :: '}' :: rest))) ||
    hasMochiMarkerStart ('{' :: (ds ++ ':' :: ':' :: (body ++ '}' :: '}' :: rest)))) = true
  have hhere : mochiMarkerHere
      ('{' :: '{' :: (ds ++ ':' :: ':' :: (body ++ '}' :: '}' :: rest))) = true := by
    show (decide ((ds ++ ':' :: ':' :: (body ++ '}' :: '}' :: rest)).takeWhile
        Char.isDigit ≠ []) &&
      (match (ds ++ ':' :: ':' :: (body ++ '}' :: '}' :: rest)).dropWhile Char.isDigit with
       | ':' :: ':' :: _ => true
       | _ => false)) = true
    rw [ht, hdw]
    simp [hds]
  rw [hhere, Bool.true_or]

theorem renderM_no_newline (ts : List ClozeTok) (hOK : ∀ t ∈ ts, TokOK t) :
    ∀ c ∈ renderM ts, ¬c = '\n' := by
  induction ts with
  | nil => intro c hc; simp [renderM] at hc
  | cons t ts' ih =>
    intro c hc
    have hOKt := hOK t (List.mem_cons_self t ts')
    have hOK' := fun t' ht' => hOK t' (List.mem_cons_of_mem t ht')
    rcases List.mem_append.mp hc with hc1 | hc2
    · cases t with
      | plain s => exact (hOKt.2 c hc1).2
      | marker ds body =>
        obtain ⟨_, hdig, hb⟩ := hOKt
        have henum : c = '{' ∨ c ∈ ds ∨ c = ':' ∨ c ∈ body ∨ c = '}' := by
          simp only [renderMTok, List.mem_cons, List.mem_append, List.not_mem_nil,
            or_false] at hc1
          tauto
        rcases henum with h | h | h | h | h
        · rw [h]; decide
        · intro he
          have := hdig c h
          rw [he] at this
          exact absurd this (by decide)
        · rw [h]; decide
        · exact (hb c h).2.2
        · rw [h]; decide
    · exact ih hOK' c hc2

theorem renderM_ne_nil (ts : List ClozeTok) (ds body : List Char)
    (hmem : ClozeTok.marker ds body ∈ ts) : renderM ts ≠ [] := by
  induction ts with
  | nil => simp at hmem
  | cons t ts' ih =>
    rcases List.mem_cons.mp hmem with he | hmem'
    · rw [← he]
      intro h
      rw [show renderM (ClozeTok.marker ds body :: ts') =
        '{' :: '{' :: (ds ++ ':' :: ':' :: (body ++ ['}', '}'])) ++ renderM ts' from rfl] at h
      simp at h
    · intro h
      show False
      rw [show renderM (t :: ts') = renderMTok t ++ renderM ts' from rfl] at h
      exact ih hmem' (List.append_eq_nil.mp h).2

theorem renderM_append (l1 l2 : List ClozeTok) :
    renderM (l1 ++ l2) = renderM l1 ++ renderM l2 := by
  induction l1 with
  | nil => rfl
  | cons t ts ih =>
    show renderMTok t ++ renderM (ts ++ l2) = (renderMTok t ++ renderM ts) ++ renderM l2
    rw [ih, List.append_assoc]

theorem cloze_content_data (c : Card) (ts : List ClozeTok) (hOK : ∀ t ∈ ts, TokOK t)
    (htype : c.type = "cloze") (hextra : c.extra = "") (hcloze : c.cloze = ⟨renderA ts⟩) :
    mochi_note_content c = ⟨renderM ts⟩ := by
  unfold mochi_note_content
  rw [htype, if_pos rfl]
  dsimp only
  rw [hextra, if_neg (by simp)]
  rw [hcloze, anki_to_mochi_render ts hOK]

theorem dropWhile_length_le (p : Char → Bool) : ∀ (l : List Char),
    (l.dropWhile p).length ≤ l.length := by
  intro l
  induction l with
  | nil => simp
  | cons a t ih =>
    by_cases hp : p a
    · rw [List.dropWhile_cons_of_pos hp]
      simp only [List.length_cons]
      omega
    · rw [List.dropWhile_cons_of_neg hp]

theorem dropWhile_eq_self_of_length (p : Char → Bool) (l : List Char)
    (h : (l.dropWhile p).length = l.length) : l.dropWhile p = l := by
  cases l with
  | nil => rfl
  | cons a t =>
    by_cases hp : p a
    · rw [List.dropWhile_cons_of_pos hp] at h
      have := dropWhile_length_le p t
      simp only [List.length_cons] at h
      omega
    · rw [List.dropWhile_cons_of_neg hp]

theorem dropWhile_self_head (l : List Char) (h : l.dropWhile isPySpace = l) :
    ∀ a, l.head? = some a → isPySpace a = false := by
  intro a ha
  cases l with
  | nil => simp at ha
  | cons b t =>
    have hb : b = a := by simpa using ha
    cases hx : isPySpace a with
    | false => rfl
    | true =>
      rw [List.dropWhile_cons_of_pos (hb ▸ hx)] at h
      have h2 := congrArg List.length h
      have h3 := dropWhile_length_le isPySpace t
      simp only [List.length_cons] at h2
      omega

theorem strip_self_bounds (l : List Char) (h : pyStripList l = l) :
    (∀ a, l.head? = some a → isPySpace a = false) ∧
    (∀ a, l.getLast? = some a → isPySpace a = false) := by
  have h1 : l.dropWhile isPySpace = l := by
    apply dropWhile_eq_self_of_length
    have hlen := congrArg List.length h
    unfold pyStripList at hlen
    rw [List.length_reverse] at hlen
    have a1 := dropWhile_length_le isPySpace l
    have a2 := dropWhile_length_le isPySpace (l.dropWhile isPySpace).reverse
    rw [List.length_reverse] at a2
    omega
  have h2 : l.reverse.dropWhile isPySpace = l.reverse := by
    have h3 : ((l.reverse).dropWhile isPySpace).reverse = l := by
      have hh := h
      unfold pyStripList at hh
      rw [h1] at hh
      exact hh
    calc l.reverse.dropWhile isPySpace
        = (((l.reverse.dropWhile isPySpace)).reverse).reverse := by rw [List.reverse_reverse]
      _ = l.reverse := by rw [h3]
  refine ⟨dropWhile_self_head l h1, ?_⟩
  intro a ha
  refine dropWhile_self_head l.reverse h2 a ?_
  rw [List.head?_reverse]
  exact ha

theorem hasMochiMarkerStart_renderM (ts : List ClozeTok) (ds0 body0 : List Char)
    (hmem : ClozeTok.marker ds0 body0 ∈ ts) (hOK : ∀ t ∈ ts, TokOK t) :
    hasMochiMarkerStart (renderM ts) = true := by
  obtain ⟨hds0, hdig0, _⟩ := hOK (ClozeTok.marker ds0 body0) hmem
  obtain ⟨pre, post, hts⟩ := List.append_of_mem hmem
  have hra : renderM ts = renderM pre ++
      ('{' :: '{' :: (ds0 ++ ':' :: ':' :: (body0 ++ '}' :: '}' :: renderM post))) := by
    rw [hts, renderM_append]
    congr 1
    show renderMTok (ClozeTok.marker ds0 body0) ++ renderM post = _
    simp [renderMTok, List.append_assoc]
  rw [hra]
  exact hasMochiMarkerStart_append_right _ _
    (hasMochiMarkerStart_marker ds0 body0 _ hds0 hdig0)

theorem cloze_parse_noextra (ts : List ClozeTok) (c : Card)
    (id deckId name updatedAt : String)
    (mt tg : List String) (ds0 body0 : List Char)
    (hOK : ∀ t ∈ ts, TokOK t) (htype : c.type = "cloze") (hextra : c.extra = "")
    (hcloze : c.cloze = ⟨renderA ts⟩)
    (hmem : ClozeTok.marker ds0 body0 ∈ ts)
    (hhead : ∀ a, (renderM ts).head? = some a → isPySpace a = false)
    (hlast : ∀ a, (renderM ts).getLast? = some a → isPySpace a = false) :
    mochi_card_to_local_note ⟨id, mochi_note_content c, deckId, name, mt, tg, updatedAt⟩ =
      { type := "cloze", front := "", back := "", cloze := c.cloze, extra := "",
        tags := normalize_tags (if mt ≠ [] then mt else tg) } := by
  have hnn := renderM_no_newline ts hOK
  have hne := renderM_ne_nil ts ds0 body0 hmem
  have hstr : (⟨renderM ts⟩ : String) ≠ "" := fun h => hne (congrArg String.data h)
  have hstrip : pyStrip ⟨renderM ts⟩ = ⟨renderM ts⟩ := by
    unfold pyStrip
    congr 1
    exact pyStripList_eq_self_of_ends _ hhead hlast
  have hsplit : mochi_split_content ⟨renderM ts⟩ = (⟨renderM ts⟩, "") := by
    unfold mochi_split_content
    rw [if_neg hstr]
    rw [findSep_none_of_no_newline _ _ hnn]
    show (pyStrip ⟨renderM ts⟩, "") = _
    rw [hstrip]
  have hdb : hasDoubleBrace (renderM ts) = true :=
    hasDoubleBrace_renderM ts ds0 body0 hmem hOK
  obtain ⟨hds0, hdig0, _⟩ := hOK (ClozeTok.marker ds0 body0) hmem
  obtain ⟨pre, post, hts⟩ := List.append_of_mem hmem
  have hra : renderM ts = renderM pre ++
      ('{' :: '{' :: (ds0 ++ ':' :: ':' :: (body0 ++ '}' :: '}' :: renderM post))) := by
    rw [hts, renderM_append]
    congr 1
    show renderMTok (ClozeTok.marker ds0 body0) ++ renderM post = _
    simp [renderMTok, List.append_assoc]
  have hmm : hasMochiMarkerStart (renderM ts) = true := by
    rw [hra]
    exact hasMochiMarkerStart_append_right _ _
      (hasMochiMarkerStart_marker ds0 body0 _ hds0 hdig0)
  unfold mochi_card_to_local_note
  dsimp only
  rw [cloze_content_data c ts hOK htype hextra hcloze, hstrip, hsplit]
  dsimp only
  rw [if_pos hstr]
  rw [if_pos ⟨hdb, hmm⟩]
  rw [mochi_to_anki_render ts hOK, ← hcloze]
  rfl

theorem cloze_extra_content_data (c : Card) (ts : List ClozeTok)
    (hOK : ∀ t ∈ ts, TokOK t) (htype : c.type = "cloze") (hne : c.extra ≠ "")
    (hcloze : c.cloze = ⟨renderA ts⟩) :
    mochi_note_content c =
      ⟨renderM ts ++ '\n' :: '\n' :: '-' :: '-' :: '-' :: '\n' :: c.extra.data⟩ := by
  unfold mochi_note_content
  rw [htype, if_pos rfl]
  dsimp only
  rw [if_pos hne]
  rw [hcloze, anki_to_mochi_render ts hOK]
  apply String.ext
  simp only [String.data_append]
  simp [List.append_assoc]

theorem cloze_parse_extra (ts : List ClozeTok) (c : Card)
    (id deckId name updatedAt : String)
    (mt tg : List String) (ds0 body0 : List Char)
    (hOK : ∀ t ∈ ts, TokOK t) (htype : c.type = "cloze") (hne : c.extra ≠ "")
    (hstripx : pyStrip c.extra = c.extra)
    (hcloze : c.cloze = ⟨renderA ts⟩)
    (hmem : ClozeTok.marker ds0 body0 ∈ ts)
    (hhead : ∀ a, (renderM ts).head? = some a → isPySpace a = false)
    (hlast : ∀ a, (renderM ts).getLast? = some a → isPySpace a = false) :
    mochi_card_to_local_note ⟨id, mochi_note_content c, deckId, name, mt, tg, updatedAt⟩ =
      { type := "cloze", front := "", back := "", cloze := c.cloze, extra := c.extra,
        tags := normalize_tags (if mt ≠ [] then mt else tg) } := by
  have hnnl := renderM_no_newline ts hOK
  have hrne := renderM_ne_nil ts ds0 body0 hmem
  have hrstr : (⟨renderM ts⟩ : String) ≠ "" := fun h => hrne (congrArg String.data h)
  have hxdata : pyStripList c.extra.data = c.extra.data := congrArg String.data hstripx
  have hxne : c.extra.data ≠ [] := fun hd => hne (String.ext hd)
  obtain ⟨hxh, hxl⟩ := strip_self_bounds c.extra.data hxdata
  have hsplit := split_basic (renderM ts) c.extra.data hrne hxne hnnl hhead hlast hxh hxl
  have hwhole : pyStrip
      ⟨renderM ts ++ '\n' :: '\n' :: '-' :: '-' :: '-' :: '\n' :: c.extra.data⟩ =
      ⟨renderM ts ++ '\n' :: '\n' :: '-' :: '-' :: '-' :: '\n' :: c.extra.data⟩ := by
    unfold pyStrip
    congr 1
    apply pyStripList_eq_self_of_ends
    · intro a ha
      rw [head?_append_left _ _ hrne] at ha
      exact hhead a ha
    · intro a ha
      rw [show renderM ts ++ '\n' :: '\n' :: '-' :: '-' :: '-' :: '\n' :: c.extra.data =
          (renderM ts ++ ['\n', '\n', '-', '-', '-', '\n']) ++ c.extra.data from by
        simp [List.append_assoc]] at ha
      rw [getLast?_append_right _ _ hxne] at ha
      exact hxl a ha
  have hdb : hasDoubleBrace (renderM ts) = true :=
    hasDoubleBrace_renderM ts ds0 body0 hmem hOK
  have hmmk : hasMochiMarkerStart (renderM ts) = true :=
    hasMochiMarkerStart_renderM ts ds0 body0 hmem hOK
  unfold mochi_card_to_local_note
  dsimp only
  rw [cloze_extra_content_data c ts hOK htype hne hcloze, hwhole, hsplit]
  dsimp only
  rw [if_pos hrstr]
  rw [if_pos ⟨hdb, hmmk⟩]
  rw [mochi_to_anki_render ts hOK, ← hcloze]
  rfl

theorem cloze_parse_aux (ts : List ClozeTok) (c : Card) (id deckId name updatedAt : String)
    (mt tg : List String) (ds0 body0 : List Char)
    (hOK : ∀ t ∈ ts, TokOK t) (htype : c.type = "cloze")
    (hextra : pyStrip c.extra = c.extra)
    (hcloze : c.cloze = ⟨renderA ts⟩)
    (hmem : ClozeTok.marker ds0 body0 ∈ ts)
    (hhead : ∀ a, (renderM ts).head? = some a → isPySpace a = false)
    (hlast : ∀ a, (renderM ts).getLast? = some a → isPySpace a = false) :
    mochi_card_to_local_note ⟨id, mochi_note_content c, deckId, name, mt, tg, updatedAt⟩ =
      { type := "cloze", front := "", back := "", cloze := c.cloze, extra := c.extra,
        tags := normalize_tags (if mt ≠ [] then mt else tg) } := by
  by_cases he : c.extra = ""
  · rw [cloze_parse_noextra ts c id deckId name updatedAt mt tg ds0 body0 hOK htype he
      hcloze hmem hhead hlast, he]
  · exact cloze_parse_extra ts c id deckId name updatedAt mt tg ds0 body0 hOK htype he
      hextra hcloze hmem hhead hlast

theorem push_pull_pipeline_aux (s : Store) (n : Note) (deck : String)
    (h1 : s.notes = [n]) (h2 : s.mochi_sync = []) :
    (sync_pull_from_mochi (sync_push_to_mochi s ⟨[], 1⟩ deck s.notes).1
        (sync_push_to_mochi s ⟨[], 1⟩ deck s.notes).2.1 deck).1.notes = s.notes ∧
    (sync_pull_from_mochi (sync_push_to_mochi s ⟨[], 1⟩ deck s.notes).1
        (sync_push_to_mochi s ⟨[], 1⟩ deck s.notes).2.1 deck).2.unchanged = 1 ∧
    (sync_pull_from_mochi (sync_push_to_mochi s ⟨[], 1⟩ deck s.notes).1
        (sync_push_to_mochi s ⟨[], 1⟩ deck s.notes).2.1 deck).2.updated_local = 0 ∧
    (sync_pull_from_mochi (sync_push_to_mochi s ⟨[], 1⟩ deck s.notes).1
        (sync_push_to_mochi s ⟨[], 1⟩ deck s.notes).2.1 deck).2.created_local = 0 ∧
    (sync_pull_from_mochi (sync_push_to_mochi s ⟨[], 1⟩ deck s.notes).1
        (sync_push_to_mochi s ⟨[], 1⟩ deck s.notes).2.1 deck).2.removed_stale_links = 0 := by
  rw [h1]
  have hpush : sync_push_to_mochi s ⟨[], 1⟩ deck [n] =
      (link_mochi_sync s n.id "mc1" deck (note_hash n.card)
        (mochi_card_hash ⟨"mc1", mochi_note_content n.card, deck, "", n.tags, n.tags, ""⟩)
        "",
       ⟨[⟨"mc1", mochi_note_content n.card, deck, "", n.tags, n.tags, ""⟩], 2⟩,
       ⟨1, 1, 0, 0, 0, 0⟩) := by
    unfold sync_push_to_mochi
    rw [h2]
    show pushOne deck [] (s, ⟨[], 1⟩, ⟨1, 0, 0, 0, 0, 0⟩) n = _
    unfold pushOne
    dsimp only
    rw [List.find?_nil]
    dsimp only [mochi_create_card]
    rw [if_neg (show ¬("mc" ++ toString (1 : Nat) : String) = "" by decide)]
    rfl
  rw [hpush]
  set cd : MochiCard :=
    ⟨"mc1", mochi_note_content n.card, deck, "", n.tags, n.tags, ""⟩ with hcd
  set S1 : Store :=
    link_mochi_sync s n.id "mc1" deck (note_hash n.card) (mochi_card_hash cd) "" with hS1
  have hlist : mochi_list_cards ⟨[cd], 2⟩ deck = [cd] := by
    unfold mochi_list_cards
    simp [hcd]
  have hS1notes : S1.notes = [n] := by
    rw [hS1]
    show s.notes = [n]
    exact h1
  have hS1sync : S1.mochi_sync =
      [⟨n.id, "mc1", deck, note_hash n.card, mochi_card_hash cd, ""⟩] := by
    rw [hS1]
    unfold link_mochi_sync
    dsimp only
    rw [h2]
    rfl
  set row : SyncRow := ⟨n.id, "mc1", deck, note_hash n.card, mochi_card_hash cd, ""⟩
    with hrow
  set S2 : Store :=
    link_mochi_sync S1 n.id "mc1" deck (note_hash n.card) (mochi_card_hash cd) "" with hS2
  have hstep : pullOne deck [row] (S1, [], ⟨1, 0, 0, 0, 0⟩) cd =
      (S2, ["mc1"], ⟨1, 0, 0, 1, 0⟩) := by
    unfold pullOne
    dsimp only
    rw [if_neg (show ¬(pyStrip "mc1" = "") by decide)]
    rw [if_neg (show ¬(deck ≠ deck) by simp)]
    have hdec : decide (row.mochi_card_id = pyStrip "mc1") = true := rfl
    have hfind : [row].find? (fun l => l.mochi_card_id = pyStrip "mc1") = some row := by
      rw [List.find?_cons, hdec]
    rw [hfind]
    dsimp only
    have hget : get_note_by_id S1 n.id = some n := by
      unfold get_note_by_id
      rw [hS1notes]
      simp [List.find?]
    rw [hget]
    dsimp only
    rw [if_neg (show ¬(mochi_card_hash cd ≠ mochi_card_hash cd) by simp)]
    rfl
  have hsweep : pullSweep deck ["mc1"] (S2, ⟨1, 0, 0, 1, 0⟩) row = (S2, ⟨1, 0, 0, 1, 0⟩) := by
    unfold pullSweep
    dsimp only
    rw [if_neg (show ¬(deck ≠ deck) by simp)]
    rw [if_pos (show ("mc1" : String) ∈ ["mc1"] by decide)]
  have hpull : sync_pull_from_mochi S1 (⟨[cd], 2⟩ : Remote) deck =
      (S2, ⟨1, 0, 0, 1, 0⟩) := by
    unfold sync_pull_from_mochi
    rw [hlist]
    have hfold1 : List.foldl (pullOne deck [row]) (S1, [], ⟨1, 0, 0, 0, 0⟩) [cd] =
        (S2, ["mc1"], ⟨1, 0, 0, 1, 0⟩) := by
      rw [List.foldl_cons, List.foldl_nil, hstep]
    have hfold2 : List.foldl (pullSweep deck ["mc1"]) (S2, ⟨1, 0, 0, 1, 0⟩) [row] =
        (S2, ⟨1, 0, 0, 1, 0⟩) := by
      rw [List.foldl_cons, List.foldl_nil, hsweep]
    unfold sync_pull_on_cards
    dsimp only
    rw [hS1sync]
    rw [show ([cd] : List MochiCard).length = 1 from rfl]
    rw [hfold1]
    dsimp only
    rw [hfold2]
  rw [hpull]
  refine ⟨?_, rfl, rfl, rfl, rfl⟩
  rw [hS2]
  show S1.notes = [n]
  exact hS1notes

/-- C6 counterexample: the mapping is NOT a two-sided inverse on the semantic
fields.  Serializing the basic card (front "F", back "B", extra "E") and
parsing the unmodified remote card back folds the extra into the back
("B\n\nE") and loses the extra field, so the parsed fields are not equivalent
to the originals.  (The stored Note is still untouched by such a pull, because
the hash bookkeeping short-circuits before any parse-based update.) -/
theorem mapping_roundtrip_counterexample :
    (mochi_card_to_local_note c6RemoteCard).back ≠ c6Card.back ∧
    (mochi_card_to_local_note c6RemoteCard).extra ≠ c6Card.extra := by
  decide

/-- C6 (amended): the mapping is a best-effort inverse.  (1) Push-then-pull on
an untouched remote deck never rewrites the stored Note and increments
`unchanged` (not `updated_local`), for every Note, because the recorded remote
hash equals the listed card's hash; this holds regardless of how lossy the
field mapping is.  (2) For a clean basic card — no extra, nonempty single-line
trimmed front without `\x7b\x7b`, nonempty trimmed back — parse∘serialize
reproduces type, front, back, cloze and extra exactly.  (3) For a cloze card
whose text is a well-formed concatenation of brace-free plain segments and
`\x7b\x7bcN::body\x7d\x7d` markers (at least one marker, no newlines, trimmed
ends) and whose extra is a strip fixed point (already trimmed, possibly
empty), parse∘serialize reproduces the cloze text and the extra exactly; an
untrimmed extra comes back stripped, which is where the exactness stops. -/
theorem mochi_mapping_roundtrip :
    (∀ (s : Store) (n : Note) (deck : String), s.notes = [n] → s.mochi_sync = [] →
      (sync_pull_from_mochi (sync_push_to_mochi s ⟨[], 1⟩ deck s.notes).1
          (sync_push_to_mochi s ⟨[], 1⟩ deck s.notes).2.1 deck).1.notes = s.notes ∧
      (sync_pull_from_mochi (sync_push_to_mochi s ⟨[], 1⟩ deck s.notes).1
          (sync_push_to_mochi s ⟨[], 1⟩ deck s.notes).2.1 deck).2.unchanged = 1 ∧
      (sync_pull_from_mochi (sync_push_to_mochi s ⟨[], 1⟩ deck s.notes).1
          (sync_push_to_mochi s ⟨[], 1⟩ deck s.notes).2.1 deck).2.updated_local = 0 ∧
      (sync_pull_from_mochi (sync_push_to_mochi s ⟨[], 1⟩ deck s.notes).1
          (sync_push_to_mochi s ⟨[], 1⟩ deck s.notes).2.1 deck).2.created_local = 0 ∧
      (sync_pull_from_mochi (sync_push_to_mochi s ⟨[], 1⟩ deck s.notes).1
          (sync_push_to_mochi s ⟨[], 1⟩ deck s.notes).2.1
          deck).2.removed_stale_links = 0) ∧
    (∀ (c : Card) (id deckId name updatedAt : String) (mt tg : List String),
      c.type = "basic" → c.extra = "" →
      c.front.data ≠ [] → c.back.data ≠ [] →
      (∀ ch ∈ c.front.data, ¬ch = '\n') →
      (∀ a, c.front.data.head? = some a → isPySpace a = false) →
      (∀ a, c.front.data.getLast? = some a → isPySpace a = false) →
      (∀ a, c.back.data.head? = some a → isPySpace a = false) →
      (∀ a, c.back.data.getLast? = some a → isPySpace a = false) →
      hasDoubleBrace c.front.data = false →
      mochi_card_to_local_note ⟨id, mochi_note_content c, deckId, name, mt, tg, updatedAt⟩ =
        { type := "basic", front := c.front, back := c.back, cloze := "", extra := "",
          tags := normalize_tags (if mt ≠ [] then mt else tg) }) ∧
    (∀ (ts : List ClozeTok) (c : Card) (id deckId name updatedAt : String)
        (mt tg : List String) (ds0 body0 : List Char),
      (∀ t ∈ ts, TokOK t) → c.type = "cloze" → pyStrip c.extra = c.extra →
      c.cloze = ⟨renderA ts⟩ →
      ClozeTok.marker ds0 body0 ∈ ts →
      (∀ a, (renderM ts).head? = some a → isPySpace a = false) →
      (∀ a, (renderM ts).getLast? = some a → isPySpace a = false) →
      mochi_card_to_local_note ⟨id, mochi_note_content c, deckId, name, mt, tg, updatedAt⟩ =
        { type := "cloze", front := "", back := "", cloze := c.cloze, extra := c.extra,
          tags := normalize_tags (if mt ≠ [] then mt else tg) }) :=
  ⟨push_pull_pipeline_aux, basic_parse_aux, cloze_parse_aux⟩

/-- Closed instance of the C6 theorem: the clean basic card (front "F",
back "B", no extra) round-trips exactly. -/
theorem mochi_mapping_roundtrip_witness :
    mochi_card_to_local_note
      ⟨"id1", mochi_note_content
        { type := "basic", front := "F", back := "B", cloze := "", extra := "",
          tags := [] }, "d", "", [], [], ""⟩ =
      { type := "basic", front := "F", back := "B", cloze := "", extra := "",
        tags := normalize_tags (if ([] : List String) ≠ [] then [] else []) } :=
  mochi_mapping_roundtrip.2.1
    { type := "basic", front := "F", back := "B", cloze := "", extra := "", tags := [] }
    "id1" "d" "" "" [] [] rfl rfl (by decide) (by decide) (by decide)
    (by
      intro a ha
      have h2 : some 'F' = some a := ha
      cases h2
      decide)
    (by
      intro a ha
      have h2 : some 'F' = some a := ha
      cases h2
      decide)
    (by
      intro a ha
      have h2 : some 'B' = some a := ha
      cases h2
      decide)
    (by
      intro a ha
      have h2 : some 'B' = some a := ha
      cases h2
      decide)
    (by decide)

end AnkiBot
